import Mathlib

/-!
# Perspective graph node: transition calculator, existence mask, string column routine

A shallow embedding of `cpp/perspective/src/cpp/gnode.cpp`.  Functions that can
reach `PSP_COMPLAIN_AND_ABORT` or a failing `PSP_VERBOSE_ASSERT` return `Option`,
with `none` standing for the abort.
-/

namespace perspective

/-- Transition codes of `t_value_transition`. -/
inductive t_value_transition where
  | VALUE_TRANSITION_EQ_FF
  | VALUE_TRANSITION_EQ_TT
  | VALUE_TRANSITION_NEQ_FT
  | VALUE_TRANSITION_NEQ_TF
  | VALUE_TRANSITION_NEQ_TT
  | VALUE_TRANSITION_NVEQ_FT
  | VALUE_TRANSITION_NEQ_TDT
  | VALUE_TRANSITION_NEQ_TDF
  deriving DecidableEq, Repr

open t_value_transition

/-- The three process-wide switches read through `t_env` by `calc_transition`. -/
structure t_env where
  backout_invalid_neq_ft : Bool
  backout_eq_invalid_invalid : Bool
  backout_nveq_ft : Bool
  deriving DecidableEq, Repr

/-- All backout switches off. -/
def t_env.off : t_env := ⟨false, false, false⟩

/-- The function `t_gnode::calc_transition` (gnode.cpp 161-197).  The final `else`
(`PSP_COMPLAIN_AND_ABORT("Hit unexpected condition")`) is `none`. -/
def calc_transition (env : t_env)
    (prev_existed row_pre_existed exists_ prev_valid cur_valid prev_cur_eq prev_pkey_eq : Bool) :
    Option t_value_transition :=
  if !row_pre_existed && !cur_valid && !env.backout_invalid_neq_ft then
    some VALUE_TRANSITION_NEQ_FT
  else if row_pre_existed && !prev_valid && !cur_valid && !env.backout_eq_invalid_invalid then
    some VALUE_TRANSITION_EQ_TT
  else if !prev_existed && !exists_ then
    some VALUE_TRANSITION_EQ_FF
  else if row_pre_existed && exists_ && !prev_valid && cur_valid && !env.backout_nveq_ft then
    some VALUE_TRANSITION_NVEQ_FT
  else if prev_existed && exists_ && prev_cur_eq then
    some VALUE_TRANSITION_EQ_TT
  else if !prev_existed && exists_ then
    some VALUE_TRANSITION_NEQ_FT
  else if prev_existed && !exists_ then
    some VALUE_TRANSITION_NEQ_TF
  else if prev_existed && exists_ && !prev_cur_eq then
    some VALUE_TRANSITION_NEQ_TT
  else if prev_pkey_eq then
    some VALUE_TRANSITION_NEQ_TDT
  else
    none

/-- The seven boolean arguments of the transition calculator, as one record. -/
structure t_transition_flags where
  prev_existed : Bool
  row_pre_existed : Bool
  exists_ : Bool
  prev_valid : Bool
  cur_valid : Bool
  prev_cur_eq : Bool
  prev_pkey_eq : Bool
  deriving DecidableEq, Repr

/-- The priority-ordered rule table of the specification (section 4.5, rules 1 to 9),
written from the words of the specification: a guard and the code it yields. -/
def spec_rule_table : List ((t_transition_flags → Bool) × t_value_transition) :=
  [ (fun a => !a.row_pre_existed && !a.cur_valid, VALUE_TRANSITION_NEQ_FT),
    (fun a => a.row_pre_existed && !a.prev_valid && !a.cur_valid, VALUE_TRANSITION_EQ_TT),
    (fun a => !a.prev_existed && !a.exists_, VALUE_TRANSITION_EQ_FF),
    (fun a => a.row_pre_existed && a.exists_ && !a.prev_valid && a.cur_valid,
      VALUE_TRANSITION_NVEQ_FT),
    (fun a => a.prev_existed && a.exists_ && a.prev_cur_eq, VALUE_TRANSITION_EQ_TT),
    (fun a => !a.prev_existed && a.exists_, VALUE_TRANSITION_NEQ_FT),
    (fun a => a.prev_existed && !a.exists_, VALUE_TRANSITION_NEQ_TF),
    (fun a => a.prev_existed && a.exists_ && !a.prev_cur_eq, VALUE_TRANSITION_NEQ_TT),
    (fun a => a.prev_pkey_eq, VALUE_TRANSITION_NEQ_TDT) ]

/-- First match wins: the code of the first rule whose guard holds, `none` when no
rule matches (rule 10 of the specification, fatal). -/
def spec_first_match (rules : List ((t_transition_flags → Bool) × t_value_transition))
    (a : t_transition_flags) : Option t_value_transition :=
  match rules with
  | [] => none
  | (guard, code) :: rest => if guard a then some code else spec_first_match rest a

/-! ## Data model: columns, vocabulary, mask, process state -/

/-- Modelled from the spec: the byte of `psp_op` for an insert (section 3,
`INSERT=0`); the enumeration `t_op` is declared outside gnode.cpp. -/
def OP_INSERT : Nat := 0

/-- Modelled from the spec: the byte of `psp_op` for a delete (section 3,
`DELETE=1`); the enumeration `t_op` is declared outside gnode.cpp. -/
def OP_DELETE : Nat := 1

/-- Result of `t_gstate::lookup`: whether the key is mapped, and its master row. -/
structure t_rlookup where
  m_idx : Nat
  m_exists : Bool
  deriving DecidableEq, Repr

/-- Modelled from the spec: the vocabulary of a string column (section 3 and the
glossary), an append-only intern table mapping strings to stable indices; the class
`t_vocab` is defined outside gnode.cpp. -/
abbrev t_vocab := List String

/-- Modelled from the spec: interning returns the index of the string, appending the
string when the table does not hold it yet. -/
def t_vocab.get_interned (v : t_vocab) (s : String) : t_vocab × Nat :=
  if v.indexOf s < v.length then (v, v.indexOf s) else (v ++ [s], v.length)

/-- Modelled from the spec: the string an index denotes. -/
def t_vocab.unintern_c (v : t_vocab) (k : Nat) : String := v.getD k ""

/-- Modelled from the spec: the scalar kinds of section 3, under the names the dispatch
of `_process_table` uses (gnode.cpp 403-450); `DTYPE_NONE` stands for every kind the
dispatch does not list.  The enumeration is declared outside gnode.cpp. -/
inductive t_dtype where
  | DTYPE_INT64 | DTYPE_INT32 | DTYPE_INT16 | DTYPE_INT8
  | DTYPE_UINT64 | DTYPE_UINT32 | DTYPE_UINT16 | DTYPE_UINT8
  | DTYPE_FLOAT64 | DTYPE_FLOAT32 | DTYPE_BOOL | DTYPE_TIME | DTYPE_DATE
  | DTYPE_STR | DTYPE_OBJECT | DTYPE_NONE
  deriving DecidableEq, Repr

/-- Modelled from the spec: the column store of section 4.1 (class `t_column`, defined
outside gnode.cpp): a buffer of slots with a parallel validity bitmap and, for string
columns, a vocabulary.  The buffer is reserved ahead of the writes, so a slot is
addressable whatever the current size; `m_size` is the row count. -/
structure t_column (α : Type) where
  m_dtype : t_dtype
  m_size : Nat
  m_data : Nat → α
  m_valid : Nat → Bool
  m_vocab : t_vocab

/-- Modelled from the spec: a cleared column of a given kind: no rows, every slot the
zero of its type and invalid, an empty vocabulary. -/
def t_column.cleared {α : Type} [Inhabited α] (dtype : t_dtype) : t_column α :=
  { m_dtype := dtype, m_size := 0, m_data := fun _ => default, m_valid := fun _ => false,
    m_vocab := [] }

/-- Modelled from the spec: `get_dtype()`. -/
def t_column.get_dtype {α : Type} (c : t_column α) : t_dtype := c.m_dtype

/-- Modelled from the spec: `get_nth<T>(i)`. -/
def t_column.get_nth {α : Type} (c : t_column α) (idx : Nat) : α := c.m_data idx

/-- Modelled from the spec: `set_nth(i, v)` stores the value in slot `i`.  Every write
of the column routine to a prev or current column is followed by `set_valid` on the
same slot, so the validity bitmap is left to `set_valid`. -/
def t_column.set_nth {α : Type} (c : t_column α) (idx : Nat) (v : α) : t_column α :=
  { c with m_data := Function.update c.m_data idx v }

/-- Modelled from the spec: `is_valid(i)`. -/
def t_column.is_valid {α : Type} (c : t_column α) (idx : Nat) : Bool := c.m_valid idx

/-- Modelled from the spec: `set_valid(i, b)`. -/
def t_column.set_valid {α : Type} (c : t_column α) (idx : Nat) (b : Bool) : t_column α :=
  { c with m_valid := Function.update c.m_valid idx b }

/-- Modelled from the spec: `set_size(n)` sets the row count. -/
def t_column.set_size {α : Type} (c : t_column α) (n : Nat) : t_column α :=
  { c with m_size := n }

/-- Modelled from the spec: `get_nth<const char>(i)` on a string column, the string
denoted by the vocabulary index held in the slot. -/
def t_column.get_nth_cstr (c : t_column Nat) (idx : Nat) : String :=
  t_vocab.unintern_c c.m_vocab (c.m_data idx)

/-- Modelled from the spec: `set_nth<const char*>(i, s)` on a string column interns
the string in the vocabulary of the column and stores its index. -/
def t_column.set_nth_cstr (c : t_column Nat) (idx : Nat) (s : String) : t_column Nat :=
  { c with
    m_vocab := (t_vocab.get_interned c.m_vocab s).1
    m_data := Function.update c.m_data idx (t_vocab.get_interned c.m_vocab s).2 }

/-- Modelled from the spec: `borrow_vocabulary(other)` shares the intern table of the
other column, so that equal indices denote equal strings in both. -/
def t_column.borrow_vocabulary (c : t_column Nat) (other : t_column Nat) : t_column Nat :=
  { c with m_vocab := other.m_vocab }

/-- Modelled from the spec: the bit mask `t_mask` (mask.h is outside gnode.cpp), a
bitmap of a fixed length, all bits clear at construction. -/
structure t_mask where
  m_size : Nat
  m_bits : Nat → Bool

/-- Modelled from the spec: `t_mask(n)`. -/
def t_mask.create (n : Nat) : t_mask := ⟨n, fun _ => false⟩

/-- Modelled from the spec: `mask.set(idx, b)`. -/
def t_mask.set (m : t_mask) (idx : Nat) (b : Bool) : t_mask :=
  { m with m_bits := Function.update m.m_bits idx b }

/-- Modelled from the spec: `mask.count()`, the popcount. -/
def t_mask.count (m : t_mask) : Nat := (List.range m.m_size).countP m.m_bits

/-- Modelled from the spec: a data table (section 4.2, class `t_data_table`, defined
outside gnode.cpp): named columns and a row count of its own. -/
structure t_data_table (α : Type) where
  m_size : Nat
  m_columns : List (String × t_column α)

/-- Modelled from the spec: `num_rows()`. -/
def t_data_table.num_rows {α : Type} (t : t_data_table α) : Nat := t.m_size

/-- Modelled from the spec: `get_column(name)`; a missing column is a fatal error.  All
columns of a table share its row count, so the column handed out carries the row
count of the table. -/
def t_data_table.get_column {α : Type} (t : t_data_table α) (name : String) :
    Option (t_column α) :=
  (t.m_columns.lookup name).map (fun c => c.set_size t.m_size)

/-- Modelled from the spec: `set_size(n)` on a table sets the row count its columns
share. -/
def t_data_table.set_size {α : Type} (t : t_data_table α) (n : Nat) : t_data_table α :=
  { t with m_size := n }

/-- Modelled from the spec: `clear()` zeroes the row count; the slots of a cleared
column hold the zero of their type and are invalid. -/
def t_data_table.clear {α : Type} [Inhabited α] (t : t_data_table α) : t_data_table α :=
  { m_size := 0
    m_columns := t.m_columns.map
      (fun p => (p.1, { p.2 with m_data := fun _ => default, m_valid := fun _ => false })) }

/-- Storing a column under a name: the column written through the pointer that
`get_column(name)` handed out, or the column `add_column_sptr(name, ...)` creates. -/
def t_data_table.set_column {α : Type} (t : t_data_table α) (name : String)
    (c : t_column α) : t_data_table α :=
  { t with
    m_columns :=
      if (t.m_columns.lookup name).isSome then
        t.m_columns.map (fun p => if p.1 == name then (p.1, c) else p)
      else t.m_columns ++ [(name, c)] }

/-- Modelled from the spec: a primary-keyed table (the flattened batch): a data table
with the two reserved columns `psp_pkey` and `psp_op` (section 3).  `psp_pkey idx` is
`get_column("psp_pkey")->get_scalar(idx)`, `psp_op idx` the byte of `psp_op`. -/
structure t_pkeyed_table (K : Type) extends t_data_table Nat where
  psp_pkey : Nat → K
  psp_op : Nat → Nat

/-- The table of output port 5: its schema is fixed by the constructor of `t_gnode`
(gnode.cpp 65-66) to the single BOOL column `psp_existed`. -/
structure t_existed_table where
  m_size : Nat
  psp_existed : t_column Bool

/-- Modelled from the spec: `set_size(n)` on the existed table. -/
def t_existed_table.set_size (t : t_existed_table) (n : Nat) : t_existed_table :=
  { m_size := n, psp_existed := t.psp_existed.set_size n }

/-- The intermediate structures of one batch, `t_process_state` (its declaration is
outside gnode.cpp; the fields are the ones gnode.cpp reads and writes).  The three
scratch vectors are resized to the row count of the flattened batch and only read
below it. -/
structure t_process_state (K : Type) where
  m_state_data_table : t_data_table Nat
  m_flattened_data_table : t_pkeyed_table K
  m_delta_data_table : t_data_table Nat
  m_prev_data_table : t_data_table Nat
  m_current_data_table : t_data_table Nat
  m_transitions_data_table : t_data_table (Option t_value_transition)
  m_existed_data_table : t_existed_table
  m_lookup : List t_rlookup
  m_op_base : Nat → Nat
  m_added_offset : Nat → Nat
  m_prev_pkey_eq_vec : Nat → Bool

/-! ## The existence mask: `t_gnode::_process_mask_existed_rows` -/

/-- The local variables of `_process_mask_existed_rows` together with the process
state it mutates.  `prev_pkey` starts as the cleared scalar (`none`), which carries
no column type and so differs from every scalar read from the key column. -/
structure t_mask_state (K : Type) where
  process_state : t_process_state K
  mask : t_mask
  added_count : Nat
  prev_pkey : Option K

/-- Lines 202-220: the state on entry to the loop. -/
def _process_mask_existed_rows_init {K : Type} (process_state : t_process_state K) :
    t_mask_state K :=
  let flattened_num_rows := process_state.m_flattened_data_table.num_rows
  { process_state :=
      { process_state with
        m_existed_data_table := process_state.m_existed_data_table.set_size flattened_num_rows
        m_op_base := process_state.m_flattened_data_table.psp_op }
    mask := t_mask.create flattened_num_rows
    added_count := 0
    prev_pkey := none }

/-- Lines 223-252: one iteration of the loop, for row `idx`. -/
def _process_mask_existed_rows_body {K : Type} [DecidableEq K] (st : t_mask_state K)
    (idx : Nat) : Option (t_mask_state K) :=
  let ps := st.process_state
  let pkey := ps.m_flattened_data_table.psp_pkey idx
  let op := ps.m_op_base idx
  match ps.m_lookup[idx]? with
  | none => none
  | some rlookup =>
    let row_pre_existed := rlookup.m_exists
    let eq := decide (some pkey = st.prev_pkey)
    let ps1 := { ps with
      m_prev_pkey_eq_vec := Function.update ps.m_prev_pkey_eq_vec idx eq
      m_added_offset := Function.update ps.m_added_offset idx st.added_count }
    if op = OP_INSERT then
      let row_pre_existed := row_pre_existed && !(ps1.m_prev_pkey_eq_vec idx)
      some
        { process_state := { ps1 with
            m_existed_data_table := { ps1.m_existed_data_table with
              psp_existed :=
                ps1.m_existed_data_table.psp_existed.set_nth st.added_count row_pre_existed } }
          mask := st.mask.set idx true
          added_count := st.added_count + 1
          prev_pkey := some pkey }
    else if op = OP_DELETE then
      if row_pre_existed then
        some
          { process_state := { ps1 with
              m_existed_data_table := { ps1.m_existed_data_table with
                psp_existed :=
                  ps1.m_existed_data_table.psp_existed.set_nth st.added_count row_pre_existed } }
            mask := st.mask.set idx true
            added_count := st.added_count + 1
            prev_pkey := some pkey }
      else
        some
          { process_state := ps1
            mask := st.mask.set idx false
            added_count := st.added_count
            prev_pkey := some pkey }
    else
      none

/-- The state after the first `n` iterations of the loop of lines 222-253. -/
def _process_mask_existed_rows_loop {K : Type} [DecidableEq K]
    (process_state : t_process_state K) : Nat → Option (t_mask_state K)
  | 0 => some (_process_mask_existed_rows_init process_state)
  | n + 1 =>
    (_process_mask_existed_rows_loop process_state n).bind
      (fun st => _process_mask_existed_rows_body st n)

/-- The function `t_gnode::_process_mask_existed_rows` (gnode.cpp 199-257): the loop
over all rows of the flattened batch, then the assertion `mask.count() == added_count`.
It returns the mask; the mutated process state comes with it. -/
def _process_mask_existed_rows {K : Type} [DecidableEq K] (process_state : t_process_state K) :
    Option (t_mask × t_process_state K) :=
  (_process_mask_existed_rows_loop process_state
      process_state.m_flattened_data_table.num_rows).bind
    (fun st => if st.mask.count = st.added_count then some (st.mask, st.process_state) else none)

/-! ## The string column routine: `t_gnode::_process_column<std::string>` -/

/-- The three columns the string routine writes (`dcolumn` is passed to it and never
touched). -/
structure t_column_writes where
  pcolumn : t_column Nat
  ccolumn : t_column Nat
  tcolumn : t_column (Option t_value_transition)

/-- Lines 522-592: one iteration of the loop of the string routine, for row `idx`.
A slot of the transitions column holds `some trans_` once a code has been stored in
it; `cur_value` is a pointer into the vocabulary of `fcolumn` and never null, while
`prev_value` is null (`none`) unless the row pre-existed. -/
def _process_column_string_body {K : Type} (env : t_env) (fcolumn scolumn : t_column Nat)
    (process_state : t_process_state K) (w : t_column_writes) (idx : Nat) :
    Option t_column_writes :=
  let op := process_state.m_op_base idx
  let added_count := process_state.m_added_offset idx
  match process_state.m_lookup[idx]? with
  | none => none
  | some rlookup =>
    let row_pre_existed := rlookup.m_exists
    let prev_pkey_eq := process_state.m_prev_pkey_eq_vec idx
    if op = OP_INSERT then
      let row_pre_existed := row_pre_existed && !prev_pkey_eq
      let cur_value := fcolumn.get_nth_cstr idx
      let cur_valid := fcolumn.is_valid idx
      let prev_value : Option String :=
        if row_pre_existed then some (scolumn.get_nth_cstr rlookup.m_idx) else none
      let prev_valid := if row_pre_existed then scolumn.is_valid rlookup.m_idx else false
      let exists_ := cur_valid
      let prev_existed := row_pre_existed && prev_valid
      let prev_cur_eq :=
        match prev_value with
        | some p => decide (p = cur_value)
        | none => false
      match calc_transition env prev_existed row_pre_existed exists_ prev_valid cur_valid
          prev_cur_eq prev_pkey_eq with
      | none => none
      | some trans_ =>
        let pcolumn :=
          if prev_valid then w.pcolumn.set_nth added_count (scolumn.get_nth rlookup.m_idx)
          else w.pcolumn
        let pcolumn := pcolumn.set_valid added_count prev_valid
        let ccolumn :=
          if cur_valid then w.ccolumn.set_nth_cstr added_count cur_value else w.ccolumn
        let ccolumn? : Option (t_column Nat) :=
          if !cur_valid && prev_valid then
            prev_value.map (fun p => ccolumn.set_nth_cstr added_count p)
          else some ccolumn
        ccolumn?.map (fun ccolumn =>
          { pcolumn := pcolumn
            ccolumn := ccolumn.set_valid added_count (if cur_valid then cur_valid else prev_valid)
            tcolumn := w.tcolumn.set_nth idx (some trans_) })
    else if op = OP_DELETE then
      if row_pre_existed then
        let prev_value := scolumn.get_nth_cstr rlookup.m_idx
        let prev_valid := scolumn.is_valid rlookup.m_idx
        some
          { pcolumn := (w.pcolumn.set_nth_cstr added_count prev_value).set_valid added_count
              prev_valid
            ccolumn := (w.ccolumn.set_nth_cstr added_count prev_value).set_valid added_count
              prev_valid
            tcolumn := w.tcolumn.set_nth added_count (some VALUE_TRANSITION_NEQ_TDF) }
      else some w
    else
      none

/-- The state of the three written columns after the first `n` iterations of the loop
of lines 521-593; line 519 (`borrow_vocabulary`) runs before the loop. -/
def _process_column_string_loop {K : Type} (env : t_env) (fcolumn scolumn : t_column Nat)
    (process_state : t_process_state K) (w : t_column_writes) : Nat → Option t_column_writes
  | 0 => some { w with pcolumn := w.pcolumn.borrow_vocabulary scolumn }
  | n + 1 =>
    (_process_column_string_loop env fcolumn scolumn process_state w n).bind
      (fun w1 => _process_column_string_body env fcolumn scolumn process_state w1 n)

/-- The specialisation `t_gnode::_process_column<std::string>` (gnode.cpp 509-594): the
loop runs over `fcolumn->size()` rows. -/
def _process_column_string {K : Type} (env : t_env) (fcolumn scolumn : t_column Nat)
    (process_state : t_process_state K) (w : t_column_writes) : Option t_column_writes :=
  _process_column_string_loop env fcolumn scolumn process_state w fcolumn.m_size

/-- The function `calc_newer` (gnode.cpp 35-40) on a scalar given as value and validity
bit: the new scalar when it is valid, the old one otherwise. -/
def calc_newer {V : Type} (_trans : t_value_transition) (oval nval : V × Bool) : V × Bool :=
  if nval.2 then nval else oval

/-! ## The incremental path of `t_gnode::_process_table` (gnode.cpp 326-506) -/

/-- Modelled from the spec: `add_column(name, dtype, with_validity)` (section 4.2): the
table keeps a column it already has under the name, else gains a cleared one. -/
def t_data_table.add_column {α : Type} [Inhabited α] (t : t_data_table α) (name : String)
    (dtype : t_dtype) : t_data_table α :=
  if (t.m_columns.lookup name).isSome then t
  else { t with m_columns := t.m_columns ++ [(name, t_column.cleared dtype)] }

/-- Modelled from the spec: `clear()` on the existed table. -/
def t_existed_table.clear (t : t_existed_table) : t_existed_table :=
  { m_size := 0
    psp_existed := { t.psp_existed with m_data := fun _ => false, m_valid := fun _ => false } }

/-- Modelled from the spec: `clone(mask)` (section 3) returns a new table with only the
rows whose mask bit is set, in order. -/
def t_pkeyed_table.clone {K : Type} (t : t_pkeyed_table K) (mask : t_mask) :
    t_pkeyed_table K :=
  let rows := (List.range t.m_size).filter mask.m_bits
  { m_size := rows.length
    m_columns := t.m_columns.map (fun p =>
      (p.1, { p.2 with
        m_data := fun j => p.2.m_data (rows.getD j 0)
        m_valid := fun j => decide (j < rows.length) && p.2.m_valid (rows.getD j 0) }))
    psp_pkey := fun j => t.psp_pkey (rows.getD j 0)
    psp_op := fun j => t.psp_op (rows.getD j 0) }

/-- Modelled from the spec: an expression (section 3), a named derived column: `compute`
fills its column of a table, `recompute` refreshes its column of the master and of the
flattened batch.  The class `t_computed_expression` is defined outside gnode.cpp. -/
structure t_computed_expression where
  m_expression_alias : String
  m_dtype : t_dtype
  compute_column : t_data_table Nat → t_column Nat
  recompute_master : t_data_table Nat → t_data_table Nat → List t_rlookup → t_column Nat
  recompute_flattened : t_data_table Nat → t_data_table Nat → List t_rlookup → t_column Nat

/-- Modelled from the spec: `expression.compute(table)`. -/
def t_computed_expression.compute (e : t_computed_expression) (table : t_data_table Nat) :
    t_data_table Nat :=
  table.set_column e.m_expression_alias { e.compute_column table with m_dtype := e.m_dtype }

/-- The function `t_gnode::_compute_expressions` (gnode.cpp 992-1000) on one of its
tables. -/
def _compute_expressions (m_expression_map : List t_computed_expression)
    (table : t_data_table Nat) : t_data_table Nat :=
  m_expression_map.foldl (fun t e => e.compute t) table

/-- The function `t_gnode::_recompute_expressions` (gnode.cpp 1002-1011): each expression
refreshes its column of the master table and of the flattened batch. -/
def _recompute_expressions {K : Type} (m_expression_map : List t_computed_expression)
    (tbl : t_data_table Nat) (flattened : t_pkeyed_table K) (changed_rows : List t_rlookup) :
    t_data_table Nat × t_pkeyed_table K :=
  m_expression_map.foldl
    (fun r e =>
      (r.1.set_column e.m_expression_alias
          { e.recompute_master r.1 r.2.tot_data_table changed_rows with m_dtype := e.m_dtype },
        { r.2 with
          tot_data_table := r.2.tot_data_table.set_column e.m_expression_alias
            { e.recompute_flattened r.1 r.2.tot_data_table changed_rows with
              m_dtype := e.m_dtype } }))
    (tbl, flattened)

/-- Modelled from the spec: `clear_transitional_data_tables()` clears the five
transitional tables (section 4.6 (c)); the method is defined outside gnode.cpp. -/
def t_process_state.clear_transitional_data_tables {K : Type} (ps : t_process_state K) :
    t_process_state K :=
  { ps with
    m_delta_data_table := ps.m_delta_data_table.clear
    m_prev_data_table := ps.m_prev_data_table.clear
    m_current_data_table := ps.m_current_data_table.clear
    m_transitions_data_table := ps.m_transitions_data_table.clear
    m_existed_data_table := ps.m_existed_data_table.clear }

/-- Modelled from the spec: `reserve_transitional_data_tables(n)` grows the buffers of
the five transitional tables to `n` slots (section 4.6 (c)); buffers are unbounded
here, so nothing changes. -/
def t_process_state.reserve_transitional_data_tables {K : Type} (ps : t_process_state K)
    (_n : Nat) : t_process_state K := ps

/-- Modelled from the spec: `set_size_transitional_data_tables(n)` resizes the five
transitional tables to `n` rows (section 4.6 (e)); the method is defined outside
gnode.cpp. -/
def t_process_state.set_size_transitional_data_tables {K : Type} (ps : t_process_state K)
    (n : Nat) : t_process_state K :=
  { ps with
    m_delta_data_table := ps.m_delta_data_table.set_size n
    m_prev_data_table := ps.m_prev_data_table.set_size n
    m_current_data_table := ps.m_current_data_table.set_size n
    m_transitions_data_table := ps.m_transitions_data_table.set_size n
    m_existed_data_table := ps.m_existed_data_table.set_size n }

/-- The typed routine `_process_column<T>` for the kinds other than strings: the
template is defined in gnode.h, outside the sources at hand, and is a parameter here.
It receives the kind, the flattened, master and delta columns, the three written
columns and the process state, and returns the delta column and the written columns,
or aborts. -/
abbrev t_process_column_generic (K : Type) :=
  t_dtype → t_column Nat → t_column Nat → t_column Nat → t_column_writes →
    t_process_state K → Option (t_column Nat × t_column_writes)

/-- Lines 401-450: the dispatch on the kind of the flattened column. -/
def _process_table_dispatch {K : Type} (env : t_env) (generic : t_process_column_generic K)
    (fcolumn scolumn dcolumn : t_column Nat) (w : t_column_writes)
    (process_state : t_process_state K) : Option (t_column Nat × t_column_writes) :=
  match fcolumn.get_dtype with
  | t_dtype.DTYPE_STR =>
    (_process_column_string env fcolumn scolumn process_state w).map (fun w1 => (dcolumn, w1))
  | t_dtype.DTYPE_NONE => none
  | col_dtype => generic col_dtype fcolumn scolumn dcolumn w process_state

/-- Lines 393-450: the body of the loop over the column names, for the column `cname`.
The routines write through the column pointers; here the written columns are stored
back under the name. -/
def _process_table_column {K : Type} (env : t_env) (generic : t_process_column_generic K)
    (ps : t_process_state K) (cname : String) : Option (t_process_state K) :=
  (ps.m_flattened_data_table.get_column cname).bind fun fcolumn =>
  (ps.m_state_data_table.get_column cname).bind fun scolumn =>
  (ps.m_delta_data_table.get_column cname).bind fun dcolumn =>
  (ps.m_prev_data_table.get_column cname).bind fun pcolumn =>
  (ps.m_current_data_table.get_column cname).bind fun ccolumn =>
  (ps.m_transitions_data_table.get_column cname).bind fun tcolumn =>
  (_process_table_dispatch env generic fcolumn scolumn dcolumn
      { pcolumn := pcolumn, ccolumn := ccolumn, tcolumn := tcolumn } ps).map fun r =>
    { ps with
      m_delta_data_table := ps.m_delta_data_table.set_column cname r.1
      m_prev_data_table := ps.m_prev_data_table.set_column cname r.2.pcolumn
      m_current_data_table := ps.m_current_data_table.set_column cname r.2.ccolumn
      m_transitions_data_table := ps.m_transitions_data_table.set_column cname r.2.tcolumn }

/-- Lines 386-454: the loop over the column names, in index order. -/
def _process_table_columns {K : Type} (env : t_env) (generic : t_process_column_generic K) :
    List String → t_process_state K → Option (t_process_state K)
  | [], ps => some ps
  | cname :: rest, ps =>
    (_process_table_column env generic ps cname).bind
      (fun ps1 => _process_table_columns env generic rest ps1)

/-- The value `_process_table` returns. -/
structure t_process_table_result (K : Type) where
  m_flattened_data_table : Option (t_pkeyed_table K)
  m_should_notify_userspace : Bool

/-- What the incremental path leaves behind: the returned result, the mask, the process
state (whose five transitional tables are the tables of output ports 1 to 5) and the
table set on the flattened output port, which line 492 also hands to the master state. -/
structure t_incremental_outcome (K : Type) where
  result : t_process_table_result K
  existed_mask : t_mask
  process_state : t_process_state K
  flattened_port : t_pkeyed_table K

/-- Lines 355-365 and 455-462: `_compute_expressions` on the delta, prev and current
tables, run when expressions are registered. -/
def _process_table_compute {K : Type} (m_expression_map : List t_computed_expression)
    (_process_state : t_process_state K) : t_process_state K :=
  if m_expression_map.length > 0 then
    { _process_state with
      m_delta_data_table :=
        _compute_expressions m_expression_map _process_state.m_delta_data_table
      m_prev_data_table :=
        _compute_expressions m_expression_map _process_state.m_prev_data_table
      m_current_data_table :=
        _compute_expressions m_expression_map _process_state.m_current_data_table }
  else _process_state

/-- Lines 328-368 of `_process_table`: the process state handed to the existence mask.
The transitions table gains a column per expression, the expressions are recomputed on
the master and the flattened batch, the five transitional tables are cleared, the
expressions computed on delta, prev and current, and the buffers reserved. -/
def _process_table_prepare {K : Type} (m_expression_map : List t_computed_expression)
    (state_table : t_data_table Nat) (flattened : t_pkeyed_table K)
    (row_lookup : List t_rlookup) (delta prev current : t_data_table Nat)
    (transitions : t_data_table (Option t_value_transition)) (existed : t_existed_table) :
    t_process_state K :=
  let flattened_num_rows := flattened.num_rows
  let transitions := m_expression_map.foldl
    (fun t e => t.add_column e.m_expression_alias t_dtype.DTYPE_UINT8) transitions
  let recomputed :=
    if m_expression_map.length > 0 then
      _recompute_expressions m_expression_map state_table flattened row_lookup
    else (state_table, flattened)
  let _process_state : t_process_state K :=
    { m_state_data_table := recomputed.1
      m_flattened_data_table := recomputed.2
      m_delta_data_table := delta
      m_prev_data_table := prev
      m_current_data_table := current
      m_transitions_data_table := transitions
      m_existed_data_table := existed
      m_lookup := row_lookup
      m_op_base := fun _ => 0
      m_added_offset := fun _ => 0
      m_prev_pkey_eq_vec := fun _ => false }
  let _process_state := _process_state.clear_transitional_data_tables
  let _process_state := _process_table_compute m_expression_map _process_state
  _process_state.reserve_transitional_data_tables flattened_num_rows

/-- The incremental path of `t_gnode::_process_table` (gnode.cpp 326-506), from the
flattened batch, its lookup results, the master table and the tables of output ports
1 to 5. -/
def _process_table_incremental {K : Type} [DecidableEq K] (env : t_env)
    (generic : t_process_column_generic K) (m_expression_map : List t_computed_expression)
    (m_output_schema_columns : List String) (state_table : t_data_table Nat)
    (flattened : t_pkeyed_table K) (row_lookup : List t_rlookup)
    (delta prev current : t_data_table Nat)
    (transitions : t_data_table (Option t_value_transition)) (existed : t_existed_table) :
    Option (t_incremental_outcome K) :=
  let _process_state := _process_table_prepare m_expression_map state_table flattened
    row_lookup delta prev current transitions existed
  (_process_mask_existed_rows _process_state).bind fun r =>
  let existed_mask := r.1
  let mask_count := existed_mask.count
  let _process_state := r.2.set_size_transitional_data_tables mask_count
  let column_names := m_output_schema_columns ++ m_expression_map.map (·.m_expression_alias)
  (_process_table_columns env generic column_names _process_state).map fun _process_state =>
  let _process_state := _process_table_compute m_expression_map _process_state
  let flattened_masked :=
    if existed_mask.count = _process_state.m_flattened_data_table.m_size then
      _process_state.m_flattened_data_table
    else _process_state.m_flattened_data_table.clone existed_mask
  { result :=
      { m_flattened_data_table := some flattened_masked, m_should_notify_userspace := true }
    existed_mask := existed_mask
    process_state := _process_state
    flattened_port := flattened_masked }

/-- The table has a column under the name. -/
def t_data_table.has_column {α : Type} (t : t_data_table α) (name : String) : Prop :=
  (t.m_columns.lookup name).isSome = true

/-- The column the table has under the name, if any, is of a kind the dispatch of
`_process_table` lists. -/
def t_data_table.dtype_listed {α : Type} (t : t_data_table α) (name : String) : Prop :=
  ∀ c, t.m_columns.lookup name = some c → c.m_dtype ≠ t_dtype.DTYPE_NONE

/-- The six tables of the process state have a column under the name, and the column
of the flattened batch is of a kind the dispatch lists. -/
def column_ready {K : Type} (ps : t_process_state K) (name : String) : Prop :=
  ps.m_flattened_data_table.tot_data_table.has_column name ∧
  ps.m_flattened_data_table.tot_data_table.dtype_listed name ∧
  ps.m_state_data_table.has_column name ∧
  ps.m_delta_data_table.has_column name ∧
  ps.m_prev_data_table.has_column name ∧
  ps.m_current_data_table.has_column name ∧
  ps.m_transitions_data_table.has_column name

/-- Two process states carry the same scratch vectors and lookup results. -/
def scratch_eq {K : Type} (ps1 ps2 : t_process_state K) : Prop :=
  ps1.m_op_base = ps2.m_op_base ∧ ps1.m_added_offset = ps2.m_added_offset ∧
  ps1.m_lookup = ps2.m_lookup ∧ ps1.m_prev_pkey_eq_vec = ps2.m_prev_pkey_eq_vec

/-! ## Closed forms used to state the properties of the two loops -/

/-- Whether row `idx` of the flattened batch is an insert. -/
def row_is_insert {K : Type} (ps : t_process_state K) (idx : Nat) : Bool :=
  decide (ps.m_flattened_data_table.psp_op idx = OP_INSERT)

/-- Whether row `idx` of the flattened batch is a delete. -/
def row_is_delete {K : Type} (ps : t_process_state K) (idx : Nat) : Bool :=
  decide (ps.m_flattened_data_table.psp_op idx = OP_DELETE)

/-- Whether the key of row `idx` is mapped in the master (`m_lookup[idx].m_exists`). -/
def row_lookup_exists {K : Type} (ps : t_process_state K) (idx : Nat) : Bool :=
  match ps.m_lookup[idx]? with
  | some r => r.m_exists
  | none => false

/-- Whether row `idx` is kept: an insert, or a delete of a key mapped in the master. -/
def row_kept {K : Type} (ps : t_process_state K) (idx : Nat) : Bool :=
  row_is_insert ps idx || (row_is_delete ps idx && row_lookup_exists ps idx)

/-- The number of kept rows below `idx`. -/
def kept_below {K : Type} (ps : t_process_state K) (idx : Nat) : Nat :=
  (List.range idx).countP (row_kept ps)

/-- Whether the key of row `idx` equals the key of the row before it (false for row 0). -/
def pkey_eq_prev {K : Type} [DecidableEq K] (ps : t_process_state K) (idx : Nat) : Bool :=
  decide (0 < idx ∧
    ps.m_flattened_data_table.psp_pkey idx = ps.m_flattened_data_table.psp_pkey (idx - 1))

/-- Every `psp_op` of the flattened batch is INSERT or DELETE. -/
def ops_known {K : Type} (ps : t_process_state K) : Prop :=
  ∀ idx, idx < ps.m_flattened_data_table.num_rows →
    ps.m_flattened_data_table.psp_op idx = OP_INSERT ∨
      ps.m_flattened_data_table.psp_op idx = OP_DELETE

/-- The value the mask loop stores in the existed column for a kept row: for an insert
whether the key is mapped and differs from the key of the row before, for a delete
`true`. -/
def existed_value {K : Type} [DecidableEq K] (ps : t_process_state K) (idx : Nat) : Bool :=
  if row_is_insert ps idx then row_lookup_exists ps idx && !pkey_eq_prev ps idx else true

/-- Loop invariant of `_process_mask_existed_rows` after `k` iterations, started on the
process state `ps`. -/
structure mask_inv {K : Type} [DecidableEq K] (ps : t_process_state K) (k : Nat)
    (st : t_mask_state K) : Prop where
  lookup_eq : st.process_state.m_lookup = ps.m_lookup
  op_eq : st.process_state.m_op_base = ps.m_flattened_data_table.psp_op
  flat_eq : st.process_state.m_flattened_data_table = ps.m_flattened_data_table
  state_eq : st.process_state.m_state_data_table = ps.m_state_data_table
  delta_eq : st.process_state.m_delta_data_table = ps.m_delta_data_table
  prev_eq : st.process_state.m_prev_data_table = ps.m_prev_data_table
  current_eq : st.process_state.m_current_data_table = ps.m_current_data_table
  transitions_eq : st.process_state.m_transitions_data_table = ps.m_transitions_data_table
  existed_size :
    st.process_state.m_existed_data_table.m_size = ps.m_flattened_data_table.num_rows
  mask_size : st.mask.m_size = ps.m_flattened_data_table.num_rows
  count_eq : st.added_count = kept_below ps k
  bits : ∀ i, i < k → st.mask.m_bits i = row_kept ps i
  offs : ∀ i, i < k → st.process_state.m_added_offset i = kept_below ps i
  ppe : ∀ i, i < k → st.process_state.m_prev_pkey_eq_vec i = pkey_eq_prev ps i
  prev : st.prev_pkey =
    if k = 0 then none else some (ps.m_flattened_data_table.psp_pkey (k - 1))
  existed : ∀ i, i < k → row_kept ps i = true →
    st.process_state.m_existed_data_table.psp_existed.m_data (kept_below ps i) =
      existed_value ps i

/-- The effect of one iteration of the mask loop on row `k`, in closed form. -/
def mask_step_closed {K : Type} [DecidableEq K] (ps : t_process_state K) (st : t_mask_state K)
    (k : Nat) : t_mask_state K :=
  { process_state :=
      { st.process_state with
        m_prev_pkey_eq_vec :=
          Function.update st.process_state.m_prev_pkey_eq_vec k (pkey_eq_prev ps k)
        m_added_offset := Function.update st.process_state.m_added_offset k st.added_count
        m_existed_data_table :=
          if row_kept ps k then
            { st.process_state.m_existed_data_table with
              psp_existed := st.process_state.m_existed_data_table.psp_existed.set_nth
                st.added_count (existed_value ps k) }
          else st.process_state.m_existed_data_table }
    mask := st.mask.set k (row_kept ps k)
    added_count := st.added_count + (if row_kept ps k then 1 else 0)
    prev_pkey := some (ps.m_flattened_data_table.psp_pkey k) }

/-- The flag `row_pre_existed` of the string routine on an insert row: the key is mapped
in the master and differs from the key of the row before. -/
def row_pre_existed {K : Type} [DecidableEq K] (ps : t_process_state K) (idx : Nat) : Bool :=
  row_lookup_exists ps idx && !pkey_eq_prev ps idx

/-- The master row of the key of row `idx` (`m_lookup[idx].m_idx`). -/
def row_lookup_idx {K : Type} (ps : t_process_state K) (idx : Nat) : Nat :=
  match ps.m_lookup[idx]? with
  | some r => r.m_idx
  | none => 0

/-- The flag `prev_valid` of the string routine on an insert row: false unless the row
pre-existed, else the validity bit of the master cell. -/
def row_prev_valid {K : Type} [DecidableEq K] (scolumn : t_column Nat)
    (ps : t_process_state K) (idx : Nat) : Bool :=
  row_pre_existed ps idx && scolumn.is_valid (row_lookup_idx ps idx)

/-- The flag `prev_cur_eq` of the string routine on an insert row: both pointers are
non-null and the strings compare equal; validity is not consulted. -/
def row_prev_cur_eq {K : Type} [DecidableEq K] (fcolumn scolumn : t_column Nat)
    (ps : t_process_state K) (idx : Nat) : Bool :=
  row_pre_existed ps idx &&
    decide (scolumn.get_nth_cstr (row_lookup_idx ps idx) = fcolumn.get_nth_cstr idx)

/-- The call of `calc_transition` the string routine makes on insert row `idx`. -/
def row_transition {K : Type} [DecidableEq K] (env : t_env) (fcolumn scolumn : t_column Nat)
    (ps : t_process_state K) (idx : Nat) : Option t_value_transition :=
  calc_transition env (row_pre_existed ps idx && row_prev_valid scolumn ps idx)
    (row_pre_existed ps idx) (fcolumn.is_valid idx) (row_prev_valid scolumn ps idx)
    (fcolumn.is_valid idx) (row_prev_cur_eq fcolumn scolumn ps idx) (pkey_eq_prev ps idx)

/-- The effect of one iteration of the string routine on row `k`, in closed form. -/
def column_step_closed {K : Type} [DecidableEq K] (env : t_env) (fcolumn scolumn : t_column Nat)
    (ps : t_process_state K) (w : t_column_writes) (k : Nat) : t_column_writes :=
  if row_is_insert ps k then
    { pcolumn :=
        (if row_prev_valid scolumn ps k then
          w.pcolumn.set_nth (kept_below ps k) (scolumn.get_nth (row_lookup_idx ps k))
        else w.pcolumn).set_valid (kept_below ps k) (row_prev_valid scolumn ps k)
      ccolumn :=
        (if fcolumn.is_valid k then
          w.ccolumn.set_nth_cstr (kept_below ps k) (fcolumn.get_nth_cstr k)
        else if row_prev_valid scolumn ps k then
          w.ccolumn.set_nth_cstr (kept_below ps k) (scolumn.get_nth_cstr (row_lookup_idx ps k))
        else w.ccolumn).set_valid (kept_below ps k)
          (fcolumn.is_valid k || row_prev_valid scolumn ps k)
      tcolumn := w.tcolumn.set_nth k (row_transition env fcolumn scolumn ps k) }
  else if row_kept ps k then
    { pcolumn :=
        (w.pcolumn.set_nth_cstr (kept_below ps k)
          (scolumn.get_nth_cstr (row_lookup_idx ps k))).set_valid (kept_below ps k)
          (scolumn.is_valid (row_lookup_idx ps k))
      ccolumn :=
        (w.ccolumn.set_nth_cstr (kept_below ps k)
          (scolumn.get_nth_cstr (row_lookup_idx ps k))).set_valid (kept_below ps k)
          (scolumn.is_valid (row_lookup_idx ps k))
      tcolumn := w.tcolumn.set_nth (kept_below ps k) (some VALUE_TRANSITION_NEQ_TDF) }
  else w

/-- Slot `j` of a string column holds an index of its vocabulary that denotes `s`. -/
def cell_holds (c : t_column Nat) (j : Nat) (s : String) : Prop :=
  c.m_data j < c.m_vocab.length ∧ c.get_nth_cstr j = s

/-- Loop invariant of the string routine after `k` iterations, run with the scratch
vectors the mask loop computed on `ps`: what the prev and current slots of the insert
rows below `k` hold. -/
structure column_inv {K : Type} [DecidableEq K] (fcolumn scolumn : t_column Nat)
    (ps : t_process_state K) (k : Nat) (w : t_column_writes) : Prop where
  pvalid : ∀ i, i < k → row_is_insert ps i = true →
    w.pcolumn.is_valid (kept_below ps i) = row_prev_valid scolumn ps i
  pdata : ∀ i, i < k → row_is_insert ps i = true → row_prev_valid scolumn ps i = true →
    w.pcolumn.get_nth (kept_below ps i) = scolumn.get_nth (row_lookup_idx ps i)
  cvalid : ∀ i, i < k → row_is_insert ps i = true →
    w.ccolumn.is_valid (kept_below ps i) =
      (fcolumn.is_valid i || row_prev_valid scolumn ps i)
  cdata_cur : ∀ i, i < k → row_is_insert ps i = true → fcolumn.is_valid i = true →
    cell_holds w.ccolumn (kept_below ps i) (fcolumn.get_nth_cstr i)
  cdata_prev : ∀ i, i < k → row_is_insert ps i = true → fcolumn.is_valid i = false →
    row_prev_valid scolumn ps i = true →
    cell_holds w.ccolumn (kept_below ps i) (scolumn.get_nth_cstr (row_lookup_idx ps i))

/-- Loop invariant of the string routine after `k` iterations for the transitions
column, when the routine starts on a cleared column: slot `j` holds `NEQ_TDF` exactly
when a delete row below `k` of a key mapped in the master has output slot `j`. -/
def tdf_inv {K : Type} (ps : t_process_state K) (k : Nat) (w : t_column_writes) : Prop :=
  ∀ j, w.tcolumn.get_nth j = some VALUE_TRANSITION_NEQ_TDF ↔
    ∃ i, i < k ∧ row_is_delete ps i = true ∧ row_lookup_exists ps i = true ∧
      kept_below ps i = j

/-- The rows a clone by the mask keeps, in order: the indices whose bit is set. -/
def kept_rows (mask : t_mask) : List Nat := (List.range mask.m_size).filter mask.m_bits

/-! ## A concrete batch -/

/-- A table without rows or columns. -/
def t_data_table.empty {α : Type} : t_data_table α := { m_size := 0, m_columns := [] }

/-- The cleared prev, current and transitions columns for a string column. -/
def cleared_writes : t_column_writes :=
  { pcolumn := t_column.cleared t_dtype.DTYPE_STR
    ccolumn := t_column.cleared t_dtype.DTYPE_STR
    tcolumn := t_column.cleared t_dtype.DTYPE_UINT8 }

/-- Master column `s` of the example: row 0 holds "a", row 1 holds "b", both valid. -/
def example_scolumn : t_column Nat :=
  { m_dtype := t_dtype.DTYPE_STR, m_size := 2, m_data := fun i => i,
    m_valid := fun i => decide (i < 2), m_vocab := ["a", "b"] }

/-- Column `s` of the example batch: row 1 holds "x" and is valid, rows 0 and 2 are
invalid. -/
def example_fcolumn : t_column Nat :=
  { m_dtype := t_dtype.DTYPE_STR, m_size := 3, m_data := fun i => if i = 1 then 1 else 0,
    m_valid := fun i => decide (i = 1), m_vocab := ["", "x"] }

/-- The example batch of three rows: a delete of the unknown key 7, an insert for key 1
(master row 0), a delete of key 2 (master row 1). -/
def example_ps : t_process_state Nat :=
  { m_state_data_table := { m_size := 2, m_columns := [("s", example_scolumn)] }
    m_flattened_data_table :=
      { m_size := 3, m_columns := [("s", example_fcolumn)],
        psp_pkey := fun i => if i = 0 then 7 else if i = 1 then 1 else 2,
        psp_op := fun i => if i = 1 then OP_INSERT else OP_DELETE }
    m_delta_data_table := t_data_table.empty
    m_prev_data_table := t_data_table.empty
    m_current_data_table := t_data_table.empty
    m_transitions_data_table := t_data_table.empty
    m_existed_data_table := { m_size := 0, psp_existed := t_column.cleared t_dtype.DTYPE_BOOL }
    m_lookup := [⟨0, false⟩, ⟨0, true⟩, ⟨1, true⟩]
    m_op_base := fun _ => 0
    m_added_offset := fun _ => 0
    m_prev_pkey_eq_vec := fun _ => false }

/-- A table whose only column is a cleared string column `s`. -/
def cleared_s_table : t_data_table Nat :=
  { m_size := 0, m_columns := [("s", t_column.cleared t_dtype.DTYPE_STR)] }

/-- A transitions table whose only column is a cleared column `s`. -/
def cleared_s_transitions : t_data_table (Option t_value_transition) :=
  { m_size := 0, m_columns := [("s", t_column.cleared t_dtype.DTYPE_UINT8)] }

/-- A stand-in for the typed routine of the other kinds that writes nothing. -/
def generic_idle : t_process_column_generic Nat :=
  fun _ _ _ dcolumn w _ => some (dcolumn, w)

/-- A process state for a flattened batch given by its row count, keys, ops and lookup
results, over the master of the example (column `s` with "a" and "b"); the scratch
vectors and the transitional tables are empty. -/
def batch_ps (n : Nat) (pkey : Nat → Nat) (op : Nat → Nat) (fcolumn : t_column Nat)
    (lookup : List t_rlookup) : t_process_state Nat :=
  { m_state_data_table := { m_size := 2, m_columns := [("s", example_scolumn)] }
    m_flattened_data_table :=
      { m_size := n, m_columns := [("s", fcolumn)], psp_pkey := pkey, psp_op := op }
    m_delta_data_table := t_data_table.empty
    m_prev_data_table := t_data_table.empty
    m_current_data_table := t_data_table.empty
    m_transitions_data_table := t_data_table.empty
    m_existed_data_table := { m_size := 0, psp_existed := t_column.cleared t_dtype.DTYPE_BOOL }
    m_lookup := lookup
    m_op_base := fun _ => 0
    m_added_offset := fun _ => 0
    m_prev_pkey_eq_vec := fun _ => false }

/-- Column `s` of a two-row batch whose row 1 holds "x", valid; row 0 is invalid. -/
def delete_insert_fcolumn : t_column Nat :=
  { m_dtype := t_dtype.DTYPE_STR, m_size := 2, m_data := fun i => if i = 1 then 1 else 0,
    m_valid := fun i => decide (i = 1), m_vocab := ["", "x"] }

/-- The batch `[DELETE of the unknown key 7, INSERT for the new key 9]`. -/
def delete_insert_ps : t_process_state Nat :=
  batch_ps 2 (fun i => if i = 0 then 7 else 9)
    (fun i => if i = 0 then OP_DELETE else OP_INSERT) delete_insert_fcolumn
    [⟨0, false⟩, ⟨0, false⟩]

/-- Column `s` of a one-row batch holding "x", valid. -/
def single_valid_fcolumn : t_column Nat :=
  { m_dtype := t_dtype.DTYPE_STR, m_size := 1, m_data := fun _ => 1,
    m_valid := fun i => decide (i = 0), m_vocab := ["", "x"] }

/-- Column `s` of a one-row batch whose cell is invalid. -/
def single_invalid_fcolumn : t_column Nat :=
  { m_dtype := t_dtype.DTYPE_STR, m_size := 1, m_data := fun _ => 0,
    m_valid := fun _ => false, m_vocab := [""] }

/-- The flattened batch of one insert row for key 1, which the master maps to row 0
(where column `s` holds "a", valid). -/
def single_insert_ps (fcolumn : t_column Nat) : t_process_state Nat :=
  batch_ps 1 (fun _ => 1) (fun _ => OP_INSERT) fcolumn [⟨0, true⟩]

/-- The existence mask followed by the string routine for one column, as
`_process_table` runs them (gnode.cpp 370 and 444): mask, scratch and written columns. -/
def mask_then_string_column {K : Type} [DecidableEq K] (env : t_env)
    (fcolumn scolumn : t_column Nat) (ps : t_process_state K) (w : t_column_writes) :
    Option (t_mask × t_process_state K × t_column_writes) :=
  (_process_mask_existed_rows ps).bind (fun r =>
    (_process_column_string env fcolumn scolumn r.2 w).map (fun w1 => (r.1, r.2, w1)))

/-! ## The specification's reading of `prev_cur_eq` -/

/-- The flag `prev_cur_eq` as section 4.6 (e) of the specification words it:
`prev_valid ∧ cur_valid ∧ prev == cur`. -/
def spec_prev_cur_eq (prev_valid cur_valid : Bool) (prev cur : String) : Bool :=
  prev_valid && cur_valid && decide (prev = cur)

/-! ## The column loop, one column at a time -/

/-- Lines 393-450 without the write-back: the columns the routine for `cname` returns,
from the six columns under that name and the scratch vectors. -/
def column_result {K : Type} (env : t_env) (generic : t_process_column_generic K)
    (ps : t_process_state K) (cname : String) : Option (t_column Nat × t_column_writes) :=
  (ps.m_flattened_data_table.get_column cname).bind fun fcolumn =>
  (ps.m_state_data_table.get_column cname).bind fun scolumn =>
  (ps.m_delta_data_table.get_column cname).bind fun dcolumn =>
  (ps.m_prev_data_table.get_column cname).bind fun pcolumn =>
  (ps.m_current_data_table.get_column cname).bind fun ccolumn =>
  (ps.m_transitions_data_table.get_column cname).bind fun tcolumn =>
  _process_table_dispatch env generic fcolumn scolumn dcolumn
    { pcolumn := pcolumn, ccolumn := ccolumn, tcolumn := tcolumn } ps

/-- The write-back of the columns the routine for `cname` returned. -/
def column_store {K : Type} (ps : t_process_state K) (cname : String)
    (r : t_column Nat × t_column_writes) : t_process_state K :=
  { ps with
    m_delta_data_table := ps.m_delta_data_table.set_column cname r.1
    m_prev_data_table := ps.m_prev_data_table.set_column cname r.2.pcolumn
    m_current_data_table := ps.m_current_data_table.set_column cname r.2.ccolumn
    m_transitions_data_table := ps.m_transitions_data_table.set_column cname r.2.tcolumn }

/-- The typed routine of the other kinds reads, of the process state, the scratch
vectors and lookup results only. -/
def generic_reads_scratch {K : Type} (generic : t_process_column_generic K) : Prop :=
  ∀ d f s dc w (q1 q2 : t_process_state K), scratch_eq q1 q2 →
    generic d f s dc w q1 = generic d f s dc w q2

/-- The example batch with two string columns `s` and `u` in each of its tables, as the
column loop finds it: scratch vectors of a batch of three kept inserts. -/
def two_column_ps : t_process_state Nat :=
  { m_state_data_table :=
      { m_size := 2, m_columns := [("s", example_scolumn), ("u", example_scolumn)] }
    m_flattened_data_table :=
      { m_size := 3, m_columns := [("s", example_fcolumn), ("u", example_fcolumn)],
        psp_pkey := fun i => i, psp_op := fun _ => OP_INSERT }
    m_delta_data_table :=
      { m_size := 3, m_columns := [("s", t_column.cleared t_dtype.DTYPE_STR),
          ("u", t_column.cleared t_dtype.DTYPE_STR)] }
    m_prev_data_table :=
      { m_size := 3, m_columns := [("s", t_column.cleared t_dtype.DTYPE_STR),
          ("u", t_column.cleared t_dtype.DTYPE_STR)] }
    m_current_data_table :=
      { m_size := 3, m_columns := [("s", t_column.cleared t_dtype.DTYPE_STR),
          ("u", t_column.cleared t_dtype.DTYPE_STR)] }
    m_transitions_data_table :=
      { m_size := 3, m_columns := [("s", t_column.cleared t_dtype.DTYPE_UINT8),
          ("u", t_column.cleared t_dtype.DTYPE_UINT8)] }
    m_existed_data_table := { m_size := 3, psp_existed := t_column.cleared t_dtype.DTYPE_BOOL }
    m_lookup := [⟨0, true⟩, ⟨1, true⟩, ⟨0, false⟩]
    m_op_base := fun _ => OP_INSERT
    m_added_offset := fun i => i
    m_prev_pkey_eq_vec := fun _ => false }

/-! ## The engine: schemas, ports and the state of `t_gnode` -/

/-- Modelled from the spec: a schema (section 3), an ordered sequence of `(name, dtype)`
pairs; the class `t_schema` is defined outside gnode.cpp. -/
structure t_schema where
  m_entries : List (String × t_dtype)

/-- Modelled from the spec: the schema built from a list of names and a list of kinds,
as the constructor of `t_gnode` builds the transitions and existed schemas. -/
def t_schema.of (columns : List String) (types : List t_dtype) : t_schema :=
  ⟨columns.zip types⟩

/-- Modelled from the spec: `columns()`, the names in order. -/
def t_schema.columns (s : t_schema) : List String := s.m_entries.map Prod.fst

/-- Modelled from the spec: `size()`, the number of columns. -/
def t_schema.size (s : t_schema) : Nat := s.m_entries.length

/-- Modelled from the spec: the kind a schema gives a column. -/
def t_schema.get_dtype (s : t_schema) (name : String) : Option t_dtype :=
  s.m_entries.lookup name

/-- Modelled from the spec: `retype_column(name, dtype)` gives the named column the new
kind. -/
def t_schema.retype_column (s : t_schema) (name : String) (dtype : t_dtype) : t_schema :=
  ⟨s.m_entries.map (fun p => if p.1 == name then (p.1, dtype) else p)⟩

/-- Modelled from the spec: the table a port creates from its schema at `init()`: no
rows, one cleared column per schema entry. -/
def t_data_table.of_schema {α : Type} [Inhabited α] (s : t_schema) : t_data_table α :=
  { m_size := 0, m_columns := s.m_entries.map (fun p => (p.1, t_column.cleared p.2)) }

/-- Modelled from the spec: the primary-keyed table a port creates from its schema. -/
def t_pkeyed_table.of_schema {K : Type} [Inhabited K] (s : t_schema) : t_pkeyed_table K :=
  { tot_data_table := t_data_table.of_schema s
    psp_pkey := fun _ => default
    psp_op := fun _ => OP_INSERT }

/-- Modelled from the spec: `promote_column(name, new_dtype)` on a table (section 4.2)
widens the named column in place, the values kept; a table without the column is left
as it is.  The check that the new kind is a superset is outside gnode.cpp. -/
def t_data_table.promote_column {α : Type} (t : t_data_table α) (name : String)
    (new_dtype : t_dtype) : t_data_table α :=
  { t with
    m_columns := t.m_columns.map
      (fun p => if p.1 == name then (p.1, { p.2 with m_dtype := new_dtype }) else p) }

/-- Modelled from the spec: `promote_column` on a primary-keyed table. -/
def t_pkeyed_table.promote_column {K : Type} (t : t_pkeyed_table K) (name : String)
    (new_dtype : t_dtype) : t_pkeyed_table K :=
  { t with tot_data_table := t.tot_data_table.promote_column name new_dtype }

/-- Modelled from the spec: `release()` on a port holding a primary-keyed table clears
its table (section 3); `release_or_clear()` releases or clears, which leaves the same
table. -/
def t_pkeyed_table.release {K : Type} (t : t_pkeyed_table K) : t_pkeyed_table K :=
  { t with tot_data_table := t.tot_data_table.clear }

/-- The six output ports in the order of `m_oports`, each holding its table; the fields
carry the names of the port indices (section 6: 0 flattened, 1 delta, 2 prev,
3 current, 4 transitions, 5 existed). -/
structure t_oports (K : Type) where
  PSP_PORT_FLATTENED : t_pkeyed_table K
  PSP_PORT_DELTA : t_data_table Nat
  PSP_PORT_PREV : t_data_table Nat
  PSP_PORT_CURRENT : t_data_table Nat
  PSP_PORT_TRANSITIONS : t_data_table (Option t_value_transition)
  PSP_PORT_EXISTED : t_existed_table

/-- The function `t_gnode::release_outputs` (gnode.cpp 1146-1151): every output port is
released. -/
def release_outputs {K : Type} (m_oports : t_oports K) : t_oports K :=
  { PSP_PORT_FLATTENED := m_oports.PSP_PORT_FLATTENED.release
    PSP_PORT_DELTA := m_oports.PSP_PORT_DELTA.clear
    PSP_PORT_PREV := m_oports.PSP_PORT_PREV.clear
    PSP_PORT_CURRENT := m_oports.PSP_PORT_CURRENT.clear
    PSP_PORT_TRANSITIONS := m_oports.PSP_PORT_TRANSITIONS.clear
    PSP_PORT_EXISTED := m_oports.PSP_PORT_EXISTED.clear }

/-- The operations of classes defined outside gnode.cpp that the engine calls and that
are taken as parameters: the master state `t_gstate` (creation, `lookup`,
`mapping_size`, `update_master_table`, `get_table` and the write through the pointer it
hands out), `t_data_table::flatten`, `t_port::send`, and the typed column routine of
gnode.h. -/
structure t_externals (G K : Type) where
  gstate_init : t_schema → t_schema → G
  lookup : G → K → t_rlookup
  mapping_size : G → Nat
  update_master_table : G → t_pkeyed_table K → G
  get_table : G → t_data_table Nat
  set_table : G → t_data_table Nat → G
  flatten : t_pkeyed_table K → t_pkeyed_table K
  port_send : t_pkeyed_table K → t_pkeyed_table K → t_pkeyed_table K
  process_column : t_process_column_generic K

/-- The kinds of context a handle can be registered with (gnode.cpp 1307-1329). -/
inductive t_ctx_type where
  | UNIT_CONTEXT | ZERO_SIDED_CONTEXT | ONE_SIDED_CONTEXT | TWO_SIDED_CONTEXT
  | GROUPED_PKEY_CONTEXT
  deriving DecidableEq, Repr

/-- The members of `t_gnode` that gnode.cpp 47-692 reads and writes.  The input ports
are the map `m_input_ports` from port id to port, each port holding its table. -/
structure t_gnode (G K : Type) where
  m_input_schema : t_schema
  m_output_schema : t_schema
  m_transitional_schemas : List t_schema
  m_init : Bool
  m_last_input_port_id : Nat
  m_gstate : G
  m_input_ports : List (Nat × t_pkeyed_table K)
  m_oports : t_oports K
  m_expression_map : List t_computed_expression
  m_contexts : List (String × t_ctx_type)
  m_was_updated : Bool

/-- The map operation `m_input_ports.count(port_id) != 0`. -/
def has_input_port {K : Type} (m_input_ports : List (Nat × t_pkeyed_table K))
    (port_id : Nat) : Bool :=
  (m_input_ports.lookup port_id).isSome

/-- The map operation `m_input_ports[port_id] = port`: the entry is replaced when the
key is present and added otherwise. -/
def set_input_port {K : Type} (m_input_ports : List (Nat × t_pkeyed_table K))
    (port_id : Nat) (port : t_pkeyed_table K) : List (Nat × t_pkeyed_table K) :=
  if has_input_port m_input_ports port_id then
    m_input_ports.map (fun p => if p.1 == port_id then (p.1, port) else p)
  else m_input_ports ++ [(port_id, port)]

/-- The map operation `m_input_ports.erase(port_id)`. -/
def erase_input_port {K : Type} (m_input_ports : List (Nat × t_pkeyed_table K))
    (port_id : Nat) : List (Nat × t_pkeyed_table K) :=
  m_input_ports.filter (fun p => !(p.1 == port_id))

/-- The constructor `t_gnode::t_gnode` (gnode.cpp 47-71) followed by `t_gnode::init`
(79-125): the transitional schemas, the master state, input port 0 and the six output
ports, one per transitional schema. -/
def t_gnode.init {G K : Type} [Inhabited K] (x : t_externals G K)
    (input_schema output_schema : t_schema) : t_gnode G K :=
  let trans_schema := t_schema.of output_schema.columns
    (List.replicate output_schema.size t_dtype.DTYPE_UINT8)
  let existed_schema := t_schema.of ["psp_existed"] [t_dtype.DTYPE_BOOL]
  { m_input_schema := input_schema
    m_output_schema := output_schema
    m_transitional_schemas :=
      [input_schema, output_schema, output_schema, output_schema, trans_schema,
        existed_schema]
    m_init := true
    m_last_input_port_id := 0
    m_gstate := x.gstate_init input_schema output_schema
    m_input_ports := [(0, t_pkeyed_table.of_schema input_schema)]
    m_oports :=
      { PSP_PORT_FLATTENED := t_pkeyed_table.of_schema input_schema
        PSP_PORT_DELTA := t_data_table.of_schema output_schema
        PSP_PORT_PREV := t_data_table.of_schema output_schema
        PSP_PORT_CURRENT := t_data_table.of_schema output_schema
        PSP_PORT_TRANSITIONS := t_data_table.of_schema trans_schema
        PSP_PORT_EXISTED :=
          { m_size := 0, psp_existed := t_column.cleared t_dtype.DTYPE_BOOL } }
    m_expression_map := []
    m_contexts := []
    m_was_updated := false }

/-- The function `t_gnode::make_input_port` (gnode.cpp 127-141): the new port id and the
engine with the port added; `none` for the failed assertion on an uninited engine.  The
id is a `t_uindex`, an unsigned 64-bit integer: the increment wraps at `2 ^ 64`. -/
def t_gnode.make_input_port {G K : Type} [Inhabited K] (g : t_gnode G K) :
    Option (Nat × t_gnode G K) :=
  if g.m_init then
    let input_port : t_pkeyed_table K := t_pkeyed_table.of_schema g.m_input_schema
    let port_id := (g.m_last_input_port_id + 1) % 2 ^ 64
    some (port_id,
      { g with
        m_input_ports := set_input_port g.m_input_ports port_id input_port
        m_last_input_port_id := port_id })
  else none

/-- The function `t_gnode::remove_input_port` (gnode.cpp 143-159). -/
def t_gnode.remove_input_port {G K : Type} (g : t_gnode G K) (port_id : Nat) :
    Option (t_gnode G K) :=
  if g.m_init then
    if has_input_port g.m_input_ports port_id then
      some { g with m_input_ports := erase_input_port g.m_input_ports port_id }
    else some g
  else none

/-- The function `t_gnode::send` (gnode.cpp 596-608). -/
def t_gnode.send {G K : Type} (x : t_externals G K) (g : t_gnode G K) (port_id : Nat)
    (fragments : t_pkeyed_table K) : Option (t_gnode G K) :=
  if g.m_init then
    match g.m_input_ports.lookup port_id with
    | none => some g
    | some input_port =>
      some { g with
        m_input_ports := set_input_port g.m_input_ports port_id
          (x.port_send input_port fragments) }
  else none

/-- The functions `t_gnode::notify_contexts` (gnode.cpp 936-985) and
`t_gnode::_update_contexts_from_state` (710-746) hand the table to each registered
context.  Contexts are external subscribers (section 1 of the specification); a handle
carries one of the five kinds of `t_ctx_type`, so the `Unexpected context type` abort is
not reached, and the engine's own members are left as they are. -/
def notify_contexts {G K : Type} (g : t_gnode G K) (_flattened : t_pkeyed_table K) :
    t_gnode G K := g

/-- Lines 286-295 of `_process_table`: the lookup result of the key of every row of the
flattened batch. -/
def row_lookups {G K : Type} (x : t_externals G K) (m_gstate : G)
    (flattened : t_pkeyed_table K) : List t_rlookup :=
  (List.range flattened.num_rows).map (fun idx => x.lookup m_gstate (flattened.psp_pkey idx))

/-- The function `t_gnode::_process_table` (gnode.cpp 259-507): the result and the engine
afterwards; `none` when the incremental path aborts. -/
def _process_table {G K : Type} [DecidableEq K] (x : t_externals G K) (env : t_env)
    (g : t_gnode G K) (port_id : Nat) : Option (t_process_table_result K × t_gnode G K) :=
  let g := { g with m_was_updated := false }
  let result : t_process_table_result K :=
    { m_flattened_data_table := none, m_should_notify_userspace := false }
  match g.m_input_ports.lookup port_id with
  | none => some (result, g)
  | some input_port =>
    if input_port.num_rows = 0 then some (result, g)
    else
      let g := { g with m_was_updated := true }
      let flattened := x.flatten input_port
      let row_lookup := row_lookups x g.m_gstate flattened
      if x.mapping_size g.m_gstate = 0 then
        let flattened : t_pkeyed_table K :=
          if g.m_expression_map.length > 0 then
            { flattened with
              tot_data_table := _compute_expressions g.m_expression_map flattened.tot_data_table }
          else flattened
        some ({ result with m_should_notify_userspace := true },
          { g with
            m_gstate := x.update_master_table g.m_gstate flattened
            m_input_ports := set_input_port g.m_input_ports port_id input_port.release
            m_oports := release_outputs { g.m_oports with PSP_PORT_FLATTENED := flattened } })
      else
        (_process_table_incremental env x.process_column g.m_expression_map
          g.m_output_schema.columns (x.get_table g.m_gstate) flattened row_lookup
          g.m_oports.PSP_PORT_DELTA g.m_oports.PSP_PORT_PREV g.m_oports.PSP_PORT_CURRENT
          g.m_oports.PSP_PORT_TRANSITIONS g.m_oports.PSP_PORT_EXISTED).map fun out =>
        (out.result,
          { g with
            m_gstate := x.update_master_table
              (x.set_table g.m_gstate out.process_state.m_state_data_table)
              out.flattened_port
            m_input_ports := set_input_port g.m_input_ports port_id input_port.release
            m_oports :=
              { PSP_PORT_FLATTENED := out.flattened_port
                PSP_PORT_DELTA := out.process_state.m_delta_data_table
                PSP_PORT_PREV := out.process_state.m_prev_data_table
                PSP_PORT_CURRENT := out.process_state.m_current_data_table
                PSP_PORT_TRANSITIONS := out.process_state.m_transitions_data_table
                PSP_PORT_EXISTED := out.process_state.m_existed_data_table } })

/-- The function `t_gnode::process` (gnode.cpp 610-627): the returned flag and the engine
afterwards; `none` for the failed assertion on an uninited engine or an abort. -/
def t_gnode.process {G K : Type} [DecidableEq K] (x : t_externals G K) (env : t_env)
    (g : t_gnode G K) (port_id : Nat) : Option (Bool × t_gnode G K) :=
  if g.m_init then
    (_process_table x env g port_id).map fun r =>
      let g1 :=
        match r.1.m_flattened_data_table with
        | some flattened => notify_contexts r.2 flattened
        | none => r.2
      (r.1.m_should_notify_userspace, g1)
  else none

/-- The function `t_gnode::was_updated` (gnode.cpp 1278-1281). -/
def t_gnode.was_updated {G K : Type} (g : t_gnode G K) : Bool := g.m_was_updated

/-- The function `t_gnode::num_input_ports` (gnode.cpp 1128-1131). -/
def t_gnode.num_input_ports {G K : Type} (g : t_gnode G K) : Nat := g.m_input_ports.length

/-- The function `t_gnode::promote_column` (gnode.cpp 676-692): the master table, the table
of output port 0 and the table of every input port are promoted, and the output
schema, the input schema and transitional schema 0 retyped. -/
def t_gnode.promote_column {G K : Type} (x : t_externals G K) (g : t_gnode G K)
    (name : String) (new_type : t_dtype) : Option (t_gnode G K) :=
  if g.m_init then
    some { g with
      m_gstate := x.set_table g.m_gstate
        ((x.get_table g.m_gstate).promote_column name new_type)
      m_oports := { g.m_oports with
        PSP_PORT_FLATTENED := g.m_oports.PSP_PORT_FLATTENED.promote_column name new_type }
      m_input_ports := g.m_input_ports.map (fun p => (p.1, p.2.promote_column name new_type))
      m_output_schema := g.m_output_schema.retype_column name new_type
      m_input_schema := g.m_input_schema.retype_column name new_type
      m_transitional_schemas :=
        match g.m_transitional_schemas with
        | [] => []
        | s0 :: rest => s0.retype_column name new_type :: rest }
  else none

/-- The calls of the control interface that act on the input ports. -/
inductive t_gnode_call (K : Type) where
  | make_input_port
  | remove_input_port (port_id : Nat)
  | send (port_id : Nat) (fragments : t_pkeyed_table K)
  | process (port_id : Nat)

/-- The engine after one call; `none` when the call aborts. -/
def t_gnode.call {G K : Type} [DecidableEq K] [Inhabited K] (x : t_externals G K)
    (env : t_env) (g : t_gnode G K) : t_gnode_call K → Option (t_gnode G K)
  | t_gnode_call.make_input_port => g.make_input_port.map Prod.snd
  | t_gnode_call.remove_input_port port_id => g.remove_input_port port_id
  | t_gnode_call.send port_id fragments => g.send x port_id fragments
  | t_gnode_call.process port_id => (g.process x env port_id).map Prod.snd

/-- The engine after a sequence of calls, in order. -/
def t_gnode.calls {G K : Type} [DecidableEq K] [Inhabited K] (x : t_externals G K)
    (env : t_env) : t_gnode G K → List (t_gnode_call K) → Option (t_gnode G K)
  | g, [] => some g
  | g, c :: rest => (g.call x env c).bind (fun g1 => t_gnode.calls x env g1 rest)

/-! ## A concrete master state and a concrete engine, for the runs on explicit inputs -/

/-- Modelled from the spec: the master state of section 4.4, the master table and the
mapping from primary key to row index. -/
structure t_gstate_model where
  m_table : t_data_table Nat
  m_mapping : List (Nat × Nat)

/-- Modelled from the spec: `lookup(pkey)` gives whether the key is mapped and its row
index. -/
def t_gstate_model.lookup (gs : t_gstate_model) (pkey : Nat) : t_rlookup :=
  match gs.m_mapping.lookup pkey with
  | some idx => ⟨idx, true⟩
  | none => ⟨0, false⟩

/-- Modelled from the spec: one row of `update_master_table(batch)`: a delete removes
the mapping of the key; an insert of an unmapped key takes a new row and maps the key
to it; the cells of the row that the batch marks valid are overwritten. -/
def t_gstate_model.update_row (batch : t_pkeyed_table Nat) (gs : t_gstate_model)
    (i : Nat) : t_gstate_model :=
  let pkey := batch.psp_pkey i
  if batch.psp_op i = OP_DELETE then
    { gs with m_mapping := gs.m_mapping.filter (fun p => !(p.1 == pkey)) }
  else
    let idx :=
      match gs.m_mapping.lookup pkey with
      | some j => j
      | none => gs.m_table.m_size
    { m_mapping :=
        if (gs.m_mapping.lookup pkey).isSome then gs.m_mapping
        else gs.m_mapping ++ [(pkey, idx)]
      m_table :=
        { m_size := if (gs.m_mapping.lookup pkey).isSome then gs.m_table.m_size
            else gs.m_table.m_size + 1
          m_columns := gs.m_table.m_columns.map (fun p =>
            match batch.get_column p.1 with
            | some bc =>
              if bc.is_valid i then
                (p.1, (p.2.set_nth_cstr idx (bc.get_nth_cstr i)).set_valid idx true)
              else p
            | none => p) } }

/-- Modelled from the spec: `update_master_table(batch)`, row by row. -/
def t_gstate_model.update_master_table (gs : t_gstate_model) (batch : t_pkeyed_table Nat) :
    t_gstate_model :=
  (List.range batch.num_rows).foldl (t_gstate_model.update_row batch) gs

/-- Modelled from the spec: `send(fragment)` appends the rows of the fragment to the
table of the port (section 3), here one row of the fragment. -/
def append_row (fragment : t_pkeyed_table Nat) (t : t_pkeyed_table Nat) (i : Nat) :
    t_pkeyed_table Nat :=
  { m_size := t.m_size + 1
    m_columns := t.m_columns.map (fun p =>
      match fragment.get_column p.1 with
      | some fc =>
        (p.1, (p.2.set_nth_cstr t.m_size (fc.get_nth_cstr i)).set_valid t.m_size
          (fc.is_valid i))
      | none => (p.1, p.2.set_valid t.m_size false))
    psp_pkey := Function.update t.psp_pkey t.m_size (fragment.psp_pkey i)
    psp_op := Function.update t.psp_op t.m_size (fragment.psp_op i) }

/-- Concrete stand-ins for the operations taken as parameters, over keys in `Nat`: the
master state above, `flatten` as the identity (what it is on a batch whose keys are
distinct, the only batches it is run on here), `send` appending the rows, and a typed
routine that writes nothing. -/
def example_externals : t_externals t_gstate_model Nat :=
  { gstate_init := fun _ output_schema =>
      { m_table := t_data_table.of_schema output_schema, m_mapping := [] }
    lookup := t_gstate_model.lookup
    mapping_size := fun gs => gs.m_mapping.length
    update_master_table := t_gstate_model.update_master_table
    get_table := fun gs => gs.m_table
    set_table := fun gs t => { gs with m_table := t }
    flatten := fun t => t
    port_send := fun t fragment => (List.range fragment.num_rows).foldl (append_row fragment) t
    process_column := generic_idle }

/-- The schema with the single string column `s`. -/
def s_schema : t_schema := ⟨[("s", t_dtype.DTYPE_STR)]⟩

/-- The schema with the single 32-bit integer column `n`. -/
def n_schema : t_schema := ⟨[("n", t_dtype.DTYPE_INT32)]⟩

/-- Column `s` of the fragment of three rows: "a", "b", "c", all valid. -/
def three_rows_fcolumn : t_column Nat :=
  { m_dtype := t_dtype.DTYPE_STR, m_size := 3, m_data := fun i => i,
    m_valid := fun i => decide (i < 3), m_vocab := ["a", "b", "c"] }

/-- The fragment of scenario S1: three insert rows with the distinct keys 1, 2, 3. -/
def three_inserts : t_pkeyed_table Nat :=
  { m_size := 3, m_columns := [("s", three_rows_fcolumn)],
    psp_pkey := fun i => i + 1, psp_op := fun _ => OP_INSERT }

/-- A sequence of calls that never removes port 0: a side port is made and removed,
three rows are sent to port 0 and processed. -/
def example_calls : List (t_gnode_call Nat) :=
  [t_gnode_call.make_input_port, t_gnode_call.remove_input_port 1,
    t_gnode_call.send 0 three_inserts, t_gnode_call.process 0]

/-- The conditions under which the incremental path of `_process_table` meets none of
its fatal conditions on the table of an input port: every op code of the flattened batch
is known, the flattened batch, the master table and the tables of output ports 1 to 4
have every column of the output schema, the column of the batch being of a data type the
dispatch lists, every expression has such a data type, and the typed routine of the
non-string columns returns. -/
def incremental_ready {G K : Type} (x : t_externals G K) (g : t_gnode G K)
    (input_port : t_pkeyed_table K) : Prop :=
  (∀ idx, idx < (x.flatten input_port).num_rows →
    (x.flatten input_port).psp_op idx = OP_INSERT ∨
      (x.flatten input_port).psp_op idx = OP_DELETE) ∧
  (∀ n, n ∈ g.m_output_schema.columns →
    (x.flatten input_port).tot_data_table.has_column n ∧
    (x.flatten input_port).tot_data_table.dtype_listed n ∧
    (x.get_table g.m_gstate).has_column n ∧
    g.m_oports.PSP_PORT_DELTA.has_column n ∧
    g.m_oports.PSP_PORT_PREV.has_column n ∧
    g.m_oports.PSP_PORT_CURRENT.has_column n ∧
    g.m_oports.PSP_PORT_TRANSITIONS.has_column n) ∧
  (∀ e, e ∈ g.m_expression_map → e.m_dtype ≠ t_dtype.DTYPE_NONE) ∧
  (∀ d f s dc w (q : t_process_state K), (x.process_column d f s dc w q).isSome = true)

/-- The engine of the example after the three insert rows of scenario S1 were sent to
port 0 and processed, and the same three rows were sent again: the master mapping holds
three keys and port 0 holds three rows. -/
def example_incremental_gnode : t_gnode t_gstate_model Nat :=
  ((t_gnode.init example_externals s_schema s_schema).calls example_externals t_env.off
    [t_gnode_call.send 0 three_inserts, t_gnode_call.process 0,
      t_gnode_call.send 0 three_inserts]).getD
    (t_gnode.init example_externals s_schema s_schema)

/-- The table of input port 0 of `example_incremental_gnode`. -/
def example_incremental_port : t_pkeyed_table Nat :=
  (example_incremental_gnode.m_input_ports.lookup 0).getD three_inserts

/-- The data type of the named column in the master table, in the table of input port 0,
in the input and output schemas and in the tables of output ports 0 to 3 (flattened,
delta, prev, current) of an engine. -/
def column_dtypes {G K : Type} (x : t_externals G K) (g : t_gnode G K) (name : String) :
    List (String × Option t_dtype) :=
  [("master", ((x.get_table g.m_gstate).get_column name).map (·.m_dtype)),
    ("input port 0",
      (g.m_input_ports.lookup 0).bind (fun t => (t.get_column name).map (·.m_dtype))),
    ("input schema", g.m_input_schema.get_dtype name),
    ("output schema", g.m_output_schema.get_dtype name),
    ("flattened", (g.m_oports.PSP_PORT_FLATTENED.get_column name).map (·.m_dtype)),
    ("delta", (g.m_oports.PSP_PORT_DELTA.get_column name).map (·.m_dtype)),
    ("prev", (g.m_oports.PSP_PORT_PREV.get_column name).map (·.m_dtype)),
    ("current", (g.m_oports.PSP_PORT_CURRENT.get_column name).map (·.m_dtype))]

/-- The number of `make_input_port` calls in a sequence of calls. -/
def make_input_port_calls {K : Type} : List (t_gnode_call K) → Nat
  | [] => 0
  | t_gnode_call.make_input_port :: rest => make_input_port_calls rest + 1
  | _ :: rest => make_input_port_calls rest

/-- The invariant of the input-port map and the port id counter: the engine is inited,
every id in the map is at most `m_last_input_port_id`, and the map holds each id once. -/
def input_ports_fresh {G K : Type} (g : t_gnode G K) : Prop :=
  g.m_init = true ∧
  (∀ id, has_input_port g.m_input_ports id = true → id ≤ g.m_last_input_port_id) ∧
  (g.m_input_ports.map Prod.fst).Nodup

/-- A batch none of whose rows is dropped: a delete of key 2, which the master maps to
row 1, then an insert for key 1, which the master maps to row 0. -/
def aligned_ps : t_process_state Nat :=
  batch_ps 2 (fun i => if i = 0 then 2 else 1)
    (fun i => if i = 0 then OP_DELETE else OP_INSERT) delete_insert_fcolumn
    [⟨1, true⟩, ⟨0, true⟩]

/-- The typed routine of the other kinds returns whenever every row of the flattened
column it is given has the op code INSERT or DELETE and a lookup entry, the conditions
under which the string routine meets neither its `Unknown OP` abort nor a lookup out of
bounds. -/
def generic_returns {K : Type} (generic : t_process_column_generic K) : Prop :=
  ∀ d f s dc w (q : t_process_state K),
    (∀ idx, idx < f.m_size →
      (q.m_op_base idx = OP_INSERT ∨ q.m_op_base idx = OP_DELETE) ∧
        idx < q.m_lookup.length) →
    (generic d f s dc w q).isSome = true

/-- Modelled from the spec: one row of the typed routine of section 4.6 (e), for a column
of a kind other than string (the template `_process_column<T>` is in gnode.h).  With
`j = added_offset[i]` and `row_pre_existed = lookup[i].exists and not prev_pkey_eq[i]`:
an insert reads `cur` and, when the row pre-existed, `prev` from the master, computes the
transition with `prev_cur_eq = prev_valid and cur_valid and prev == cur` (the flags
`prev_existed` and `exists` as the string routine passes them), writes prev and current
at `j` and the transition at `i`; a delete of a row that pre-existed writes `prev` to
prev and current at `j` and `NEQ_TDF` at `j`; any other op is fatal.  The delta column is
left as it is. -/
def _process_column_typed_body {K : Type} (env : t_env) (fcolumn scolumn : t_column Nat)
    (process_state : t_process_state K) (w : t_column_writes) (idx : Nat) :
    Option t_column_writes :=
  let op := process_state.m_op_base idx
  let j := process_state.m_added_offset idx
  match process_state.m_lookup[idx]? with
  | none => none
  | some rlookup =>
    let prev_pkey_eq := process_state.m_prev_pkey_eq_vec idx
    let row_pre_existed := rlookup.m_exists && !prev_pkey_eq
    if op = OP_INSERT then
      let cur := fcolumn.get_nth idx
      let cur_valid := fcolumn.is_valid idx
      let prev := scolumn.get_nth rlookup.m_idx
      let prev_valid := if row_pre_existed then scolumn.is_valid rlookup.m_idx else false
      let prev_cur_eq := prev_valid && cur_valid && decide (prev = cur)
      (calc_transition env (row_pre_existed && prev_valid) row_pre_existed cur_valid
          prev_valid cur_valid prev_cur_eq prev_pkey_eq).map fun trans_ =>
        { pcolumn :=
            (if prev_valid then w.pcolumn.set_nth j prev else w.pcolumn).set_valid j prev_valid
          ccolumn :=
            (if cur_valid then w.ccolumn.set_nth j cur
              else if prev_valid then w.ccolumn.set_nth j prev
              else w.ccolumn).set_valid j (cur_valid || prev_valid)
          tcolumn := w.tcolumn.set_nth idx (some trans_) }
    else if op = OP_DELETE then
      if row_pre_existed then
        let prev := scolumn.get_nth rlookup.m_idx
        let prev_valid := scolumn.is_valid rlookup.m_idx
        some
          { pcolumn := (w.pcolumn.set_nth j prev).set_valid j prev_valid
            ccolumn := (w.ccolumn.set_nth j prev).set_valid j prev_valid
            tcolumn := w.tcolumn.set_nth j (some VALUE_TRANSITION_NEQ_TDF) }
      else some w
    else
      none

/-- Modelled from the spec: the written columns after the first `n` rows of the typed
routine. -/
def _process_column_typed_loop {K : Type} (env : t_env) (fcolumn scolumn : t_column Nat)
    (process_state : t_process_state K) (w : t_column_writes) : Nat → Option t_column_writes
  | 0 => some w
  | n + 1 =>
    (_process_column_typed_loop env fcolumn scolumn process_state w n).bind
      (fun w1 => _process_column_typed_body env fcolumn scolumn process_state w1 n)

/-- Modelled from the spec: the typed routine of section 4.6 (e) over the rows of the
flattened column, as a value for the parameter `t_process_column_generic`. -/
def _process_column_typed {K : Type} (env : t_env) : t_process_column_generic K :=
  fun _ fcolumn scolumn dcolumn w process_state =>
    (_process_column_typed_loop env fcolumn scolumn process_state w fcolumn.m_size).map
      (fun w1 => (dcolumn, w1))

/-- Master column `n` of the example: row 0 holds 10, row 1 holds 11, both valid. -/
def example_ncolumn : t_column Nat :=
  { m_dtype := t_dtype.DTYPE_INT32, m_size := 2, m_data := fun i => 10 + i,
    m_valid := fun i => decide (i < 2), m_vocab := [] }

/-- Column `n` of the example batch: row 1 holds 21 and is valid, rows 0 and 2 are
invalid. -/
def example_fncolumn : t_column Nat :=
  { m_dtype := t_dtype.DTYPE_INT32, m_size := 3, m_data := fun i => 20 + i,
    m_valid := fun i => decide (i = 1), m_vocab := [] }

/-- The master table of the example with the string column `s` and the integer column
`n`. -/
def example_sn_state : t_data_table Nat :=
  { m_size := 2, m_columns := [("s", example_scolumn), ("n", example_ncolumn)] }

/-- The example batch of three rows (a delete of the unknown key 7, an insert for key 1,
a delete of key 2) with the columns `s` and `n`. -/
def example_sn_flattened : t_pkeyed_table Nat :=
  { m_size := 3, m_columns := [("s", example_fcolumn), ("n", example_fncolumn)],
    psp_pkey := fun i => if i = 0 then 7 else if i = 1 then 1 else 2,
    psp_op := fun i => if i = 1 then OP_INSERT else OP_DELETE }

/-- A table with a cleared string column `s` and a cleared integer column `n`. -/
def cleared_sn_table : t_data_table Nat :=
  { m_size := 0,
    m_columns := [("s", t_column.cleared t_dtype.DTYPE_STR),
      ("n", t_column.cleared t_dtype.DTYPE_INT32)] }

/-- A transitions table with cleared columns `s` and `n`. -/
def cleared_sn_transitions : t_data_table (Option t_value_transition) :=
  { m_size := 0,
    m_columns := [("s", t_column.cleared t_dtype.DTYPE_UINT8),
      ("n", t_column.cleared t_dtype.DTYPE_UINT8)] }

end perspective

namespace perspective

open t_value_transition

/-- C1: with all three backout switches off, for every combination of the seven
boolean arguments `calc_transition` returns the code of the first matching rule of
the priority-ordered table of the specification (and some rule always matches). -/
theorem calc_transition_first_match (a : t_transition_flags) :
    (∃ code, spec_first_match spec_rule_table a = some code) ∧
      calc_transition t_env.off a.prev_existed a.row_pre_existed a.exists_ a.prev_valid
        a.cur_valid a.prev_cur_eq a.prev_pkey_eq = spec_first_match spec_rule_table a := by
  obtain ⟨pe, rpe, ex, pv, cv, eq, pk⟩ := a
  cases pe <;> cases rpe <;> cases ex <;> cases pv <;> cases cv <;> cases eq <;> cases pk <;>
    exact ⟨⟨_, rfl⟩, rfl⟩

theorem calc_transition_total_aux (env : t_env)
    (prev_existed row_pre_existed exists_ prev_valid cur_valid prev_cur_eq prev_pkey_eq : Bool) :
    ∃ trans_, calc_transition env prev_existed row_pre_existed exists_ prev_valid cur_valid
      prev_cur_eq prev_pkey_eq = some trans_ := by
  obtain ⟨b1, b2, b3⟩ := env
  cases b1 <;> cases b2 <;> cases b3 <;>
  cases prev_existed <;> cases row_pre_existed <;> cases exists_ <;> cases prev_valid <;>
    cases cur_valid <;> cases prev_cur_eq <;> cases prev_pkey_eq <;>
    exact ⟨_, rfl⟩

/-- C2: `calc_transition` is total: for every combination of its seven boolean
arguments and every setting of the three backout switches it returns a transition
code, never the fatal branch. -/
theorem calc_transition_total (env : t_env)
    (prev_existed row_pre_existed exists_ prev_valid cur_valid prev_cur_eq prev_pkey_eq : Bool) :
    ∃ trans, calc_transition env prev_existed row_pre_existed exists_ prev_valid cur_valid
      prev_cur_eq prev_pkey_eq = some trans :=
  calc_transition_total_aux env prev_existed row_pre_existed exists_ prev_valid cur_valid
    prev_cur_eq prev_pkey_eq

/-! ## The existence mask -/

theorem kept_below_succ {K : Type} (ps : t_process_state K) (k : Nat) :
    kept_below ps (k + 1) = kept_below ps k + (if row_kept ps k then 1 else 0) := by
  simp [kept_below, List.range_succ, List.countP_append, List.countP_cons]

theorem kept_below_mono {K : Type} (ps : t_process_state K) {a b : Nat} (h : a ≤ b) :
    kept_below ps a ≤ kept_below ps b := by
  induction h with
  | refl => exact Nat.le_refl _
  | step _ ih => rw [kept_below_succ]; omega

theorem kept_below_lt {K : Type} (ps : t_process_state K) {i k : Nat} (h : i < k)
    (hk : row_kept ps i = true) : kept_below ps i < kept_below ps k := by
  have h1 := kept_below_succ ps i
  have h2 := kept_below_mono ps (show i + 1 ≤ k from h)
  simp [hk] at h1
  omega

theorem kept_below_le_self {K : Type} (ps : t_process_state K) (k : Nat) :
    kept_below ps k ≤ k := by
  induction k with
  | zero => simp [kept_below]
  | succ k ih => rw [kept_below_succ]; split <;> omega

theorem mask_inv_init {K : Type} [DecidableEq K] (ps : t_process_state K) :
    mask_inv ps 0 (_process_mask_existed_rows_init ps) := by
  constructor <;>
    simp [_process_mask_existed_rows_init, t_mask.create, t_existed_table.set_size, kept_below]

theorem mask_body_closed {K : Type} [DecidableEq K] (ps : t_process_state K) (k : Nat)
    (st : t_mask_state K) (hinv : mask_inv ps k st)
    (hop : ps.m_flattened_data_table.psp_op k = OP_INSERT ∨
      ps.m_flattened_data_table.psp_op k = OP_DELETE)
    (hk : k < ps.m_lookup.length) :
    _process_mask_existed_rows_body st k = some (mask_step_closed ps st k) := by
  have hr : ps.m_lookup[k]? = some ps.m_lookup[k] := List.getElem?_eq_getElem hk
  have hle : row_lookup_exists ps k = ps.m_lookup[k].m_exists := by
    simp [row_lookup_exists, hr]
  have hppe : decide (some (ps.m_flattened_data_table.psp_pkey k) = st.prev_pkey) =
      pkey_eq_prev ps k := by
    rw [hinv.prev]
    cases k <;> simp [pkey_eq_prev]
  rcases hop with hop | hop
  · have hkept : row_kept ps k = true := by simp [row_kept, row_is_insert, hop]
    have hval : existed_value ps k = (ps.m_lookup[k].m_exists && !pkey_eq_prev ps k) := by
      simp [existed_value, row_is_insert, hop, hle]
    simp [_process_mask_existed_rows_body, mask_step_closed, hinv.lookup_eq, hr, hinv.op_eq,
      hop, hkept, hval, hinv.flat_eq, hppe]
  · have hne : ¬ OP_DELETE = OP_INSERT := by decide
    cases hex : ps.m_lookup[k].m_exists
    · have hkept : row_kept ps k = false := by
        simp [row_kept, row_is_insert, row_is_delete, hop, hle, hex, hne]
      simp [_process_mask_existed_rows_body, mask_step_closed, hinv.lookup_eq, hr,
        hinv.op_eq, hop, hkept, hinv.flat_eq, hppe, hne, hex]
    · have hkept : row_kept ps k = true := by
        simp [row_kept, row_is_insert, row_is_delete, hop, hle, hex]
      have hval : existed_value ps k = true := by
        simp [existed_value, row_is_insert, hop, hne]
      simp [_process_mask_existed_rows_body, mask_step_closed, hinv.lookup_eq, hr,
        hinv.op_eq, hop, hkept, hval, hinv.flat_eq, hppe, hne, hex]

theorem mask_closed_inv {K : Type} [DecidableEq K] (ps : t_process_state K) (k : Nat)
    (st : t_mask_state K) (hinv : mask_inv ps k st) :
    mask_inv ps (k + 1) (mask_step_closed ps st k) := by
  have hsucc := kept_below_succ ps k
  constructor
  case lookup_eq => exact hinv.lookup_eq
  case op_eq => exact hinv.op_eq
  case flat_eq => exact hinv.flat_eq
  case state_eq => exact hinv.state_eq
  case delta_eq => exact hinv.delta_eq
  case prev_eq => exact hinv.prev_eq
  case current_eq => exact hinv.current_eq
  case transitions_eq => exact hinv.transitions_eq
  case existed_size =>
    simp only [mask_step_closed]
    split <;> exact hinv.existed_size
  case mask_size => exact hinv.mask_size
  case count_eq =>
    simp only [mask_step_closed]
    rw [hsucc, hinv.count_eq]
  case bits =>
    intro i hi
    simp only [mask_step_closed, t_mask.set]
    by_cases h : i = k
    · subst h; simp
    · rw [Function.update_noteq h]; exact hinv.bits i (by omega)
  case offs =>
    intro i hi
    simp only [mask_step_closed]
    by_cases h : i = k
    · subst h; simp [hinv.count_eq]
    · rw [Function.update_noteq h]; exact hinv.offs i (by omega)
  case ppe =>
    intro i hi
    simp only [mask_step_closed]
    by_cases h : i = k
    · subst h; simp
    · rw [Function.update_noteq h]; exact hinv.ppe i (by omega)
  case prev => simp [mask_step_closed]
  case existed =>
    intro i hi hki
    simp only [mask_step_closed]
    by_cases h : i = k
    · subst h
      simp [hki, t_column.set_nth, hinv.count_eq]
    · have hlt := kept_below_lt ps (show i < k by omega) hki
      have hold := hinv.existed i (by omega) hki
      split
      · simp only [t_column.set_nth]
        rw [Function.update_noteq (by rw [hinv.count_eq]; omega)]
        exact hold
      · exact hold

theorem mask_loop_inv {K : Type} [DecidableEq K] (ps : t_process_state K)
    (hops : ops_known ps) (hlookup : ps.m_flattened_data_table.num_rows ≤ ps.m_lookup.length)
    (k : Nat) (hk : k ≤ ps.m_flattened_data_table.num_rows) :
    ∃ st, _process_mask_existed_rows_loop ps k = some st ∧ mask_inv ps k st := by
  induction k with
  | zero => exact ⟨_, rfl, mask_inv_init ps⟩
  | succ k ih =>
    obtain ⟨st, hst, hinv⟩ := ih (by omega)
    refine ⟨mask_step_closed ps st k, ?_, mask_closed_inv ps k st hinv⟩
    simp only [_process_mask_existed_rows_loop, hst, Option.bind_some]
    exact mask_body_closed ps k st hinv (hops k (by omega)) (by omega)

theorem mask_count_eq {K : Type} [DecidableEq K] (ps : t_process_state K)
    (st : t_mask_state K) (hinv : mask_inv ps ps.m_flattened_data_table.num_rows st) :
    st.mask.count = st.added_count := by
  rw [hinv.count_eq, t_mask.count, hinv.mask_size, kept_below]
  apply List.countP_congr
  intro i hi
  rw [hinv.bits i (List.mem_range.mp hi)]

/-- The existence mask returns: on a batch with known ops and a lookup entry per row
the loop completes, the final assertion holds, and the result satisfies the loop
invariant at the row count of the batch. -/
theorem mask_result {K : Type} [DecidableEq K] (ps : t_process_state K)
    (hops : ops_known ps) (hlookup : ps.m_flattened_data_table.num_rows ≤ ps.m_lookup.length) :
    ∃ st, _process_mask_existed_rows ps = some (st.mask, st.process_state) ∧
      mask_inv ps ps.m_flattened_data_table.num_rows st := by
  obtain ⟨st, hst, hinv⟩ := mask_loop_inv ps hops hlookup _ (Nat.le_refl _)
  refine ⟨st, ?_, hinv⟩
  simp [_process_mask_existed_rows, hst, mask_count_eq ps st hinv]

/-! ## The vocabulary -/

theorem get_interned_spec (v : t_vocab) (s : String) :
    (t_vocab.get_interned v s).2 < (t_vocab.get_interned v s).1.length ∧
      t_vocab.unintern_c (t_vocab.get_interned v s).1 (t_vocab.get_interned v s).2 = s := by
  unfold t_vocab.get_interned t_vocab.unintern_c
  split
  · rename_i h
    refine ⟨h, ?_⟩
    simp only []
    rw [List.getD_eq_getElem _ _ h]
    exact List.getElem_indexOf h
  · simp

theorem get_interned_extends (v : t_vocab) (s : String) (k : Nat) (hk : k < v.length) :
    k < (t_vocab.get_interned v s).1.length ∧
      t_vocab.unintern_c (t_vocab.get_interned v s).1 k = t_vocab.unintern_c v k := by
  unfold t_vocab.get_interned t_vocab.unintern_c
  split
  · exact ⟨hk, rfl⟩
  · refine ⟨by simp; omega, ?_⟩
    simp only []
    exact List.getD_append _ _ _ _ hk

/-! ## The string column routine -/

theorem row_transition_total {K : Type} [DecidableEq K] (env : t_env)
    (fcolumn scolumn : t_column Nat) (ps : t_process_state K) (idx : Nat) :
    ∃ trans_, row_transition env fcolumn scolumn ps idx = some trans_ :=
  calc_transition_total_aux env _ _ _ _ _ _ _

theorem column_body_closed {K : Type} [DecidableEq K] (env : t_env)
    (fcolumn scolumn : t_column Nat) (ps : t_process_state K) (st : t_mask_state K)
    (hinv : mask_inv ps ps.m_flattened_data_table.num_rows st) (w : t_column_writes) (k : Nat)
    (hk : k < ps.m_flattened_data_table.num_rows)
    (hop : ps.m_flattened_data_table.psp_op k = OP_INSERT ∨
      ps.m_flattened_data_table.psp_op k = OP_DELETE)
    (hlk : k < ps.m_lookup.length) :
    _process_column_string_body env fcolumn scolumn st.process_state w k =
      some (column_step_closed env fcolumn scolumn ps w k) := by
  have hr : ps.m_lookup[k]? = some ps.m_lookup[k] := List.getElem?_eq_getElem hlk
  have hle : row_lookup_exists ps k = ps.m_lookup[k].m_exists := by
    simp [row_lookup_exists, hr]
  have hli : row_lookup_idx ps k = ps.m_lookup[k].m_idx := by
    simp [row_lookup_idx, hr]
  have hoff := hinv.offs k hk
  have hppe := hinv.ppe k hk
  obtain ⟨trans_, htr⟩ := row_transition_total env fcolumn scolumn ps k
  have hne : ¬ OP_DELETE = OP_INSERT := by decide
  rcases hop with hop | hop
  · have hins : row_is_insert ps k = true := by simp [row_is_insert, hop]
    simp only [_process_column_string_body, hinv.lookup_eq, hr, hinv.op_eq, hop, if_true,
      hoff, hppe]
    simp only [column_step_closed, hins, if_true]
    rw [htr]
    simp only [row_transition, row_prev_cur_eq, row_prev_valid, row_pre_existed, hle, hli,
      t_column.is_valid, t_column.get_nth] at htr ⊢
    rcases Bool.eq_false_or_eq_true (ps.m_lookup[k].m_exists && !pkey_eq_prev ps k)
      with hpre | hpre <;>
    rcases Bool.eq_false_or_eq_true (fcolumn.m_valid k) with hcv | hcv <;>
    rcases Bool.eq_false_or_eq_true (scolumn.m_valid ps.m_lookup[k].m_idx) with hpv | hpv <;>
    simp only [hpre, hcv, hpv, Bool.and_true, Bool.and_false, Bool.true_and, Bool.false_and,
      if_true, Bool.false_eq_true, if_false, Bool.not_true, Bool.not_false, Bool.or_true,
      Bool.or_false, Bool.true_or, Bool.false_or, Option.map_some', Option.map_none']
      at htr ⊢ <;>
    rw [htr]
  · have hins : row_is_insert ps k = false := by simp [row_is_insert, hop, hne]
    have hkept : row_kept ps k = ps.m_lookup[k].m_exists := by
      simp [row_kept, row_is_delete, hins, hop, hle]
    simp only [_process_column_string_body, hinv.lookup_eq, hr, hinv.op_eq, hop, hne,
      if_false, if_true, hoff]
    simp only [column_step_closed, hins, hkept, hli, Bool.false_eq_true, if_false]
    split <;> rfl

theorem cell_holds_set_same (c : t_column Nat) (a : Nat) (s : String) (b : Bool) :
    cell_holds ((c.set_nth_cstr a s).set_valid a b) a s := by
  have h := get_interned_spec c.m_vocab s
  simpa [cell_holds, t_column.set_nth_cstr, t_column.set_valid, t_column.get_nth_cstr] using h

theorem cell_holds_set_other (c : t_column Nat) (a j : Nat) (s s1 : String) (b : Bool)
    (hne : j ≠ a) (h : cell_holds c j s) :
    cell_holds ((c.set_nth_cstr a s1).set_valid a b) j s := by
  have h1 := get_interned_extends c.m_vocab s1 (c.m_data j) h.1
  have h2 := h.2
  simp only [cell_holds, t_column.set_nth_cstr, t_column.set_valid, t_column.get_nth_cstr,
    Function.update_noteq hne] at h2 ⊢
  exact ⟨h1.1, h1.2.trans h2⟩

theorem cell_holds_set_valid (c : t_column Nat) (a j : Nat) (s : String) (b : Bool)
    (h : cell_holds c j s) : cell_holds (c.set_valid a b) j s := h

theorem row_kept_of_insert {K : Type} (ps : t_process_state K) (i : Nat)
    (h : row_is_insert ps i = true) : row_kept ps i = true := by
  simp [row_kept, h]

theorem row_insert_not_delete {K : Type} (ps : t_process_state K) (i : Nat)
    (h : row_is_insert ps i = true) : row_is_delete ps i = false := by
  simp only [row_is_insert, row_is_delete, decide_eq_true_eq, decide_eq_false_iff_not] at h ⊢
  rw [h]; decide

theorem calc_transition_ne_tdf (env : t_env)
    (prev_existed row_pre_existed exists_ prev_valid cur_valid prev_cur_eq prev_pkey_eq : Bool) :
    calc_transition env prev_existed row_pre_existed exists_ prev_valid cur_valid
      prev_cur_eq prev_pkey_eq ≠ some VALUE_TRANSITION_NEQ_TDF := by
  obtain ⟨b1, b2, b3⟩ := env
  cases b1 <;> cases b2 <;> cases b3 <;>
  cases prev_existed <;> cases row_pre_existed <;> cases exists_ <;> cases prev_valid <;>
    cases cur_valid <;> cases prev_cur_eq <;> cases prev_pkey_eq <;>
    decide

theorem column_inv_init {K : Type} [DecidableEq K] (fcolumn scolumn : t_column Nat)
    (ps : t_process_state K) (w : t_column_writes) :
    column_inv fcolumn scolumn ps 0
      { w with pcolumn := w.pcolumn.borrow_vocabulary scolumn } := by
  constructor
  all_goals intro i hi; exact absurd hi (Nat.not_lt_zero i)

theorem tdf_inv_init {K : Type} (scolumn : t_column Nat)
    (ps : t_process_state K) (w : t_column_writes)
    (hclear : ∀ j, w.tcolumn.get_nth j = none) :
    tdf_inv ps 0 { w with pcolumn := w.pcolumn.borrow_vocabulary scolumn } := by
  intro j
  simp [hclear j]

theorem column_closed_frame {K : Type} [DecidableEq K] (env : t_env)
    (fcolumn scolumn : t_column Nat) (ps : t_process_state K) (w : t_column_writes)
    (k j : Nat) (hne : j ≠ kept_below ps k) :
    (column_step_closed env fcolumn scolumn ps w k).pcolumn.is_valid j = w.pcolumn.is_valid j ∧
    (column_step_closed env fcolumn scolumn ps w k).pcolumn.get_nth j = w.pcolumn.get_nth j ∧
    (column_step_closed env fcolumn scolumn ps w k).ccolumn.is_valid j = w.ccolumn.is_valid j ∧
    (∀ s, cell_holds w.ccolumn j s →
      cell_holds (column_step_closed env fcolumn scolumn ps w k).ccolumn j s) := by
  unfold column_step_closed
  split
  · refine ⟨?_, ?_, ?_, ?_⟩
    · simp only [t_column.is_valid, t_column.set_valid, Function.update_noteq hne]
      split <;> rfl
    · simp only [t_column.get_nth, t_column.set_valid]
      split
      · simp only [t_column.set_nth, Function.update_noteq hne]
      · rfl
    · simp only [t_column.is_valid, t_column.set_valid, Function.update_noteq hne]
      split
      · rfl
      · split <;> rfl
    · intro s hs
      dsimp only
      split
      · exact cell_holds_set_other _ _ _ _ _ _ hne hs
      · split
        · exact cell_holds_set_other _ _ _ _ _ _ hne hs
        · exact hs
  · split
    · refine ⟨?_, ?_, ?_, ?_⟩
      · simp only [t_column.is_valid, t_column.set_valid, Function.update_noteq hne]
        rfl
      · simp only [t_column.get_nth, t_column.set_valid, t_column.set_nth_cstr,
          Function.update_noteq hne]
      · simp only [t_column.is_valid, t_column.set_valid, Function.update_noteq hne]
        rfl
      · intro s hs
        exact cell_holds_set_other _ _ _ _ _ _ hne hs
    · exact ⟨rfl, rfl, rfl, fun _ hs => hs⟩

theorem column_closed_inv {K : Type} [DecidableEq K] (env : t_env)
    (fcolumn scolumn : t_column Nat) (ps : t_process_state K) (w : t_column_writes) (k : Nat)
    (hinv : column_inv fcolumn scolumn ps k w) :
    column_inv fcolumn scolumn ps (k + 1) (column_step_closed env fcolumn scolumn ps w k) := by
  have hold : ∀ i, i < k + 1 → i ≠ k → row_is_insert ps i = true →
      i < k ∧ kept_below ps i ≠ kept_below ps k := by
    intro i hi hik hins
    have hlt : i < k := by omega
    have := kept_below_lt ps hlt (row_kept_of_insert ps i hins)
    exact ⟨hlt, by omega⟩
  constructor
  case pvalid =>
    intro i hi hins
    by_cases hik : i = k
    · subst hik
      simp [column_step_closed, hins, t_column.is_valid, t_column.set_valid]
    · obtain ⟨hlt, hne⟩ := hold i hi hik hins
      rw [(column_closed_frame env fcolumn scolumn ps w k _ hne).1]
      exact hinv.pvalid i hlt hins
  case pdata =>
    intro i hi hins hpv
    by_cases hik : i = k
    · subst hik
      simp [column_step_closed, hins, hpv, t_column.get_nth, t_column.set_valid,
        t_column.set_nth]
    · obtain ⟨hlt, hne⟩ := hold i hi hik hins
      rw [(column_closed_frame env fcolumn scolumn ps w k _ hne).2.1]
      exact hinv.pdata i hlt hins hpv
  case cvalid =>
    intro i hi hins
    by_cases hik : i = k
    · subst hik
      simp [column_step_closed, hins, t_column.is_valid, t_column.set_valid]
    · obtain ⟨hlt, hne⟩ := hold i hi hik hins
      rw [(column_closed_frame env fcolumn scolumn ps w k _ hne).2.2.1]
      exact hinv.cvalid i hlt hins
  case cdata_cur =>
    intro i hi hins hcv
    by_cases hik : i = k
    · subst hik
      simp only [column_step_closed, hins, hcv, if_true]
      exact cell_holds_set_same _ _ _ _
    · obtain ⟨hlt, hne⟩ := hold i hi hik hins
      exact (column_closed_frame env fcolumn scolumn ps w k _ hne).2.2.2 _
        (hinv.cdata_cur i hlt hins hcv)
  case cdata_prev =>
    intro i hi hins hcv hpv
    by_cases hik : i = k
    · subst hik
      simp only [column_step_closed, hins, hcv, hpv, if_true, Bool.false_eq_true, if_false]
      exact cell_holds_set_same _ _ _ _
    · obtain ⟨hlt, hne⟩ := hold i hi hik hins
      exact (column_closed_frame env fcolumn scolumn ps w k _ hne).2.2.2 _
        (hinv.cdata_prev i hlt hins hcv hpv)

theorem tdf_closed_inv {K : Type} [DecidableEq K] (env : t_env)
    (fcolumn scolumn : t_column Nat) (ps : t_process_state K) (w : t_column_writes) (k : Nat)
    (hinv : tdf_inv ps k w) :
    tdf_inv ps (k + 1) (column_step_closed env fcolumn scolumn ps w k) := by
  intro j
  have hle := kept_below_le_self ps
  unfold column_step_closed
  split
  · rename_i hins
    have hdel := row_insert_not_delete ps k hins
    simp only [t_column.get_nth, t_column.set_nth]
    constructor
    · intro h
      by_cases hjk : j = k
      · subst hjk
        rw [Function.update_same] at h
        exact absurd h (calc_transition_ne_tdf _ _ _ _ _ _ _ _)
      · rw [Function.update_noteq hjk] at h
        obtain ⟨i, hi, h1, h2, h3⟩ := (hinv j).mp h
        exact ⟨i, by omega, h1, h2, h3⟩
    · rintro ⟨i, hi, h1, h2, h3⟩
      have hik : i ≠ k := by
        intro h; subst h; rw [hdel] at h1; exact absurd h1 (by decide)
      have hjk : j ≠ k := by
        have := hle i
        omega
      rw [Function.update_noteq hjk]
      exact (hinv j).mpr ⟨i, by omega, h1, h2, h3⟩
  · rename_i hins
    split
    · rename_i hkept
      have hdk : row_is_delete ps k = true ∧ row_lookup_exists ps k = true := by
        simpa [row_kept, hins] using hkept
      simp only [t_column.get_nth, t_column.set_nth]
      constructor
      · intro h
        by_cases hjk : j = kept_below ps k
        · exact ⟨k, by omega, hdk.1, hdk.2, hjk.symm⟩
        · rw [Function.update_noteq hjk] at h
          obtain ⟨i, hi, h1, h2, h3⟩ := (hinv j).mp h
          exact ⟨i, by omega, h1, h2, h3⟩
      · rintro ⟨i, hi, h1, h2, h3⟩
        by_cases hjk : j = kept_below ps k
        · subst hjk; rw [Function.update_same]
        · rw [Function.update_noteq hjk]
          have hik : i ≠ k := by
            intro h; subst h; exact hjk h3.symm
          exact (hinv j).mpr ⟨i, by omega, h1, h2, h3⟩
    · rename_i hkept
      constructor
      · intro h
        obtain ⟨i, hi, h1, h2, h3⟩ := (hinv j).mp h
        exact ⟨i, by omega, h1, h2, h3⟩
      · rintro ⟨i, hi, h1, h2, h3⟩
        have hik : i ≠ k := by
          intro h; subst h
          simp [row_kept, h1, h2] at hkept
        exact (hinv j).mpr ⟨i, by omega, h1, h2, h3⟩

theorem column_loop_inv {K : Type} [DecidableEq K] (env : t_env)
    (fcolumn scolumn : t_column Nat) (ps : t_process_state K) (st : t_mask_state K)
    (hmask : mask_inv ps ps.m_flattened_data_table.num_rows st)
    (hops : ops_known ps) (hlookup : ps.m_flattened_data_table.num_rows ≤ ps.m_lookup.length)
    (w : t_column_writes) (k : Nat) (hk : k ≤ ps.m_flattened_data_table.num_rows) :
    ∃ w1, _process_column_string_loop env fcolumn scolumn st.process_state w k = some w1 ∧
      column_inv fcolumn scolumn ps k w1 ∧
      ((∀ j, w.tcolumn.get_nth j = none) → tdf_inv ps k w1) := by
  induction k with
  | zero =>
    exact ⟨_, rfl, column_inv_init fcolumn scolumn ps w, tdf_inv_init scolumn ps w⟩
  | succ k ih =>
    obtain ⟨w1, hw1, hinv, htdf⟩ := ih (by omega)
    refine ⟨column_step_closed env fcolumn scolumn ps w1 k, ?_,
      column_closed_inv env fcolumn scolumn ps w1 k hinv,
      fun hclear => tdf_closed_inv env fcolumn scolumn ps w1 k (htdf hclear)⟩
    simp only [_process_column_string_loop, hw1, Option.bind_some]
    exact column_body_closed env fcolumn scolumn ps st hmask w1 k (by omega)
      (hops k (by omega)) (by omega)

/-- The existence mask followed by the string routine for one column returns, and the
results satisfy the loop invariants at the row count of the batch. -/
theorem mask_then_column {K : Type} [DecidableEq K] (env : t_env)
    (fcolumn scolumn : t_column Nat) (ps : t_process_state K)
    (hops : ops_known ps) (hlookup : ps.m_flattened_data_table.num_rows ≤ ps.m_lookup.length)
    (hsize : fcolumn.m_size = ps.m_flattened_data_table.num_rows)
    (w : t_column_writes) :
    ∃ st w1, _process_mask_existed_rows ps = some (st.mask, st.process_state) ∧
      _process_column_string env fcolumn scolumn st.process_state w = some w1 ∧
      mask_inv ps ps.m_flattened_data_table.num_rows st ∧
      column_inv fcolumn scolumn ps ps.m_flattened_data_table.num_rows w1 ∧
      ((∀ j, w.tcolumn.get_nth j = none) →
        tdf_inv ps ps.m_flattened_data_table.num_rows w1) := by
  obtain ⟨st, hst, hmask⟩ := mask_result ps hops hlookup
  obtain ⟨w1, hw1, hcol, htdf⟩ := column_loop_inv env fcolumn scolumn ps st hmask hops hlookup w
    _ (Nat.le_refl _)
  refine ⟨st, w1, hst, ?_, hmask, hcol, htdf⟩
  rw [_process_column_string, hsize]
  exact hw1

/-! ## Rows kept by a mask -/

theorem countP_range_succ (p : Nat → Bool) (k : Nat) :
    (List.range (k + 1)).countP p = (List.range k).countP p + (if p k then 1 else 0) := by
  simp [List.range_succ, List.countP_append, List.countP_cons]

theorem countP_range_mono (p : Nat → Bool) {a b : Nat} (h : a ≤ b) :
    (List.range a).countP p ≤ (List.range b).countP p := by
  induction h with
  | refl => exact Nat.le_refl _
  | step _ ih => rw [countP_range_succ]; omega

theorem countP_range_lt (p : Nat → Bool) {i k : Nat} (h : i < k) (hp : p i = true) :
    (List.range i).countP p < (List.range k).countP p := by
  have h1 := countP_range_succ p i
  have h2 := countP_range_mono p (show i + 1 ≤ k from h)
  simp [hp] at h1
  omega

theorem filter_range_getElem? (p : Nat → Bool) (n j i : Nat) :
    ((List.range n).filter p)[j]? = some i ↔
      i < n ∧ p i = true ∧ (List.range i).countP p = j := by
  induction n with
  | zero => simp
  | succ n ih =>
    have hlen : ((List.range n).filter p).length = (List.range n).countP p :=
      (List.countP_eq_length_filter p (List.range n)).symm
    rw [List.range_succ, List.filter_append]
    by_cases hp : p n = true
    · have hfil : List.filter p [n] = [n] := by simp [hp]
      rw [hfil]
      by_cases hj : j < ((List.range n).filter p).length
      · rw [List.getElem?_append_left hj, ih]
        constructor
        · rintro ⟨h1, h2, h3⟩
          exact ⟨by omega, h2, h3⟩
        · rintro ⟨h1, h2, h3⟩
          refine ⟨?_, h2, h3⟩
          by_contra hcon
          have hin : i = n := by omega
          subst hin
          omega
      · rw [List.getElem?_append_right (by omega)]
        constructor
        · intro h
          have hj0 : j - ((List.range n).filter p).length = 0 := by
            by_contra hne
            obtain ⟨m, hm⟩ := Nat.exists_eq_succ_of_ne_zero hne
            rw [hm] at h
            simp at h
          rw [hj0] at h
          simp at h
          subst h
          exact ⟨by omega, hp, by omega⟩
        · rintro ⟨h1, h2, h3⟩
          have hin : i = n := by
            by_contra hcon
            have := countP_range_lt p (show i < n by omega) h2
            omega
          subst hin
          have hj0 : j - ((List.range i).filter p).length = 0 := by omega
          rw [hj0]
          simp
    · have hfil : List.filter p [n] = [] := by simp [hp]
      rw [hfil, List.append_nil, ih]
      constructor
      · rintro ⟨h1, h2, h3⟩
        exact ⟨by omega, h2, h3⟩
      · rintro ⟨h1, h2, h3⟩
        refine ⟨?_, h2, h3⟩
        by_contra hcon
        have hin : i = n := by omega
        subst hin
        exact hp h2

theorem kept_rows_getElem? {K : Type} [DecidableEq K] (ps : t_process_state K)
    (st : t_mask_state K) (hinv : mask_inv ps ps.m_flattened_data_table.num_rows st)
    (j i : Nat) :
    (kept_rows st.mask)[j]? = some i ↔
      i < ps.m_flattened_data_table.num_rows ∧ row_kept ps i = true ∧
        kept_below ps i = j := by
  rw [kept_rows, filter_range_getElem?, hinv.mask_size]
  constructor
  · rintro ⟨h1, h2, h3⟩
    refine ⟨h1, (hinv.bits i h1).symm.trans h2, ?_⟩
    rw [← h3, kept_below]
    apply List.countP_congr
    intro x hx
    rw [hinv.bits x (by have := List.mem_range.mp hx; omega)]
  · rintro ⟨h1, h2, h3⟩
    refine ⟨h1, (hinv.bits i h1).trans h2, ?_⟩
    rw [← h3, kept_below]
    apply List.countP_congr
    intro x hx
    rw [hinv.bits x (by have := List.mem_range.mp hx; omega)]

/-! ## The example batch -/

theorem example_ps_ops_known : ops_known example_ps := by
  intro idx h
  have h3 : idx < 3 := h
  interval_cases idx
  · right; rfl
  · left; rfl
  · right; rfl

theorem example_ps_lookup :
    example_ps.m_flattened_data_table.num_rows ≤ example_ps.m_lookup.length := by
  decide

/-! ## The vocabulary of the prev column -/

theorem unintern_c_of_ge (v : t_vocab) (k : Nat) (h : v.length ≤ k) :
    t_vocab.unintern_c v k = "" := by
  unfold t_vocab.unintern_c
  rw [List.getD_eq_getElem?_getD, List.getElem?_eq_none h]
  rfl

theorem unintern_c_mem (v : t_vocab) (k : Nat) (h : k < v.length) :
    t_vocab.unintern_c v k ∈ v := by
  unfold t_vocab.unintern_c
  rw [List.getD_eq_getElem _ _ h]
  exact List.getElem_mem _

theorem get_interned_agrees (v v0 : t_vocab) (k0 : Nat)
    (h : ∀ k, t_vocab.unintern_c v k = t_vocab.unintern_c v0 k) :
    ∀ k, t_vocab.unintern_c (t_vocab.get_interned v (t_vocab.unintern_c v0 k0)).1 k =
      t_vocab.unintern_c v0 k := by
  intro k
  unfold t_vocab.get_interned
  split
  · exact h k
  · rename_i hnot
    have hnm : ¬ t_vocab.unintern_c v0 k0 ∈ v := by
      intro hm
      exact hnot (List.indexOf_lt_length.mpr hm)
    have hk0 : v.length ≤ k0 := by
      by_contra hlt
      apply hnm
      rw [← h k0]
      exact unintern_c_mem v k0 (by omega)
    have hs : t_vocab.unintern_c v0 k0 = "" := by
      rw [← h k0]
      exact unintern_c_of_ge v k0 hk0
    rw [hs, ← h k]
    by_cases hk : k < v.length
    · simp only [t_vocab.unintern_c]
      exact List.getD_append _ _ _ _ hk
    · rw [unintern_c_of_ge v k (by omega)]
      simp only [t_vocab.unintern_c]
      rw [List.getD_eq_getElem?_getD]
      by_cases hk1 : k = v.length
      · subst hk1
        simp
      · rw [List.getElem?_eq_none (by simp; omega)]
        rfl

theorem column_closed_pvocab {K : Type} [DecidableEq K] (env : t_env)
    (fcolumn scolumn : t_column Nat) (ps : t_process_state K) (w : t_column_writes) (k : Nat)
    (h : ∀ n, t_vocab.unintern_c w.pcolumn.m_vocab n = t_vocab.unintern_c scolumn.m_vocab n) :
    ∀ n, t_vocab.unintern_c (column_step_closed env fcolumn scolumn ps w k).pcolumn.m_vocab n =
      t_vocab.unintern_c scolumn.m_vocab n := by
  unfold column_step_closed
  split
  · simp only [t_column.set_valid]
    split
    · exact h
    · exact h
  · split
    · simp only [t_column.set_valid, t_column.set_nth_cstr, t_column.get_nth_cstr]
      exact get_interned_agrees _ _ _ h
    · exact h

/-- The prev column shares the vocabulary of the master column throughout the string
routine: an index denotes the same string in both. -/
theorem column_loop_pvocab {K : Type} [DecidableEq K] (env : t_env)
    (fcolumn scolumn : t_column Nat) (ps : t_process_state K) (st : t_mask_state K)
    (hmask : mask_inv ps ps.m_flattened_data_table.num_rows st)
    (hops : ops_known ps) (hlookup : ps.m_flattened_data_table.num_rows ≤ ps.m_lookup.length)
    (w : t_column_writes) (k : Nat) (hk : k ≤ ps.m_flattened_data_table.num_rows) :
    ∃ wk, _process_column_string_loop env fcolumn scolumn st.process_state w k = some wk ∧
      ∀ n, t_vocab.unintern_c wk.pcolumn.m_vocab n =
        t_vocab.unintern_c scolumn.m_vocab n := by
  induction k with
  | zero => exact ⟨_, rfl, fun _ => rfl⟩
  | succ k ih =>
    obtain ⟨wk, hwk, hv⟩ := ih (by omega)
    refine ⟨column_step_closed env fcolumn scolumn ps wk k, ?_,
      column_closed_pvocab env fcolumn scolumn ps wk k hv⟩
    simp only [_process_column_string_loop, hwk, Option.bind_some]
    exact column_body_closed env fcolumn scolumn ps st hmask wk k (by omega)
      (hops k (by omega)) (by omega)

/-! ## Claims on the existence mask and the string routine -/

/-- C4: for every flattened batch with ops in INSERT, DELETE (and a lookup entry per
row) `_process_mask_existed_rows` returns, `prev_pkey_eq[i]` is whether the key of row
`i` equals the key of row `i-1` (false for row 0), and for every kept row `i` the
existed column at slot `added_offset[i]` holds `lookup[i].exists and not
prev_pkey_eq[i]` for an insert and `true` for a delete. -/
theorem process_mask_existed_rows_existed {K : Type} [DecidableEq K]
    (ps : t_process_state K) (hops : ops_known ps)
    (hlookup : ps.m_flattened_data_table.num_rows ≤ ps.m_lookup.length) :
    ∃ mask ps1, _process_mask_existed_rows ps = some (mask, ps1) ∧
      ∀ i, i < ps.m_flattened_data_table.num_rows →
        ps1.m_prev_pkey_eq_vec i =
          decide (0 < i ∧ ps.m_flattened_data_table.psp_pkey i =
            ps.m_flattened_data_table.psp_pkey (i - 1)) ∧
        (mask.m_bits i = true →
          (ps.m_flattened_data_table.psp_op i = OP_INSERT →
            ps1.m_existed_data_table.psp_existed.get_nth (ps1.m_added_offset i) =
              (row_lookup_exists ps i && !ps1.m_prev_pkey_eq_vec i)) ∧
          (ps.m_flattened_data_table.psp_op i = OP_DELETE →
            ps1.m_existed_data_table.psp_existed.get_nth (ps1.m_added_offset i) = true)) := by
  obtain ⟨st, hst, hinv⟩ := mask_result ps hops hlookup
  refine ⟨st.mask, st.process_state, hst, ?_⟩
  intro i hi
  have hppe := hinv.ppe i hi
  refine ⟨hppe, ?_⟩
  intro hbit
  have hkept : row_kept ps i = true := by rw [← hinv.bits i hi]; exact hbit
  have hex := hinv.existed i hi hkept
  rw [t_column.get_nth, hinv.offs i hi, hex, hppe]
  constructor
  · intro hop
    simp [existed_value, row_is_insert, hop]
  · intro hop
    have hne : ¬ OP_DELETE = OP_INSERT := by decide
    simp [existed_value, row_is_insert, hop, hne]

/-- C4, witness: the example batch. -/
theorem process_mask_existed_rows_existed_witness :
    ops_known example_ps ∧
    example_ps.m_flattened_data_table.num_rows ≤ example_ps.m_lookup.length ∧
    ∃ mask ps1, _process_mask_existed_rows example_ps = some (mask, ps1) ∧
      ∀ i, i < example_ps.m_flattened_data_table.num_rows →
        ps1.m_prev_pkey_eq_vec i =
          decide (0 < i ∧ example_ps.m_flattened_data_table.psp_pkey i =
            example_ps.m_flattened_data_table.psp_pkey (i - 1)) ∧
        (mask.m_bits i = true →
          (example_ps.m_flattened_data_table.psp_op i = OP_INSERT →
            ps1.m_existed_data_table.psp_existed.get_nth (ps1.m_added_offset i) =
              (row_lookup_exists example_ps i && !ps1.m_prev_pkey_eq_vec i)) ∧
          (example_ps.m_flattened_data_table.psp_op i = OP_DELETE →
            ps1.m_existed_data_table.psp_existed.get_nth (ps1.m_added_offset i) = true)) :=
  ⟨example_ps_ops_known, example_ps_lookup,
    process_mask_existed_rows_existed example_ps example_ps_ops_known example_ps_lookup⟩

theorem example_fcolumn_size :
    example_fcolumn.m_size = example_ps.m_flattened_data_table.num_rows := rfl

/-- C5: in the string routine, run after the existence mask on a batch with ops in
INSERT, DELETE, for every insert row `i` with output slot `j = added_offset[i]` the
valid bit of the current column at `j` is `cur_valid or prev_valid`, its value at `j`
is the batch value when `cur_valid` and the master value at `lookup[i].idx` when only
`prev_valid` holds (which is false unless the row pre-existed); valid bit and value
agree with `calc_newer` on the old and new scalar. -/
theorem process_column_string_current {K : Type} [DecidableEq K] (env : t_env)
    (fcolumn scolumn : t_column Nat) (ps : t_process_state K) (w : t_column_writes)
    (hops : ops_known ps)
    (hlookup : ps.m_flattened_data_table.num_rows ≤ ps.m_lookup.length)
    (hsize : fcolumn.m_size = ps.m_flattened_data_table.num_rows) :
    ∃ mask ps1 w1, _process_mask_existed_rows ps = some (mask, ps1) ∧
      _process_column_string env fcolumn scolumn ps1 w = some w1 ∧
      ∀ i, i < ps.m_flattened_data_table.num_rows →
        ps.m_flattened_data_table.psp_op i = OP_INSERT →
        (row_pre_existed ps i = false → row_prev_valid scolumn ps i = false) ∧
        w1.ccolumn.is_valid (ps1.m_added_offset i) =
          (fcolumn.is_valid i || row_prev_valid scolumn ps i) ∧
        (fcolumn.is_valid i = true →
          w1.ccolumn.get_nth_cstr (ps1.m_added_offset i) = fcolumn.get_nth_cstr i) ∧
        (fcolumn.is_valid i = false → row_prev_valid scolumn ps i = true →
          w1.ccolumn.get_nth_cstr (ps1.m_added_offset i) =
            scolumn.get_nth_cstr (row_lookup_idx ps i)) ∧
        w1.ccolumn.is_valid (ps1.m_added_offset i) =
          (calc_newer VALUE_TRANSITION_EQ_FF
            (scolumn.get_nth_cstr (row_lookup_idx ps i), row_prev_valid scolumn ps i)
            (fcolumn.get_nth_cstr i, fcolumn.is_valid i)).2 ∧
        (w1.ccolumn.is_valid (ps1.m_added_offset i) = true →
          w1.ccolumn.get_nth_cstr (ps1.m_added_offset i) =
            (calc_newer VALUE_TRANSITION_EQ_FF
              (scolumn.get_nth_cstr (row_lookup_idx ps i), row_prev_valid scolumn ps i)
              (fcolumn.get_nth_cstr i, fcolumn.is_valid i)).1) := by
  obtain ⟨st, w1, hst, hw1, hmask, hcol, -⟩ :=
    mask_then_column env fcolumn scolumn ps hops hlookup hsize w
  refine ⟨st.mask, st.process_state, w1, hst, hw1, ?_⟩
  intro i hi hop
  have hins : row_is_insert ps i = true := by simp [row_is_insert, hop]
  rw [hmask.offs i hi]
  have hv := hcol.cvalid i hi hins
  have hcur := hcol.cdata_cur i hi hins
  have hprev := hcol.cdata_prev i hi hins
  refine ⟨?_, hv, fun h => (hcur h).2, fun h1 h2 => (hprev h1 h2).2, ?_, ?_⟩
  · intro h
    simp [row_prev_valid, h]
  · rw [hv, calc_newer]
    cases fcolumn.is_valid i <;> simp
  · rw [hv, calc_newer]
    rcases Bool.eq_false_or_eq_true (fcolumn.is_valid i) with hc | hc
    · intro _
      simp only [hc, if_true]
      exact (hcur hc).2
    · intro hp
      simp only [hc, Bool.false_or] at hp
      simp only [hc, Bool.false_eq_true, if_false]
      exact (hprev hc hp).2

/-- C5, witness: the example batch with its column `s`. -/
theorem process_column_string_current_witness :
    ∃ mask ps1 w1, _process_mask_existed_rows example_ps = some (mask, ps1) ∧
      _process_column_string t_env.off example_fcolumn example_scolumn ps1 cleared_writes =
        some w1 ∧
      ∀ i, i < example_ps.m_flattened_data_table.num_rows →
        example_ps.m_flattened_data_table.psp_op i = OP_INSERT →
        (row_pre_existed example_ps i = false →
          row_prev_valid example_scolumn example_ps i = false) ∧
        w1.ccolumn.is_valid (ps1.m_added_offset i) =
          (example_fcolumn.is_valid i || row_prev_valid example_scolumn example_ps i) ∧
        (example_fcolumn.is_valid i = true →
          w1.ccolumn.get_nth_cstr (ps1.m_added_offset i) = example_fcolumn.get_nth_cstr i) ∧
        (example_fcolumn.is_valid i = false →
          row_prev_valid example_scolumn example_ps i = true →
          w1.ccolumn.get_nth_cstr (ps1.m_added_offset i) =
            example_scolumn.get_nth_cstr (row_lookup_idx example_ps i)) ∧
        w1.ccolumn.is_valid (ps1.m_added_offset i) =
          (calc_newer VALUE_TRANSITION_EQ_FF
            (example_scolumn.get_nth_cstr (row_lookup_idx example_ps i),
              row_prev_valid example_scolumn example_ps i)
            (example_fcolumn.get_nth_cstr i, example_fcolumn.is_valid i)).2 ∧
        (w1.ccolumn.is_valid (ps1.m_added_offset i) = true →
          w1.ccolumn.get_nth_cstr (ps1.m_added_offset i) =
            (calc_newer VALUE_TRANSITION_EQ_FF
              (example_scolumn.get_nth_cstr (row_lookup_idx example_ps i),
                row_prev_valid example_scolumn example_ps i)
              (example_fcolumn.get_nth_cstr i, example_fcolumn.is_valid i)).1) :=
  process_column_string_current t_env.off example_fcolumn example_scolumn example_ps
    cleared_writes example_ps_ops_known example_ps_lookup example_fcolumn_size

/-- C6: in the string routine, run after the existence mask on a batch with ops in
INSERT, DELETE, for every insert row `i` with output slot `j = added_offset[i]` the
valid bit of the prev column at `j` is true exactly when the row pre-existed
(`lookup[i].exists and not prev_pkey_eq[i]`) and the master cell at `lookup[i].idx` is
valid; then the prev column at `j` holds the vocabulary index of that master cell and,
the prev column sharing the vocabulary of the master column, reads as the string of the
master cell; when the key is not mapped in the master the prev cell is invalid. -/
theorem process_column_string_prev {K : Type} [DecidableEq K] (env : t_env)
    (fcolumn scolumn : t_column Nat) (ps : t_process_state K) (w : t_column_writes)
    (hops : ops_known ps)
    (hlookup : ps.m_flattened_data_table.num_rows ≤ ps.m_lookup.length)
    (hsize : fcolumn.m_size = ps.m_flattened_data_table.num_rows) :
    ∃ mask ps1 w1, _process_mask_existed_rows ps = some (mask, ps1) ∧
      _process_column_string env fcolumn scolumn ps1 w = some w1 ∧
      ∀ i, i < ps.m_flattened_data_table.num_rows →
        ps.m_flattened_data_table.psp_op i = OP_INSERT →
        (w1.pcolumn.is_valid (ps1.m_added_offset i) = true ↔
          ((row_lookup_exists ps i = true ∧ ps1.m_prev_pkey_eq_vec i = false) ∧
            scolumn.is_valid (row_lookup_idx ps i) = true)) ∧
        (w1.pcolumn.is_valid (ps1.m_added_offset i) = true →
          w1.pcolumn.get_nth (ps1.m_added_offset i) =
            scolumn.get_nth (row_lookup_idx ps i)) ∧
        (w1.pcolumn.is_valid (ps1.m_added_offset i) = true →
          w1.pcolumn.get_nth_cstr (ps1.m_added_offset i) =
            scolumn.get_nth_cstr (row_lookup_idx ps i)) ∧
        (row_lookup_exists ps i = false →
          w1.pcolumn.is_valid (ps1.m_added_offset i) = false) := by
  obtain ⟨st, w1, hst, hw1, hmask, hcol, -⟩ :=
    mask_then_column env fcolumn scolumn ps hops hlookup hsize w
  obtain ⟨w2, hw2, hvocab⟩ := column_loop_pvocab env fcolumn scolumn ps st hmask hops hlookup
    w _ (Nat.le_refl _)
  have hw12 : w2 = w1 := by
    rw [_process_column_string, hsize, hw2] at hw1
    exact Option.some.inj hw1
  subst hw12
  refine ⟨st.mask, st.process_state, w2, hst, hw1, ?_⟩
  intro i hi hop
  have hins : row_is_insert ps i = true := by simp [row_is_insert, hop]
  rw [hmask.offs i hi, hmask.ppe i hi]
  have hv := hcol.pvalid i hi hins
  refine ⟨?_, ?_, ?_, ?_⟩
  · rw [hv]
    simp [row_prev_valid, row_pre_existed]
  · intro h
    rw [hv] at h
    exact hcol.pdata i hi hins h
  · intro h
    rw [hv] at h
    have hd := hcol.pdata i hi hins h
    simp only [t_column.get_nth] at hd
    simp only [t_column.get_nth_cstr, hd]
    exact hvocab _
  · intro h
    rw [hv]
    simp [row_prev_valid, row_pre_existed, h]

/-- C6, witness: the example batch with its column `s`. -/
theorem process_column_string_prev_witness :
    ∃ mask ps1 w1, _process_mask_existed_rows example_ps = some (mask, ps1) ∧
      _process_column_string t_env.off example_fcolumn example_scolumn ps1 cleared_writes =
        some w1 ∧
      ∀ i, i < example_ps.m_flattened_data_table.num_rows →
        example_ps.m_flattened_data_table.psp_op i = OP_INSERT →
        (w1.pcolumn.is_valid (ps1.m_added_offset i) = true ↔
          ((row_lookup_exists example_ps i = true ∧ ps1.m_prev_pkey_eq_vec i = false) ∧
            example_scolumn.is_valid (row_lookup_idx example_ps i) = true)) ∧
        (w1.pcolumn.is_valid (ps1.m_added_offset i) = true →
          w1.pcolumn.get_nth (ps1.m_added_offset i) =
            example_scolumn.get_nth (row_lookup_idx example_ps i)) ∧
        (w1.pcolumn.is_valid (ps1.m_added_offset i) = true →
          w1.pcolumn.get_nth_cstr (ps1.m_added_offset i) =
            example_scolumn.get_nth_cstr (row_lookup_idx example_ps i)) ∧
        (row_lookup_exists example_ps i = false →
          w1.pcolumn.is_valid (ps1.m_added_offset i) = false) :=
  process_column_string_prev t_env.off example_fcolumn example_scolumn example_ps
    cleared_writes example_ps_ops_known example_ps_lookup example_fcolumn_size

/-- C7: for every batch with ops in INSERT, DELETE, after the string routine has run
over the rows in index order on a cleared transitions column, for every output row
`j < added_count` the transitions column holds `NEQ_TDF` at `j` if and only if the
`j`-th kept row of the batch is a delete of a key mapped in the master. -/
theorem process_column_string_tdf {K : Type} [DecidableEq K] (env : t_env)
    (fcolumn scolumn : t_column Nat) (ps : t_process_state K) (w : t_column_writes)
    (hops : ops_known ps)
    (hlookup : ps.m_flattened_data_table.num_rows ≤ ps.m_lookup.length)
    (hsize : fcolumn.m_size = ps.m_flattened_data_table.num_rows)
    (hclear : ∀ j, w.tcolumn.get_nth j = none) :
    ∃ mask ps1 w1, _process_mask_existed_rows ps = some (mask, ps1) ∧
      _process_column_string env fcolumn scolumn ps1 w = some w1 ∧
      ∀ j, j < mask.count →
        (w1.tcolumn.get_nth j = some VALUE_TRANSITION_NEQ_TDF ↔
          ∃ i, (kept_rows mask)[j]? = some i ∧
            ps.m_flattened_data_table.psp_op i = OP_DELETE ∧
            row_lookup_exists ps i = true) := by
  obtain ⟨st, w1, hst, hw1, hmask, -, htdf⟩ :=
    mask_then_column env fcolumn scolumn ps hops hlookup hsize w
  refine ⟨st.mask, st.process_state, w1, hst, hw1, ?_⟩
  intro j _
  rw [htdf hclear j]
  constructor
  · rintro ⟨i, hi, hdel, hex, hj⟩
    refine ⟨i, ?_, by simpa [row_is_delete] using hdel, hex⟩
    rw [kept_rows_getElem? ps st hmask]
    exact ⟨hi, by simp [row_kept, hdel, hex], hj⟩
  · rintro ⟨i, hk, hdel, hex⟩
    rw [kept_rows_getElem? ps st hmask] at hk
    exact ⟨i, hk.1, by simp [row_is_delete, hdel], hex, hk.2.2⟩

/-- C7, witness: the example batch with its column `s`. -/
theorem process_column_string_tdf_witness :
    ∃ mask ps1 w1, _process_mask_existed_rows example_ps = some (mask, ps1) ∧
      _process_column_string t_env.off example_fcolumn example_scolumn ps1 cleared_writes =
        some w1 ∧
      ∀ j, j < mask.count →
        (w1.tcolumn.get_nth j = some VALUE_TRANSITION_NEQ_TDF ↔
          ∃ i, (kept_rows mask)[j]? = some i ∧
            example_ps.m_flattened_data_table.psp_op i = OP_DELETE ∧
            row_lookup_exists example_ps i = true) :=
  process_column_string_tdf t_env.off example_fcolumn example_scolumn example_ps
    cleared_writes example_ps_ops_known example_ps_lookup example_fcolumn_size
    (fun _ => rfl)

/-- C8 (evaluation at the failing input): on the batch `[DELETE of an unknown key,
INSERT]` the mask keeps one row (`added_count = 1`), and the string routine stores the
transition of the insert at input index 1, beyond the last output row, while output
row 0 of the cleared transitions column is never written. -/
theorem process_column_string_leaves_row_unwritten :
    (mask_then_string_column t_env.off delete_insert_fcolumn example_scolumn
        delete_insert_ps cleared_writes).map
      (fun r => (r.1.count, r.2.1.m_added_offset 1, r.2.2.tcolumn.get_nth 0,
        r.2.2.tcolumn.get_nth 1)) =
      some (1, 0, none, some VALUE_TRANSITION_NEQ_FT) := by
  rfl

/-- C9 (counterexample): for the flattened single row `(k, "x", INSERT)` of a key the
master maps to a row holding the valid value "a", the string routine writes prev "a",
current "x" and the transition `NEQ_TT`, which is not `NEQ_TDT`. -/
theorem process_column_string_reinsert_not_neq_tdt :
    (mask_then_string_column t_env.off single_valid_fcolumn example_scolumn
        (single_insert_ps single_valid_fcolumn) cleared_writes).map
      (fun r => (r.2.2.tcolumn.get_nth 0, r.2.2.pcolumn.get_nth_cstr 0,
        r.2.2.pcolumn.is_valid 0, r.2.2.ccolumn.get_nth_cstr 0, r.2.2.ccolumn.is_valid 0)) =
      some (some VALUE_TRANSITION_NEQ_TT, "a", true, "x", true) ∧
    (mask_then_string_column t_env.off single_valid_fcolumn example_scolumn
        (single_insert_ps single_valid_fcolumn) cleared_writes).map
      (fun r => r.2.2.tcolumn.get_nth 0) ≠ some (some VALUE_TRANSITION_NEQ_TDT) := by
  decide

/-- C9 (amended): when the flattened batch is the single row `(k, new value, INSERT)` of
a key mapped in the master whose old value is valid, the new value being valid, the
string routine writes for that cell the transition `NEQ_TT` when the new value differs
from the old one and `EQ_TT` when they are equal, with prev the old value (the
vocabulary index of the master cell, read in the vocabulary borrowed from the master
column: the same string) and current the new value, both valid; this under every
setting of the backout switches. -/
theorem process_column_string_reinsert {K : Type} [DecidableEq K] (env : t_env)
    (fcolumn scolumn : t_column Nat) (ps : t_process_state K) (w : t_column_writes)
    (hrows : ps.m_flattened_data_table.num_rows = 1) (hsize : fcolumn.m_size = 1)
    (hop : ps.m_flattened_data_table.psp_op 0 = OP_INSERT)
    (hex : row_lookup_exists ps 0 = true)
    (hpv : scolumn.is_valid (row_lookup_idx ps 0) = true)
    (hcv : fcolumn.is_valid 0 = true) :
    ∃ mask ps1 w1, _process_mask_existed_rows ps = some (mask, ps1) ∧
      _process_column_string env fcolumn scolumn ps1 w = some w1 ∧
      w1.tcolumn.get_nth 0 =
        some (if scolumn.get_nth_cstr (row_lookup_idx ps 0) = fcolumn.get_nth_cstr 0 then
          VALUE_TRANSITION_EQ_TT else VALUE_TRANSITION_NEQ_TT) ∧
      w1.pcolumn.is_valid 0 = true ∧
      w1.pcolumn.get_nth 0 = scolumn.get_nth (row_lookup_idx ps 0) ∧
      w1.pcolumn.get_nth_cstr 0 = scolumn.get_nth_cstr (row_lookup_idx ps 0) ∧
      w1.ccolumn.is_valid 0 = true ∧
      w1.ccolumn.get_nth_cstr 0 = fcolumn.get_nth_cstr 0 := by
  have hops : ops_known ps := by
    intro idx hidx
    rw [hrows] at hidx
    have h0 : idx = 0 := by omega
    subst h0
    exact Or.inl hop
  have hlen : 0 < ps.m_lookup.length := by
    cases hl : ps.m_lookup with
    | nil => simp [row_lookup_exists, hl] at hex
    | cons a l => simp
  have hlookup : ps.m_flattened_data_table.num_rows ≤ ps.m_lookup.length := by
    rw [hrows]; exact hlen
  obtain ⟨st, hst, hmask⟩ := mask_result ps hops hlookup
  have hbody := column_body_closed env fcolumn scolumn ps st hmask
    { w with pcolumn := w.pcolumn.borrow_vocabulary scolumn } 0 (by rw [hrows]; decide)
    (Or.inl hop) hlen
  have hins : row_is_insert ps 0 = true := by simp [row_is_insert, hop]
  have hpre : row_pre_existed ps 0 = true := by
    simp [row_pre_existed, hex, pkey_eq_prev]
  have hprev : row_prev_valid scolumn ps 0 = true := by
    simp [row_prev_valid, hpre, hpv]
  have hk0 : kept_below ps 0 = 0 := rfl
  refine ⟨st.mask, st.process_state,
    column_step_closed env fcolumn scolumn ps
      { w with pcolumn := w.pcolumn.borrow_vocabulary scolumn } 0,
    hst, ?_, ?_, ?_, ?_, ?_, ?_, ?_⟩
  · rw [_process_column_string, hsize]
    simp only [_process_column_string_loop, Option.some_bind]
    exact hbody
  · simp only [column_step_closed, hins, if_true, t_column.get_nth, t_column.set_nth,
      Function.update_same, row_transition, hpre, hprev, hcv, row_prev_cur_eq,
      pkey_eq_prev, Bool.true_and]
    by_cases heq : scolumn.get_nth_cstr (row_lookup_idx ps 0) = fcolumn.get_nth_cstr 0
    · obtain ⟨b1, b2, b3⟩ := env
      cases b1 <;> cases b2 <;> cases b3 <;> simp [heq, calc_transition]
    · obtain ⟨b1, b2, b3⟩ := env
      cases b1 <;> cases b2 <;> cases b3 <;> simp [heq, calc_transition]
  · simp [column_step_closed, hins, hprev, t_column.is_valid, t_column.set_valid, hk0]
  · simp [column_step_closed, hins, hprev, t_column.get_nth, t_column.set_valid,
      t_column.set_nth, hk0]
  · simp [column_step_closed, hins, hprev, t_column.get_nth, t_column.get_nth_cstr,
      t_column.set_valid, t_column.set_nth, t_column.borrow_vocabulary, hk0]
  · simp [column_step_closed, hins, hprev, hcv, t_column.is_valid, t_column.set_valid, hk0]
  · have h := cell_holds_set_same w.ccolumn 0 (fcolumn.get_nth_cstr 0)
      (fcolumn.is_valid 0 || row_prev_valid scolumn ps 0)
    simp only [column_step_closed, hins, hcv, if_true, hk0]
    rw [hcv] at h
    exact h.2

/-- C9 (amended), witness: the one-row batch holding "x" over the master value "a". -/
theorem process_column_string_reinsert_witness :
    ∃ mask ps1 w1,
      _process_mask_existed_rows (single_insert_ps single_valid_fcolumn) = some (mask, ps1) ∧
      _process_column_string t_env.off single_valid_fcolumn example_scolumn ps1
        cleared_writes = some w1 ∧
      w1.tcolumn.get_nth 0 =
        some (if example_scolumn.get_nth_cstr
            (row_lookup_idx (single_insert_ps single_valid_fcolumn) 0) =
            single_valid_fcolumn.get_nth_cstr 0 then
          VALUE_TRANSITION_EQ_TT else VALUE_TRANSITION_NEQ_TT) ∧
      w1.pcolumn.is_valid 0 = true ∧
      w1.pcolumn.get_nth 0 =
        example_scolumn.get_nth (row_lookup_idx (single_insert_ps single_valid_fcolumn) 0) ∧
      w1.pcolumn.get_nth_cstr 0 =
        example_scolumn.get_nth_cstr
          (row_lookup_idx (single_insert_ps single_valid_fcolumn) 0) ∧
      w1.ccolumn.is_valid 0 = true ∧
      w1.ccolumn.get_nth_cstr 0 = single_valid_fcolumn.get_nth_cstr 0 :=
  process_column_string_reinsert t_env.off single_valid_fcolumn example_scolumn
    (single_insert_ps single_valid_fcolumn) cleared_writes rfl rfl rfl (by decide)
    (by decide) (by decide)

/-- C10 (counterexample): with all switches off, for an insert row whose key the master
maps to a row holding the valid value "a" and whose batch cell is invalid, the string
routine writes the transition `NEQ_TF`, which is not `NEQ_TT`; the current cell falls
back to "a" and is valid. -/
theorem process_column_string_valid_to_invalid_not_neq_tt :
    (mask_then_string_column t_env.off single_invalid_fcolumn example_scolumn
        (single_insert_ps single_invalid_fcolumn) cleared_writes).map
      (fun r => (r.2.2.tcolumn.get_nth 0, r.2.2.ccolumn.get_nth_cstr 0,
        r.2.2.ccolumn.is_valid 0)) =
      some (some VALUE_TRANSITION_NEQ_TF, "a", true) ∧
    (mask_then_string_column t_env.off single_invalid_fcolumn example_scolumn
        (single_insert_ps single_invalid_fcolumn) cleared_writes).map
      (fun r => r.2.2.tcolumn.get_nth 0) ≠ some (some VALUE_TRANSITION_NEQ_TT) := by
  decide

/-- C10 (amended): with all switches off, for an insert row of a batch with ops in
INSERT, DELETE whose key pre-exists in the master, the iteration of the string routine
for that row writes the transition `EQ_TT` when both the master cell and the batch cell
are invalid, and `NEQ_TF` when the master cell is valid and the batch cell is invalid. -/
theorem process_column_string_mixed_validity {K : Type} [DecidableEq K]
    (fcolumn scolumn : t_column Nat) (ps : t_process_state K)
    (hops : ops_known ps)
    (hlookup : ps.m_flattened_data_table.num_rows ≤ ps.m_lookup.length)
    (i : Nat) (hi : i < ps.m_flattened_data_table.num_rows)
    (hop : ps.m_flattened_data_table.psp_op i = OP_INSERT)
    (hpre : row_pre_existed ps i = true) :
    ∃ mask ps1, _process_mask_existed_rows ps = some (mask, ps1) ∧
      ∀ w, ∃ w1, _process_column_string_body t_env.off fcolumn scolumn ps1 w i = some w1 ∧
        (scolumn.is_valid (row_lookup_idx ps i) = false → fcolumn.is_valid i = false →
          w1.tcolumn.get_nth i = some VALUE_TRANSITION_EQ_TT) ∧
        (scolumn.is_valid (row_lookup_idx ps i) = true → fcolumn.is_valid i = false →
          w1.tcolumn.get_nth i = some VALUE_TRANSITION_NEQ_TF) := by
  obtain ⟨st, hst, hmask⟩ := mask_result ps hops hlookup
  refine ⟨st.mask, st.process_state, hst, ?_⟩
  intro w
  refine ⟨_, column_body_closed t_env.off fcolumn scolumn ps st hmask w i hi (Or.inl hop)
    (by omega), ?_, ?_⟩
  · intro hs hf
    simp [column_step_closed, row_is_insert, hop, t_column.get_nth, t_column.set_nth,
      row_transition, row_prev_valid, row_prev_cur_eq, hpre, hs, hf, calc_transition,
      t_env.off]
  · intro hs hf
    simp [column_step_closed, row_is_insert, hop, t_column.get_nth, t_column.set_nth,
      row_transition, row_prev_valid, row_prev_cur_eq, hpre, hs, hf, calc_transition,
      t_env.off]

/-- C10 (amended), witness: the one-row batch with an invalid cell over a valid master
cell. -/
theorem process_column_string_mixed_validity_witness :
    ∃ mask ps1,
      _process_mask_existed_rows (single_insert_ps single_invalid_fcolumn) =
        some (mask, ps1) ∧
      ∀ w, ∃ w1, _process_column_string_body t_env.off single_invalid_fcolumn
          example_scolumn ps1 w 0 = some w1 ∧
        (example_scolumn.is_valid
            (row_lookup_idx (single_insert_ps single_invalid_fcolumn) 0) = false →
          single_invalid_fcolumn.is_valid 0 = false →
          w1.tcolumn.get_nth 0 = some VALUE_TRANSITION_EQ_TT) ∧
        (example_scolumn.is_valid
            (row_lookup_idx (single_insert_ps single_invalid_fcolumn) 0) = true →
          single_invalid_fcolumn.is_valid 0 = false →
          w1.tcolumn.get_nth 0 = some VALUE_TRANSITION_NEQ_TF) :=
  process_column_string_mixed_validity single_invalid_fcolumn example_scolumn
    (single_insert_ps single_invalid_fcolumn)
    (by intro idx _; left; rfl) (by decide) 0 (by decide) rfl (by decide)

/-! ## Tables -/

theorem lookup_map_replace {α : Type} (cols : List (String × t_column α)) (n n1 : String)
    (c : t_column α) :
    (cols.map (fun p => if p.1 == n then (p.1, c) else p)).lookup n1 =
      if n1 = n then (cols.lookup n).map (fun _ => c) else cols.lookup n1 := by
  induction cols with
  | nil => simp
  | cons p rest ih =>
    obtain ⟨k, v⟩ := p
    by_cases hk : k = n
    · subst hk
      by_cases h1 : n1 = k
      · subst h1; simp [List.lookup_cons]
      · simp only [List.map_cons, beq_self_eq_true, if_true, List.lookup_cons, ih, h1, if_false]
        have : (n1 == k) = false := by simpa using h1
        simp [this]
    · have hkn : (k == n) = false := by simpa using hk
      simp only [List.map_cons, hkn, Bool.false_eq_true, if_false, List.lookup_cons, ih]
      by_cases h1 : n1 = n
      · subst h1
        have : (n1 == k) = false := by simpa using (fun h => hk (h.symm))
        simp [this]
      · simp only [h1, if_false]

theorem lookup_set_column {α : Type} (t : t_data_table α) (n n1 : String) (c : t_column α) :
    (t.set_column n c).m_columns.lookup n1 =
      if n1 = n then some c else t.m_columns.lookup n1 := by
  unfold t_data_table.set_column
  by_cases h : (t.m_columns.lookup n).isSome = true
  · simp only [h, if_true, lookup_map_replace]
    split
    · obtain ⟨v, hv⟩ := Option.isSome_iff_exists.mp h
      simp [hv]
    · rfl
  · simp only [h, Bool.false_eq_true, if_false, List.lookup_append]
    have hnone : t.m_columns.lookup n = none := by
      cases hl : t.m_columns.lookup n with
      | none => rfl
      | some v => simp [hl] at h
    by_cases h1 : n1 = n
    · subst h1; simp [hnone, List.lookup_cons]
    · have : (n1 == n) = false := by simpa using h1
      simp [h1, List.lookup_cons, this]

theorem set_column_size {α : Type} (t : t_data_table α) (n : String) (c : t_column α) :
    (t.set_column n c).m_size = t.m_size := rfl

theorem has_column_set_column {α : Type} (t : t_data_table α) (n n1 : String)
    (c : t_column α) (h : t.has_column n1) : (t.set_column n c).has_column n1 := by
  unfold t_data_table.has_column at h ⊢
  rw [lookup_set_column]
  split
  · rfl
  · exact h

theorem has_column_set_column_self {α : Type} (t : t_data_table α) (n : String)
    (c : t_column α) : (t.set_column n c).has_column n := by
  unfold t_data_table.has_column
  rw [lookup_set_column]
  simp

theorem dtype_listed_set_column {α : Type} (t : t_data_table α) (n n1 : String)
    (c : t_column α) (hc : c.m_dtype ≠ t_dtype.DTYPE_NONE) (h : t.dtype_listed n1) :
    (t.set_column n c).dtype_listed n1 := by
  intro c1 hc1
  rw [lookup_set_column] at hc1
  split at hc1
  · cases hc1; exact hc
  · exact h c1 hc1

theorem dtype_listed_set_column_self {α : Type} (t : t_data_table α) (n : String)
    (c : t_column α) (hc : c.m_dtype ≠ t_dtype.DTYPE_NONE) :
    (t.set_column n c).dtype_listed n := by
  intro c1 hc1
  rw [lookup_set_column] at hc1
  simp at hc1
  cases hc1; exact hc

theorem get_column_of_has {α : Type} (t : t_data_table α) (n : String)
    (h : t.has_column n) :
    ∃ c, t.m_columns.lookup n = some c ∧ t.get_column n = some (c.set_size t.m_size) := by
  obtain ⟨c, hc⟩ := Option.isSome_iff_exists.mp h
  exact ⟨c, hc, by simp [t_data_table.get_column, hc]⟩

theorem has_column_add_column {α : Type} [Inhabited α] (t : t_data_table α) (n n1 : String)
    (d : t_dtype) (h : t.has_column n1) : (t.add_column n d).has_column n1 := by
  unfold t_data_table.add_column
  split
  · exact h
  · unfold t_data_table.has_column at h ⊢
    simp only [List.lookup_append]
    obtain ⟨v, hv⟩ := Option.isSome_iff_exists.mp h
    simp [hv]

theorem has_column_add_column_self {α : Type} [Inhabited α] (t : t_data_table α)
    (n : String) (d : t_dtype) : (t.add_column n d).has_column n := by
  unfold t_data_table.add_column
  split
  · rename_i h; exact h
  · unfold t_data_table.has_column
    rename_i h
    have hnone : t.m_columns.lookup n = none := by
      cases hl : t.m_columns.lookup n with
      | none => rfl
      | some v => simp [hl] at h
    simp [List.lookup_append, hnone, List.lookup_cons]

theorem add_column_size {α : Type} [Inhabited α] (t : t_data_table α) (n : String)
    (d : t_dtype) : (t.add_column n d).m_size = t.m_size := by
  unfold t_data_table.add_column
  split <;> rfl

theorem has_column_clear {α : Type} [Inhabited α] (t : t_data_table α) (n : String)
    (h : t.has_column n) : t.clear.has_column n := by
  unfold t_data_table.has_column at h ⊢
  rw [List.lookup_isSome_iff] at h ⊢
  obtain ⟨p, hp, hk⟩ := h
  exact ⟨_, List.mem_map_of_mem _ hp, hk⟩

/-! ## The column loop of `_process_table` -/

theorem column_body_congr {K : Type} (env : t_env) (fcolumn scolumn : t_column Nat)
    (ps1 ps2 : t_process_state K) (h : scratch_eq ps1 ps2) (w : t_column_writes) (k : Nat) :
    _process_column_string_body env fcolumn scolumn ps1 w k =
      _process_column_string_body env fcolumn scolumn ps2 w k := by
  obtain ⟨h1, h2, h3, h4⟩ := h
  simp only [_process_column_string_body, h1, h2, h3, h4]

theorem column_loop_congr {K : Type} (env : t_env) (fcolumn scolumn : t_column Nat)
    (ps1 ps2 : t_process_state K) (h : scratch_eq ps1 ps2) (w : t_column_writes) (k : Nat) :
    _process_column_string_loop env fcolumn scolumn ps1 w k =
      _process_column_string_loop env fcolumn scolumn ps2 w k := by
  induction k with
  | zero => rfl
  | succ k ih =>
    simp only [_process_column_string_loop, ih]
    congr 1
    funext w1
    exact column_body_congr env fcolumn scolumn ps1 ps2 h w1 k

theorem dispatch_some {K : Type} [DecidableEq K] (env : t_env)
    (generic : t_process_column_generic K)
    (hgen : generic_returns generic)
    (ps0 : t_process_state K) (st : t_mask_state K)
    (hmask : mask_inv ps0 ps0.m_flattened_data_table.num_rows st)
    (hops : ops_known ps0)
    (hlookup : ps0.m_flattened_data_table.num_rows ≤ ps0.m_lookup.length)
    (ps : t_process_state K) (hs : scratch_eq ps st.process_state)
    (fcolumn scolumn dcolumn : t_column Nat) (w : t_column_writes)
    (hsize : fcolumn.m_size = ps0.m_flattened_data_table.num_rows)
    (hdt : fcolumn.m_dtype ≠ t_dtype.DTYPE_NONE) :
    ∃ r, _process_table_dispatch env generic fcolumn scolumn dcolumn w ps = some r := by
  have hstr : ∃ r, (_process_column_string env fcolumn scolumn ps w).map
      (fun w1 => (dcolumn, w1)) = some r := by
    obtain ⟨w1, hw1, -⟩ := column_loop_inv env fcolumn scolumn ps0 st hmask hops hlookup w
      _ (Nat.le_refl _)
    refine ⟨(dcolumn, w1), ?_⟩
    rw [_process_column_string, column_loop_congr env fcolumn scolumn ps st.process_state hs,
      hsize, hw1]
    rfl
  have hrows : ∀ idx, idx < fcolumn.m_size →
      (ps.m_op_base idx = OP_INSERT ∨ ps.m_op_base idx = OP_DELETE) ∧
        idx < ps.m_lookup.length := by
    intro idx hidx
    rw [hsize] at hidx
    rw [hs.1, hmask.op_eq, hs.2.2.1, hmask.lookup_eq]
    exact ⟨hops idx hidx, by omega⟩
  have hg : ∀ d, ∃ r, generic d fcolumn scolumn dcolumn w ps = some r :=
    fun d => Option.isSome_iff_exists.mp (hgen d fcolumn scolumn dcolumn w ps hrows)
  unfold _process_table_dispatch t_column.get_dtype
  cases hd : fcolumn.m_dtype
  case DTYPE_STR => exact hstr
  case DTYPE_NONE => exact absurd hd hdt
  all_goals exact hg _

theorem process_table_columns_some {K : Type} [DecidableEq K] (env : t_env)
    (generic : t_process_column_generic K)
    (hgen : generic_returns generic)
    (ps0 : t_process_state K) (st : t_mask_state K)
    (hmask : mask_inv ps0 ps0.m_flattened_data_table.num_rows st)
    (hops : ops_known ps0)
    (hlookup : ps0.m_flattened_data_table.num_rows ≤ ps0.m_lookup.length)
    (names : List String) :
    ∀ ps : t_process_state K, scratch_eq ps st.process_state →
      ps.m_flattened_data_table = ps0.m_flattened_data_table →
      (∀ n, n ∈ names → column_ready ps n) →
      ∃ ps1, _process_table_columns env generic names ps = some ps1 ∧
        ps1.m_delta_data_table.m_size = ps.m_delta_data_table.m_size ∧
        ps1.m_prev_data_table.m_size = ps.m_prev_data_table.m_size ∧
        ps1.m_current_data_table.m_size = ps.m_current_data_table.m_size ∧
        ps1.m_transitions_data_table.m_size = ps.m_transitions_data_table.m_size ∧
        ps1.m_existed_data_table = ps.m_existed_data_table ∧
        ps1.m_flattened_data_table = ps.m_flattened_data_table := by
  induction names with
  | nil =>
    intro ps _ _ _
    exact ⟨ps, rfl, rfl, rfl, rfl, rfl, rfl, rfl⟩
  | cons cname rest ih =>
    intro ps hs hflat hready
    obtain ⟨hF, hFd, hS, hD, hP, hC, hT⟩ := hready cname (List.mem_cons_self _ _)
    obtain ⟨fc, hfl, hf⟩ := get_column_of_has _ _ hF
    obtain ⟨sc, -, hsc⟩ := get_column_of_has _ _ hS
    obtain ⟨dc, -, hdc⟩ := get_column_of_has _ _ hD
    obtain ⟨pc, -, hpc⟩ := get_column_of_has _ _ hP
    obtain ⟨cc, -, hcc⟩ := get_column_of_has _ _ hC
    obtain ⟨tc, -, htc⟩ := get_column_of_has _ _ hT
    have hsize : (fc.set_size ps.m_flattened_data_table.m_size).m_size =
        ps0.m_flattened_data_table.num_rows := by
      rw [hflat]; rfl
    obtain ⟨r, hr⟩ := dispatch_some env generic hgen ps0 st hmask hops hlookup ps hs
      (fc.set_size ps.m_flattened_data_table.m_size)
      (sc.set_size ps.m_state_data_table.m_size) (dc.set_size ps.m_delta_data_table.m_size)
      { pcolumn := pc.set_size ps.m_prev_data_table.m_size
        ccolumn := cc.set_size ps.m_current_data_table.m_size
        tcolumn := tc.set_size ps.m_transitions_data_table.m_size }
      hsize (hFd fc hfl)
    obtain ⟨hs1, hs2, hs3, hs4⟩ := hs
    have hstep : ∃ ps2 : t_process_state K,
        _process_table_column env generic ps cname = some ps2 ∧
        scratch_eq ps2 st.process_state ∧
        ps2.m_flattened_data_table = ps.m_flattened_data_table ∧
        ps2.m_state_data_table = ps.m_state_data_table ∧
        ps2.m_existed_data_table = ps.m_existed_data_table ∧
        ps2.m_delta_data_table = ps.m_delta_data_table.set_column cname r.1 ∧
        ps2.m_prev_data_table = ps.m_prev_data_table.set_column cname r.2.pcolumn ∧
        ps2.m_current_data_table = ps.m_current_data_table.set_column cname r.2.ccolumn ∧
        ps2.m_transitions_data_table =
          ps.m_transitions_data_table.set_column cname r.2.tcolumn := by
      refine ⟨{ ps with
          m_delta_data_table := ps.m_delta_data_table.set_column cname r.1
          m_prev_data_table := ps.m_prev_data_table.set_column cname r.2.pcolumn
          m_current_data_table := ps.m_current_data_table.set_column cname r.2.ccolumn
          m_transitions_data_table :=
            ps.m_transitions_data_table.set_column cname r.2.tcolumn },
        ?_, ⟨?_, ?_, ?_, ?_⟩, ?_, ?_, ?_, ?_, ?_, ?_, ?_⟩
      · simp only [_process_table_column, hf, hsc, hdc, hpc, hcc, htc, Option.some_bind, hr,
          Option.map_some']
      · exact hs1
      · exact hs2
      · exact hs3
      · exact hs4
      all_goals rfl
    obtain ⟨ps2, hps2, hsc2, e1, e2, e3, e4, e5, e6, e7⟩ := hstep
    obtain ⟨ps1, h1, h2, h3, h4, h5, h6, h7⟩ := ih ps2 hsc2 (e1.trans hflat) (by
      intro n hn
      obtain ⟨a1, a2, a3, a4, a5, a6, a7⟩ := hready n (List.mem_cons_of_mem _ hn)
      refine ⟨?_, ?_, ?_, ?_, ?_, ?_, ?_⟩
      · rw [e1]; exact a1
      · rw [e1]; exact a2
      · rw [e2]; exact a3
      · rw [e4]; exact has_column_set_column _ _ _ _ a4
      · rw [e5]; exact has_column_set_column _ _ _ _ a5
      · rw [e6]; exact has_column_set_column _ _ _ _ a6
      · rw [e7]; exact has_column_set_column _ _ _ _ a7)
    refine ⟨ps1, ?_, ?_, ?_, ?_, ?_, ?_, ?_⟩
    · simp only [_process_table_columns, hps2, Option.some_bind]
      exact h1
    · rw [h2, e4]; rfl
    · rw [h3, e5]; rfl
    · rw [h4, e6]; rfl
    · rw [h5, e7]; rfl
    · rw [h6, e3]
    · rw [h7, e1]

/-! ## Expressions and the prepared process state -/

theorem foldl_preserves {σ ε : Type} (step : σ → ε → σ) (Q : σ → Prop) (l : List ε)
    (pres : ∀ s e, e ∈ l → Q s → Q (step s e)) (s0 : σ) (h : Q s0) : Q (l.foldl step s0) := by
  induction l generalizing s0 with
  | nil => exact h
  | cons e es ih =>
    exact ih (fun s e1 he1 => pres s e1 (List.mem_cons_of_mem _ he1)) _
      (pres s0 e (List.mem_cons_self _ _) h)

theorem foldl_alias {σ : Type} (step : σ → t_computed_expression → σ) (Q : σ → Prop)
    (n : String) (l : List t_computed_expression)
    (pres : ∀ s e, e ∈ l → Q s → Q (step s e))
    (est : ∀ s e, e ∈ l → e.m_expression_alias = n → Q (step s e)) (s0 : σ)
    (h : Q s0 ∨ n ∈ l.map (·.m_expression_alias)) : Q (l.foldl step s0) := by
  induction l generalizing s0 with
  | nil =>
    rcases h with h | h
    · exact h
    · simp at h
  | cons e es ih =>
    apply ih (fun s e1 he1 => pres s e1 (List.mem_cons_of_mem _ he1))
      (fun s e1 he1 => est s e1 (List.mem_cons_of_mem _ he1))
    rcases h with h | h
    · exact Or.inl (pres s0 e (List.mem_cons_self _ _) h)
    · rw [List.map_cons, List.mem_cons] at h
      rcases h with h | h
      · exact Or.inl (est s0 e (List.mem_cons_self _ _) h.symm)
      · exact Or.inr h

theorem compute_expressions_size (exprs : List t_computed_expression)
    (t : t_data_table Nat) : (_compute_expressions exprs t).m_size = t.m_size := by
  unfold _compute_expressions
  refine foldl_preserves _ (fun x => x.m_size = t.m_size) exprs ?_ t rfl
  intro s e _ hs
  exact hs

theorem compute_expressions_has (exprs : List t_computed_expression)
    (t : t_data_table Nat) (n : String)
    (h : t.has_column n ∨ n ∈ exprs.map (·.m_expression_alias)) :
    (_compute_expressions exprs t).has_column n := by
  unfold _compute_expressions
  refine foldl_alias _ (fun x => x.has_column n) n exprs ?_ ?_ t h
  · intro s e _ hs
    exact has_column_set_column _ _ _ _ hs
  · intro s e _ he
    rw [← he]
    exact has_column_set_column_self _ _ _

theorem process_table_compute_props {K : Type} (exprs : List t_computed_expression)
    (ps : t_process_state K) :
    (_process_table_compute exprs ps).m_delta_data_table.m_size =
        ps.m_delta_data_table.m_size ∧
    (_process_table_compute exprs ps).m_prev_data_table.m_size =
        ps.m_prev_data_table.m_size ∧
    (_process_table_compute exprs ps).m_current_data_table.m_size =
        ps.m_current_data_table.m_size ∧
    (_process_table_compute exprs ps).m_transitions_data_table =
        ps.m_transitions_data_table ∧
    (_process_table_compute exprs ps).m_existed_data_table = ps.m_existed_data_table ∧
    (_process_table_compute exprs ps).m_flattened_data_table = ps.m_flattened_data_table ∧
    (_process_table_compute exprs ps).m_state_data_table = ps.m_state_data_table ∧
    (_process_table_compute exprs ps).m_lookup = ps.m_lookup := by
  unfold _process_table_compute
  split
  · exact ⟨compute_expressions_size _ _, compute_expressions_size _ _,
      compute_expressions_size _ _, rfl, rfl, rfl, rfl, rfl⟩
  · exact ⟨rfl, rfl, rfl, rfl, rfl, rfl, rfl, rfl⟩

theorem process_table_compute_has {K : Type} (exprs : List t_computed_expression)
    (ps : t_process_state K) (n : String) :
    (ps.m_delta_data_table.has_column n ∨ n ∈ exprs.map (·.m_expression_alias) →
      (_process_table_compute exprs ps).m_delta_data_table.has_column n) ∧
    (ps.m_prev_data_table.has_column n ∨ n ∈ exprs.map (·.m_expression_alias) →
      (_process_table_compute exprs ps).m_prev_data_table.has_column n) ∧
    (ps.m_current_data_table.has_column n ∨ n ∈ exprs.map (·.m_expression_alias) →
      (_process_table_compute exprs ps).m_current_data_table.has_column n) := by
  unfold _process_table_compute
  cases exprs with
  | nil =>
    simp only [List.length_nil, gt_iff_lt, Nat.lt_irrefl, if_false, List.map_nil,
      List.not_mem_nil, or_false]
    exact ⟨id, id, id⟩
  | cons e es =>
    simp only [List.length_cons, gt_iff_lt, Nat.zero_lt_succ, if_true]
    exact ⟨compute_expressions_has _ _ _, compute_expressions_has _ _ _,
      compute_expressions_has _ _ _⟩

theorem recompute_expressions_props {K : Type} (exprs : List t_computed_expression)
    (S : t_data_table Nat) (F : t_pkeyed_table K) (lk : List t_rlookup) :
    (_recompute_expressions exprs S F lk).2.m_size = F.m_size ∧
    (_recompute_expressions exprs S F lk).2.psp_op = F.psp_op ∧
    (_recompute_expressions exprs S F lk).2.psp_pkey = F.psp_pkey := by
  unfold _recompute_expressions
  refine foldl_preserves _
    (fun r => r.2.m_size = F.m_size ∧ r.2.psp_op = F.psp_op ∧ r.2.psp_pkey = F.psp_pkey)
    exprs ?_ (S, F) ⟨rfl, rfl, rfl⟩
  intro s e _ hs
  exact hs

theorem recompute_expressions_has {K : Type} (exprs : List t_computed_expression)
    (S : t_data_table Nat) (F : t_pkeyed_table K) (lk : List t_rlookup) (n : String)
    (hexpr : ∀ e, e ∈ exprs → e.m_dtype ≠ t_dtype.DTYPE_NONE) :
    (S.has_column n ∨ n ∈ exprs.map (·.m_expression_alias) →
      (_recompute_expressions exprs S F lk).1.has_column n) ∧
    (F.tot_data_table.has_column n ∨ n ∈ exprs.map (·.m_expression_alias) →
      (_recompute_expressions exprs S F lk).2.tot_data_table.has_column n) ∧
    (F.tot_data_table.dtype_listed n ∨ n ∈ exprs.map (·.m_expression_alias) →
      (_recompute_expressions exprs S F lk).2.tot_data_table.dtype_listed n) := by
  unfold _recompute_expressions
  refine ⟨?_, ?_, ?_⟩
  · intro h
    refine foldl_alias _ (fun r => r.1.has_column n) n exprs ?_ ?_ (S, F) h
    · intro s e _ hs
      exact has_column_set_column _ _ _ _ hs
    · intro s e _ he
      rw [← he]
      exact has_column_set_column_self _ _ _
  · intro h
    refine foldl_alias _ (fun r => r.2.tot_data_table.has_column n) n exprs ?_ ?_ (S, F) h
    · intro s e _ hs
      exact has_column_set_column _ _ _ _ hs
    · intro s e _ he
      rw [← he]
      exact has_column_set_column_self _ _ _
  · intro h
    refine foldl_alias _ (fun r => r.2.tot_data_table.dtype_listed n) n exprs ?_ ?_ (S, F) h
    · intro s e he hs
      exact dtype_listed_set_column _ _ _ _ (hexpr e he) hs
    · intro s e he hn
      rw [← hn]
      exact dtype_listed_set_column_self _ _ _ (hexpr e he)

theorem add_columns_props (exprs : List t_computed_expression)
    (t : t_data_table (Option t_value_transition)) (n : String)
    (h : t.has_column n ∨ n ∈ exprs.map (·.m_expression_alias)) :
    (exprs.foldl (fun t e => t.add_column e.m_expression_alias t_dtype.DTYPE_UINT8)
      t).has_column n := by
  refine foldl_alias _ (fun x => x.has_column n) n exprs ?_ ?_ t h
  · intro s e _ hs
    exact has_column_add_column _ _ _ _ hs
  · intro s e _ he
    rw [← he]
    exact has_column_add_column_self _ _ _

theorem process_table_prepare_props {K : Type} (exprs : List t_computed_expression)
    (S : t_data_table Nat) (F : t_pkeyed_table K) (lk : List t_rlookup)
    (delta prev current : t_data_table Nat)
    (transitions : t_data_table (Option t_value_transition)) (existed : t_existed_table)
    (hexpr : ∀ e, e ∈ exprs → e.m_dtype ≠ t_dtype.DTYPE_NONE) :
    (_process_table_prepare exprs S F lk delta prev current transitions existed).m_lookup = lk ∧
    (_process_table_prepare exprs S F lk delta prev current transitions
      existed).m_flattened_data_table.m_size = F.m_size ∧
    (_process_table_prepare exprs S F lk delta prev current transitions
      existed).m_flattened_data_table.psp_op = F.psp_op ∧
    ∀ n, (F.tot_data_table.has_column n ∧ F.tot_data_table.dtype_listed n ∧ S.has_column n ∧
        delta.has_column n ∧ prev.has_column n ∧ current.has_column n ∧
        transitions.has_column n) ∨ n ∈ exprs.map (·.m_expression_alias) →
      column_ready
        (_process_table_prepare exprs S F lk delta prev current transitions existed) n := by
  have hrec : (if exprs.length > 0 then _recompute_expressions exprs S F lk else (S, F)) =
      _recompute_expressions exprs S F lk := by
    cases exprs with
    | nil => rfl
    | cons e es => simp
  unfold _process_table_prepare
  simp only [hrec, t_process_state.reserve_transitional_data_tables]
  obtain ⟨-, -, -, c4, -, c6, c7, c8⟩ := process_table_compute_props exprs
    ({ m_state_data_table := (_recompute_expressions exprs S F lk).1
       m_flattened_data_table := (_recompute_expressions exprs S F lk).2
       m_delta_data_table := delta
       m_prev_data_table := prev
       m_current_data_table := current
       m_transitions_data_table := exprs.foldl
         (fun t e => t.add_column e.m_expression_alias t_dtype.DTYPE_UINT8) transitions
       m_existed_data_table := existed
       m_lookup := lk
       m_op_base := fun _ => 0
       m_added_offset := fun _ => 0
       m_prev_pkey_eq_vec := fun _ => false } :
      t_process_state K).clear_transitional_data_tables
  obtain ⟨r1, r2, -⟩ := recompute_expressions_props exprs S F lk
  refine ⟨?_, ?_, ?_, ?_⟩
  · rw [c8]; rfl
  · rw [c6]; exact r1
  · rw [c6]; exact r2
  · intro n hn
    obtain ⟨q1, q2, q3⟩ := recompute_expressions_has exprs S F lk n hexpr
    obtain ⟨p1, p2, p3⟩ := process_table_compute_has exprs
      ({ m_state_data_table := (_recompute_expressions exprs S F lk).1
         m_flattened_data_table := (_recompute_expressions exprs S F lk).2
         m_delta_data_table := delta
         m_prev_data_table := prev
         m_current_data_table := current
         m_transitions_data_table := exprs.foldl
           (fun t e => t.add_column e.m_expression_alias t_dtype.DTYPE_UINT8) transitions
         m_existed_data_table := existed
         m_lookup := lk
         m_op_base := fun _ => 0
         m_added_offset := fun _ => 0
         m_prev_pkey_eq_vec := fun _ => false } :
        t_process_state K).clear_transitional_data_tables n
    refine ⟨?_, ?_, ?_, ?_, ?_, ?_, ?_⟩
    · rw [c6]; exact q2 (hn.imp (fun h => h.1) id)
    · rw [c6]; exact q3 (hn.imp (fun h => h.2.1) id)
    · rw [c7]; exact q1 (hn.imp (fun h => h.2.2.1) id)
    · exact p1 (hn.imp (fun h => has_column_clear _ _ h.2.2.2.1) id)
    · exact p2 (hn.imp (fun h => has_column_clear _ _ h.2.2.2.2.1) id)
    · exact p3 (hn.imp (fun h => has_column_clear _ _ h.2.2.2.2.2.1) id)
    · rw [c4]
      exact has_column_clear _ _ (add_columns_props exprs transitions n
        (hn.imp (fun h => h.2.2.2.2.2.2) id))

/-! ## Further claims on the calculator, the mask and the string routine -/

theorem calc_transition_eq_irrelevant (env : t_env)
    (row_pre_existed prev_valid cur_valid prev_pkey_eq eq1 eq2 : Bool)
    (h : (row_pre_existed && prev_valid && cur_valid) = true → eq1 = eq2) :
    calc_transition env (row_pre_existed && prev_valid) row_pre_existed cur_valid prev_valid
        cur_valid eq1 prev_pkey_eq =
      calc_transition env (row_pre_existed && prev_valid) row_pre_existed cur_valid prev_valid
        cur_valid eq2 prev_pkey_eq := by
  obtain ⟨b1, b2, b3⟩ := env
  cases row_pre_existed <;> cases prev_valid <;> cases cur_valid <;>
    first
    | (cases h rfl; rfl)
    | (cases b1 <;> cases b2 <;> cases b3 <;> cases eq1 <;> cases eq2 <;>
        cases prev_pkey_eq <;> rfl)

/-- C11: in the string routine (run on the scratch vectors of the existence mask, for a
batch with ops in INSERT, DELETE) the iteration for an insert row `i` writes at
`transitions[i]` the value of `calc_transition` with `prev_existed = row_pre_existed and
prev_valid`, `exists = cur_valid` and `prev_cur_eq` taken as the specification words
it, `prev_valid and cur_valid and prev == cur`: the routine's own `prev_cur_eq` (both
pointers non-null and `strcmp` equal, no validity test) yields the same transition,
for every setting of the backout switches. -/
theorem process_column_string_transition_refines {K : Type} [DecidableEq K] (env : t_env)
    (fcolumn scolumn : t_column Nat) (ps : t_process_state K)
    (hops : ops_known ps)
    (hlookup : ps.m_flattened_data_table.num_rows ≤ ps.m_lookup.length)
    (i : Nat) (hi : i < ps.m_flattened_data_table.num_rows)
    (hop : ps.m_flattened_data_table.psp_op i = OP_INSERT) :
    ∃ mask ps1, _process_mask_existed_rows ps = some (mask, ps1) ∧
      ∀ w, ∃ w1 trans_,
        _process_column_string_body env fcolumn scolumn ps1 w i = some w1 ∧
        w1.tcolumn.get_nth i = some trans_ ∧
        calc_transition env (row_pre_existed ps i && row_prev_valid scolumn ps i)
          (row_pre_existed ps i) (fcolumn.is_valid i) (row_prev_valid scolumn ps i)
          (fcolumn.is_valid i)
          (spec_prev_cur_eq (row_prev_valid scolumn ps i) (fcolumn.is_valid i)
            (scolumn.get_nth_cstr (row_lookup_idx ps i)) (fcolumn.get_nth_cstr i))
          (ps1.m_prev_pkey_eq_vec i) = some trans_ := by
  obtain ⟨st, hst, hmask⟩ := mask_result ps hops hlookup
  refine ⟨st.mask, st.process_state, hst, ?_⟩
  intro w
  obtain ⟨trans_, htr⟩ := row_transition_total env fcolumn scolumn ps i
  have hins : row_is_insert ps i = true := by simp [row_is_insert, hop]
  refine ⟨column_step_closed env fcolumn scolumn ps w i, trans_,
    column_body_closed env fcolumn scolumn ps st hmask w i hi (Or.inl hop) (by omega), ?_, ?_⟩
  · simp only [column_step_closed, hins, if_true, t_column.get_nth, t_column.set_nth,
      Function.update_same]
    exact htr
  · rw [hmask.ppe i hi, ← htr, row_transition]
    apply calc_transition_eq_irrelevant
    intro h
    simp only [Bool.and_eq_true] at h
    obtain ⟨⟨h1, h2⟩, h3⟩ := h
    simp [spec_prev_cur_eq, row_prev_cur_eq, h1, h2, h3]

/-- C11, witness: row 1 of the example batch, an insert. -/
theorem process_column_string_transition_refines_witness :
    ∃ mask ps1, _process_mask_existed_rows example_ps = some (mask, ps1) ∧
      ∀ w, ∃ w1 trans_,
        _process_column_string_body t_env.off example_fcolumn example_scolumn ps1 w 1 =
          some w1 ∧
        w1.tcolumn.get_nth 1 = some trans_ ∧
        calc_transition t_env.off
          (row_pre_existed example_ps 1 && row_prev_valid example_scolumn example_ps 1)
          (row_pre_existed example_ps 1) (example_fcolumn.is_valid 1)
          (row_prev_valid example_scolumn example_ps 1) (example_fcolumn.is_valid 1)
          (spec_prev_cur_eq (row_prev_valid example_scolumn example_ps 1)
            (example_fcolumn.is_valid 1)
            (example_scolumn.get_nth_cstr (row_lookup_idx example_ps 1))
            (example_fcolumn.get_nth_cstr 1))
          (ps1.m_prev_pkey_eq_vec 1) = some trans_ :=
  process_column_string_transition_refines t_env.off example_fcolumn example_scolumn
    example_ps example_ps_ops_known example_ps_lookup 1 (by decide) rfl

/-- C16: with the switch `backout_invalid_neq_ft` set and the other two off, for an
insert row that did not pre-exist and whose cell is invalid (`row_pre_existed`,
`prev_valid`, `prev_existed`, `exists` and `cur_valid` all false, any `prev_cur_eq`
and `prev_pkey_eq`) `calc_transition` returns `EQ_FF`; with the switch off the same
arguments return `NEQ_FT`. -/
theorem calc_transition_backout_invalid_neq_ft (prev_cur_eq prev_pkey_eq : Bool) :
    calc_transition ⟨true, false, false⟩ false false false false false prev_cur_eq
        prev_pkey_eq = some VALUE_TRANSITION_EQ_FF ∧
      calc_transition t_env.off false false false false false prev_cur_eq prev_pkey_eq =
        some VALUE_TRANSITION_NEQ_FT := by
  cases prev_cur_eq <;> cases prev_pkey_eq <;> exact ⟨rfl, rfl⟩

/-- C18: for every flattened batch whose ops are all INSERT or DELETE and whose lookup
has an entry per row, `_process_mask_existed_rows` runs through all rows without the
`Unknown OP` abort, its final assertion holds (the number of set bits of the mask
equals `added_count`), and it returns the mask. -/
theorem process_mask_existed_rows_popcount {K : Type} [DecidableEq K]
    (ps : t_process_state K) (hops : ops_known ps)
    (hlookup : ps.m_flattened_data_table.num_rows ≤ ps.m_lookup.length) :
    ∃ st, _process_mask_existed_rows_loop ps ps.m_flattened_data_table.num_rows = some st ∧
      st.mask.count = st.added_count ∧
      _process_mask_existed_rows ps = some (st.mask, st.process_state) := by
  obtain ⟨st, hst, hinv⟩ := mask_loop_inv ps hops hlookup _ (Nat.le_refl _)
  have hcount := mask_count_eq ps st hinv
  refine ⟨st, hst, hcount, ?_⟩
  simp [_process_mask_existed_rows, hst, hcount]

/-- C18, witness: the example batch. -/
theorem process_mask_existed_rows_popcount_witness :
    ∃ st, _process_mask_existed_rows_loop example_ps
        example_ps.m_flattened_data_table.num_rows = some st ∧
      st.mask.count = st.added_count ∧
      _process_mask_existed_rows example_ps = some (st.mask, st.process_state) :=
  process_mask_existed_rows_popcount example_ps example_ps_ops_known example_ps_lookup

/-- C19: for every flattened batch with ops in INSERT, DELETE (and a lookup entry per
row) and every row `i`, the returned mask has `M[i]` set exactly when row `i` is an
insert, or a delete of a key mapped in the master, and `added_offset[i]` is the number
of rows `k < i` with `M[k]` set, also for dropped rows. -/
theorem process_mask_existed_rows_mask {K : Type} [DecidableEq K]
    (ps : t_process_state K) (hops : ops_known ps)
    (hlookup : ps.m_flattened_data_table.num_rows ≤ ps.m_lookup.length) :
    ∃ mask ps1, _process_mask_existed_rows ps = some (mask, ps1) ∧
      ∀ i, i < ps.m_flattened_data_table.num_rows →
        (mask.m_bits i = true ↔
          (ps.m_flattened_data_table.psp_op i = OP_INSERT ∨
            (ps.m_flattened_data_table.psp_op i = OP_DELETE ∧
              row_lookup_exists ps i = true))) ∧
        ps1.m_added_offset i = (List.range i).countP mask.m_bits := by
  obtain ⟨st, hst, hinv⟩ := mask_result ps hops hlookup
  refine ⟨st.mask, st.process_state, hst, ?_⟩
  intro i hi
  constructor
  · rw [hinv.bits i hi]
    simp [row_kept, row_is_insert, row_is_delete]
  · rw [hinv.offs i hi, kept_below]
    apply List.countP_congr
    intro x hx
    rw [hinv.bits x (by have := List.mem_range.mp hx; omega)]

/-- C19, witness: the example batch. -/
theorem process_mask_existed_rows_mask_witness :
    ∃ mask ps1, _process_mask_existed_rows example_ps = some (mask, ps1) ∧
      ∀ i, i < example_ps.m_flattened_data_table.num_rows →
        (mask.m_bits i = true ↔
          (example_ps.m_flattened_data_table.psp_op i = OP_INSERT ∨
            (example_ps.m_flattened_data_table.psp_op i = OP_DELETE ∧
              row_lookup_exists example_ps i = true))) ∧
        ps1.m_added_offset i = (List.range i).countP mask.m_bits :=
  process_mask_existed_rows_mask example_ps example_ps_ops_known example_ps_lookup

/-- C20: for every combination of the seven boolean arguments and every setting of the
backout switches `calc_transition` returns one of `EQ_FF`, `EQ_TT`, `NEQ_FT`, `NEQ_TF`,
`NEQ_TT`, `NVEQ_FT`; it never returns `NEQ_TDT` (the `prev_pkey_eq` branch is
unreachable) and never `NEQ_TDF`. -/
theorem calc_transition_range (env : t_env)
    (prev_existed row_pre_existed exists_ prev_valid cur_valid prev_cur_eq prev_pkey_eq : Bool) :
    (∃ trans_, calc_transition env prev_existed row_pre_existed exists_ prev_valid cur_valid
        prev_cur_eq prev_pkey_eq = some trans_ ∧
      (trans_ = VALUE_TRANSITION_EQ_FF ∨ trans_ = VALUE_TRANSITION_EQ_TT ∨
        trans_ = VALUE_TRANSITION_NEQ_FT ∨ trans_ = VALUE_TRANSITION_NEQ_TF ∨
        trans_ = VALUE_TRANSITION_NEQ_TT ∨ trans_ = VALUE_TRANSITION_NVEQ_FT)) ∧
    calc_transition env prev_existed row_pre_existed exists_ prev_valid cur_valid
      prev_cur_eq prev_pkey_eq ≠ some VALUE_TRANSITION_NEQ_TDT ∧
    calc_transition env prev_existed row_pre_existed exists_ prev_valid cur_valid
      prev_cur_eq prev_pkey_eq ≠ some VALUE_TRANSITION_NEQ_TDF := by
  obtain ⟨b1, b2, b3⟩ := env
  cases b1 <;> cases b2 <;> cases b3 <;>
  cases prev_existed <;> cases row_pre_existed <;> cases exists_ <;> cases prev_valid <;>
    cases cur_valid <;> cases prev_cur_eq <;> cases prev_pkey_eq <;>
    exact ⟨⟨_, rfl, by decide⟩, by decide, by decide⟩

/-! ## Column-order independence -/

theorem process_table_column_eq {K : Type} (env : t_env)
    (generic : t_process_column_generic K) (ps : t_process_state K) (cname : String) :
    _process_table_column env generic ps cname =
      (column_result env generic ps cname).map (column_store ps cname) := by
  unfold _process_table_column column_result
  cases ps.m_flattened_data_table.get_column cname <;> try rfl
  cases ps.m_state_data_table.get_column cname <;> try rfl
  cases ps.m_delta_data_table.get_column cname <;> try rfl
  cases ps.m_prev_data_table.get_column cname <;> try rfl
  cases ps.m_current_data_table.get_column cname <;> try rfl
  cases ps.m_transitions_data_table.get_column cname <;> rfl

theorem get_column_set_column_ne {α : Type} (t : t_data_table α) (x y : String)
    (b : t_column α) (h : x ≠ y) : (t.set_column y b).get_column x = t.get_column x := by
  unfold t_data_table.get_column
  rw [lookup_set_column, if_neg h]
  rfl

theorem set_column_columns_of_has {α : Type} (t : t_data_table α) (n : String)
    (c : t_column α) (h : t.has_column n) :
    (t.set_column n c).m_columns =
      t.m_columns.map (fun p => if p.1 == n then (p.1, c) else p) := by
  have h0 : (t.m_columns.lookup n).isSome = true := h
  unfold t_data_table.set_column
  simp only [h0, if_true]

theorem set_column_comm {α : Type} (t : t_data_table α) (x y : String) (a b : t_column α)
    (h : x ≠ y) (hx : t.has_column x) (hy : t.has_column y) :
    (t.set_column x a).set_column y b = (t.set_column y b).set_column x a := by
  have hy1 : ((t.set_column x a).m_columns.lookup y).isSome = true :=
    has_column_set_column t x y a hy
  have hx1 : ((t.set_column y b).m_columns.lookup x).isSome = true :=
    has_column_set_column t y x b hx
  have hx0 : (t.m_columns.lookup x).isSome = true := hx
  have hy0 : (t.m_columns.lookup y).isSome = true := hy
  have e1 := set_column_columns_of_has t x a hx
  have e2 := set_column_columns_of_has t y b hy
  have e3 := set_column_columns_of_has (t.set_column x a) y b hy1
  have e4 := set_column_columns_of_has (t.set_column y b) x a hx1
  have hcols : ((t.set_column x a).set_column y b).m_columns =
      ((t.set_column y b).set_column x a).m_columns := by
    rw [e3, e4, e1, e2, List.map_map, List.map_map]
    apply List.map_congr_left
    intro p _
    simp only [Function.comp]
    by_cases h1 : p.1 = x
    · have h2 : ¬ p.1 = y := fun h2 => h (h1.symm.trans h2)
      simp [h1, h]
    · by_cases h2 : p.1 = y
      · have hyx : ¬ y = x := fun e => h e.symm
        simp [h2, hyx]
      · simp [h1, h2]
  have hsize : ((t.set_column x a).set_column y b).m_size =
      ((t.set_column y b).set_column x a).m_size := rfl
  cases hA : (t.set_column x a).set_column y b with
  | mk s1 c1 =>
    cases hB : (t.set_column y b).set_column x a with
    | mk s2 c2 =>
      rw [hA, hB] at hcols hsize
      simp only at hcols hsize
      rw [hcols, hsize]

theorem dispatch_congr {K : Type} (env : t_env) (generic : t_process_column_generic K)
    (hgen : generic_reads_scratch generic) (q1 q2 : t_process_state K)
    (h : scratch_eq q1 q2) (f s d : t_column Nat) (w : t_column_writes) :
    _process_table_dispatch env generic f s d w q1 =
      _process_table_dispatch env generic f s d w q2 := by
  unfold _process_table_dispatch
  cases f.get_dtype
  case DTYPE_STR =>
    simp only [_process_column_string, column_loop_congr env f s q1 q2 h]
  case DTYPE_NONE => rfl
  all_goals exact hgen _ f s d w q1 q2 h

theorem has_column_of_get_column {α : Type} (t : t_data_table α) (n : String)
    (c : t_column α) (h : t.get_column n = some c) : t.has_column n := by
  unfold t_data_table.get_column at h
  unfold t_data_table.has_column
  cases hl : t.m_columns.lookup n with
  | none => simp [hl] at h
  | some v => rfl

theorem column_result_has {K : Type} (env : t_env) (generic : t_process_column_generic K)
    (ps : t_process_state K) (x : String) (r : t_column Nat × t_column_writes)
    (h : column_result env generic ps x = some r) :
    ps.m_delta_data_table.has_column x ∧ ps.m_prev_data_table.has_column x ∧
      ps.m_current_data_table.has_column x ∧ ps.m_transitions_data_table.has_column x := by
  unfold column_result at h
  cases h1 : ps.m_flattened_data_table.get_column x with
  | none => simp [h1] at h
  | some fc =>
  cases h2 : ps.m_state_data_table.get_column x with
  | none => simp [h1, h2] at h
  | some sc =>
  cases h3 : ps.m_delta_data_table.get_column x with
  | none => simp [h1, h2, h3] at h
  | some dc =>
  cases h4 : ps.m_prev_data_table.get_column x with
  | none => simp [h1, h2, h3, h4] at h
  | some pc =>
  cases h5 : ps.m_current_data_table.get_column x with
  | none => simp [h1, h2, h3, h4, h5] at h
  | some cc =>
  cases h6 : ps.m_transitions_data_table.get_column x with
  | none => simp [h1, h2, h3, h4, h5, h6] at h
  | some tc =>
    exact ⟨has_column_of_get_column _ _ _ h3, has_column_of_get_column _ _ _ h4,
      has_column_of_get_column _ _ _ h5, has_column_of_get_column _ _ _ h6⟩

theorem column_result_store_ne {K : Type} (env : t_env)
    (generic : t_process_column_generic K) (hgen : generic_reads_scratch generic)
    (ps : t_process_state K) (x y : String) (r : t_column Nat × t_column_writes)
    (h : x ≠ y) :
    column_result env generic (column_store ps y r) x = column_result env generic ps x := by
  have hd : ∀ f s d w, _process_table_dispatch env generic f s d w (column_store ps y r) =
      _process_table_dispatch env generic f s d w ps :=
    fun f s d w =>
      dispatch_congr env generic hgen (column_store ps y r) ps ⟨rfl, rfl, rfl, rfl⟩ f s d w
  unfold column_result
  simp only [column_store, get_column_set_column_ne _ _ _ _ h]
  simp only [column_store] at hd
  simp only [hd]

theorem column_store_comm {K : Type} (ps : t_process_state K) (x y : String)
    (rx ry : t_column Nat × t_column_writes) (h : x ≠ y)
    (hx : ps.m_delta_data_table.has_column x ∧ ps.m_prev_data_table.has_column x ∧
      ps.m_current_data_table.has_column x ∧ ps.m_transitions_data_table.has_column x)
    (hy : ps.m_delta_data_table.has_column y ∧ ps.m_prev_data_table.has_column y ∧
      ps.m_current_data_table.has_column y ∧ ps.m_transitions_data_table.has_column y) :
    column_store (column_store ps x rx) y ry = column_store (column_store ps y ry) x rx := by
  simp only [column_store]
  rw [set_column_comm _ x y _ _ h hx.1 hy.1, set_column_comm _ x y _ _ h hx.2.1 hy.2.1,
    set_column_comm _ x y _ _ h hx.2.2.1 hy.2.2.1,
    set_column_comm _ x y _ _ h hx.2.2.2 hy.2.2.2]

theorem process_table_column_comm {K : Type} (env : t_env)
    (generic : t_process_column_generic K) (hgen : generic_reads_scratch generic)
    (ps : t_process_state K) (x y : String) :
    (_process_table_column env generic ps x).bind
        (fun ps1 => _process_table_column env generic ps1 y) =
      (_process_table_column env generic ps y).bind
        (fun ps1 => _process_table_column env generic ps1 x) := by
  by_cases h : x = y
  · subst h; rfl
  · have hyx : y ≠ x := fun e => h e.symm
    simp only [process_table_column_eq]
    cases hx : column_result env generic ps x with
    | none =>
      cases hy : column_result env generic ps y with
      | none => rfl
      | some ry =>
        simp only [Option.map_none', Option.none_bind, Option.map_some', Option.some_bind,
          column_result_store_ne env generic hgen ps x y ry h, hx]
    | some rx =>
      cases hy : column_result env generic ps y with
      | none =>
        simp only [Option.map_none', Option.none_bind, Option.map_some', Option.some_bind,
          column_result_store_ne env generic hgen ps y x rx hyx, hy]
      | some ry =>
        simp only [Option.map_some', Option.some_bind,
          column_result_store_ne env generic hgen ps y x rx hyx,
          column_result_store_ne env generic hgen ps x y ry h, hx, hy]
        rw [column_store_comm ps x y rx ry h (column_result_has env generic ps x rx hx)
          (column_result_has env generic ps y ry hy)]

theorem process_table_columns_perm_aux {K : Type} (env : t_env)
    (generic : t_process_column_generic K) (hgen : generic_reads_scratch generic)
    {names1 names2 : List String} (hperm : names1.Perm names2) :
    ∀ ps : t_process_state K,
      _process_table_columns env generic names1 ps =
        _process_table_columns env generic names2 ps := by
  induction hperm with
  | nil => intro ps; rfl
  | cons x _ ih =>
    intro ps
    simp only [_process_table_columns]
    congr 1
    funext ps1
    exact ih ps1
  | swap x y l =>
    intro ps
    simp only [_process_table_columns]
    rw [← Option.bind_assoc, ← Option.bind_assoc,
      process_table_column_comm env generic hgen ps y x]
  | trans _ _ ih1 ih2 =>
    intro ps
    exact (ih1 ps).trans (ih2 ps)

theorem process_table_columns_frame {K : Type} (env : t_env)
    (generic : t_process_column_generic K) (names : List String) :
    ∀ ps ps1 : t_process_state K, _process_table_columns env generic names ps = some ps1 →
      ps1.m_flattened_data_table = ps.m_flattened_data_table ∧
      ps1.m_state_data_table = ps.m_state_data_table ∧
      ps1.m_existed_data_table = ps.m_existed_data_table ∧
      scratch_eq ps1 ps := by
  induction names with
  | nil =>
    intro ps ps1 h
    cases h
    exact ⟨rfl, rfl, rfl, rfl, rfl, rfl, rfl⟩
  | cons x rest ih =>
    intro ps ps1 h
    simp only [_process_table_columns, process_table_column_eq] at h
    cases hx : column_result env generic ps x with
    | none => simp [hx] at h
    | some rx =>
      simp only [hx, Option.map_some', Option.some_bind] at h
      obtain ⟨a1, a2, a3, b1, b2, b3, b4⟩ := ih _ ps1 h
      exact ⟨a1, a2, a3, b1, b2, b3, b4⟩

theorem process_table_columns_untouched {K : Type} (env : t_env)
    (generic : t_process_column_generic K) (names : List String) :
    ∀ ps ps1 : t_process_state K, _process_table_columns env generic names ps = some ps1 →
      ∀ y, y ∉ names →
        ps1.m_delta_data_table.get_column y = ps.m_delta_data_table.get_column y ∧
        ps1.m_prev_data_table.get_column y = ps.m_prev_data_table.get_column y ∧
        ps1.m_current_data_table.get_column y = ps.m_current_data_table.get_column y ∧
        ps1.m_transitions_data_table.get_column y =
          ps.m_transitions_data_table.get_column y := by
  induction names with
  | nil =>
    intro ps ps1 h y _
    cases h
    exact ⟨rfl, rfl, rfl, rfl⟩
  | cons x rest ih =>
    intro ps ps1 h y hy
    simp only [_process_table_columns, process_table_column_eq] at h
    cases hx : column_result env generic ps x with
    | none => simp [hx] at h
    | some rx =>
      simp only [hx, Option.map_some', Option.some_bind] at h
      have hyx : y ≠ x := fun e => hy (e ▸ List.mem_cons_self _ _)
      obtain ⟨a1, a2, a3, a4⟩ := ih _ ps1 h y (fun e => hy (List.mem_cons_of_mem _ e))
      simp only [column_store] at a1 a2 a3 a4
      rw [get_column_set_column_ne _ _ _ _ hyx] at a1 a2 a3 a4
      exact ⟨a1, a2, a3, a4⟩

/-- C17: for a fixed flattened batch, master table and scratch state, the column loop of
`_process_table` run over any permutation of the column list gives the same result:
the same prev, current, transitions and delta tables (the whole process state is the
same, and the loop aborts for one order exactly when it aborts for the other).  The
loop leaves the flattened batch, the master table, the existed table and the scratch
vectors unchanged and writes, in the four tables, only columns named in the list.  The
typed routine of the other kinds is assumed to read only the scratch vectors of the
process state, as the string routine does. -/
theorem process_table_columns_order_independent {K : Type} (env : t_env)
    (generic : t_process_column_generic K) (hgen : generic_reads_scratch generic)
    (names1 names2 : List String) (hperm : names1.Perm names2) (ps : t_process_state K) :
    _process_table_columns env generic names1 ps =
        _process_table_columns env generic names2 ps ∧
      ∀ ps1, _process_table_columns env generic names1 ps = some ps1 →
        ps1.m_flattened_data_table = ps.m_flattened_data_table ∧
        ps1.m_state_data_table = ps.m_state_data_table ∧
        ps1.m_existed_data_table = ps.m_existed_data_table ∧
        scratch_eq ps1 ps ∧
        ∀ y, y ∉ names1 →
          ps1.m_delta_data_table.get_column y = ps.m_delta_data_table.get_column y ∧
          ps1.m_prev_data_table.get_column y = ps.m_prev_data_table.get_column y ∧
          ps1.m_current_data_table.get_column y = ps.m_current_data_table.get_column y ∧
          ps1.m_transitions_data_table.get_column y =
            ps.m_transitions_data_table.get_column y := by
  refine ⟨process_table_columns_perm_aux env generic hgen hperm ps, ?_⟩
  intro ps1 h
  obtain ⟨a1, a2, a3, a4⟩ := process_table_columns_frame env generic names1 ps ps1 h
  exact ⟨a1, a2, a3, a4, process_table_columns_untouched env generic names1 ps ps1 h⟩

/-- C17, witness: the two string columns `s` and `u` of the example, in both orders. -/
theorem process_table_columns_order_independent_witness :
    _process_table_columns t_env.off generic_idle ["s", "u"] two_column_ps =
        _process_table_columns t_env.off generic_idle ["u", "s"] two_column_ps ∧
      ∀ ps1, _process_table_columns t_env.off generic_idle ["s", "u"] two_column_ps =
          some ps1 →
        ps1.m_flattened_data_table = two_column_ps.m_flattened_data_table ∧
        ps1.m_state_data_table = two_column_ps.m_state_data_table ∧
        ps1.m_existed_data_table = two_column_ps.m_existed_data_table ∧
        scratch_eq ps1 two_column_ps ∧
        ∀ y, y ∉ ["s", "u"] →
          ps1.m_delta_data_table.get_column y =
            two_column_ps.m_delta_data_table.get_column y ∧
          ps1.m_prev_data_table.get_column y =
            two_column_ps.m_prev_data_table.get_column y ∧
          ps1.m_current_data_table.get_column y =
            two_column_ps.m_current_data_table.get_column y ∧
          ps1.m_transitions_data_table.get_column y =
            two_column_ps.m_transitions_data_table.get_column y :=
  process_table_columns_order_independent t_env.off generic_idle
    (fun _ _ _ _ _ _ _ _ => rfl) ["s", "u"] ["u", "s"] (List.Perm.swap "u" "s" [])
    two_column_ps

theorem two_column_ps_runs :
    (_process_table_columns t_env.off generic_idle ["s", "u"] two_column_ps).isSome = true := by
  decide

/-! ## The input-port map -/

theorem lookup_map_replace_port {K : Type} (ports : List (Nat × t_pkeyed_table K))
    (n n1 : Nat) (c : t_pkeyed_table K) :
    (ports.map (fun p => if p.1 == n then (p.1, c) else p)).lookup n1 =
      if n1 = n then (ports.lookup n).map (fun _ => c) else ports.lookup n1 := by
  induction ports with
  | nil => simp
  | cons p rest ih =>
    obtain ⟨k, v⟩ := p
    by_cases hk : k = n
    · subst hk
      by_cases h1 : n1 = k
      · subst h1; simp [List.lookup_cons]
      · simp only [List.map_cons, beq_self_eq_true, if_true, List.lookup_cons, ih, h1, if_false]
        have : (n1 == k) = false := by simpa using h1
        simp [this]
    · have hkn : (k == n) = false := by simpa using hk
      simp only [List.map_cons, hkn, Bool.false_eq_true, if_false, List.lookup_cons, ih]
      by_cases h1 : n1 = n
      · subst h1
        have : (n1 == k) = false := by simpa using (fun h => hk (h.symm))
        simp [this]
      · simp only [h1, if_false]

theorem lookup_set_input_port {K : Type} (ports : List (Nat × t_pkeyed_table K))
    (n n1 : Nat) (c : t_pkeyed_table K) :
    (set_input_port ports n c).lookup n1 =
      if n1 = n then some c else ports.lookup n1 := by
  unfold set_input_port has_input_port
  by_cases h : (ports.lookup n).isSome = true
  · simp only [h, if_true, lookup_map_replace_port]
    split
    · obtain ⟨v, hv⟩ := Option.isSome_iff_exists.mp h
      simp [hv]
    · rfl
  · simp only [h, Bool.false_eq_true, if_false, List.lookup_append]
    have hnone : ports.lookup n = none := by
      cases hl : ports.lookup n with
      | none => rfl
      | some v => simp [hl] at h
    by_cases h1 : n1 = n
    · subst h1; simp [hnone, List.lookup_cons]
    · have : (n1 == n) = false := by simpa using h1
      simp [h1, List.lookup_cons, this]

theorem lookup_erase_input_port_ne {K : Type} (ports : List (Nat × t_pkeyed_table K))
    (n n1 : Nat) (h : n1 ≠ n) :
    (erase_input_port ports n).lookup n1 = ports.lookup n1 := by
  unfold erase_input_port
  induction ports with
  | nil => rfl
  | cons p rest ih =>
    obtain ⟨k, v⟩ := p
    by_cases hk : k = n
    · subst hk
      have h1 : (n1 == k) = false := by simpa using h
      simp [List.filter_cons, List.lookup_cons, h1, ih]
    · have hkn : (k == n) = false := by simpa using hk
      simp only [List.filter_cons, hkn, Bool.not_false, if_true, List.lookup_cons, ih]

theorem lookup_erase_input_port_self {K : Type} (ports : List (Nat × t_pkeyed_table K))
    (n : Nat) : (erase_input_port ports n).lookup n = none := by
  unfold erase_input_port
  induction ports with
  | nil => rfl
  | cons p rest ih =>
    obtain ⟨k, v⟩ := p
    by_cases hk : k = n
    · subst hk
      simp [List.filter_cons, ih]
    · have hkn : (k == n) = false := by simpa using hk
      have hnk : (n == k) = false := by simpa using (fun h => hk (h.symm))
      simp only [List.filter_cons, hkn, Bool.not_false, if_true, List.lookup_cons, hnk, ih]

/-! ## The engine -/

theorem process_table_members {G K : Type} [DecidableEq K] (x : t_externals G K)
    (env : t_env) (g : t_gnode G K) (port_id : Nat) (r : t_process_table_result K)
    (g1 : t_gnode G K) (h : _process_table x env g port_id = some (r, g1)) :
    g1.m_init = g.m_init ∧ g1.m_last_input_port_id = g.m_last_input_port_id ∧
      g1.m_input_schema = g.m_input_schema ∧
      (g1.m_input_ports = g.m_input_ports ∨
        ∃ input_port, g.m_input_ports.lookup port_id = some input_port ∧
          g1.m_input_ports = set_input_port g.m_input_ports port_id input_port.release) := by
  unfold _process_table at h
  simp only at h
  cases hl : g.m_input_ports.lookup port_id with
  | none =>
    simp only [hl] at h
    cases h
    exact ⟨rfl, rfl, rfl, Or.inl rfl⟩
  | some input_port =>
    simp only [hl] at h
    split at h
    · cases h
      exact ⟨rfl, rfl, rfl, Or.inl rfl⟩
    · split at h
      · cases h
        exact ⟨rfl, rfl, rfl, Or.inr ⟨input_port, rfl, rfl⟩⟩
      · cases ho : _process_table_incremental env x.process_column g.m_expression_map
            g.m_output_schema.columns (x.get_table g.m_gstate) (x.flatten input_port)
            (row_lookups x g.m_gstate (x.flatten input_port))
            g.m_oports.PSP_PORT_DELTA g.m_oports.PSP_PORT_PREV g.m_oports.PSP_PORT_CURRENT
            g.m_oports.PSP_PORT_TRANSITIONS g.m_oports.PSP_PORT_EXISTED with
        | none => simp [ho] at h
        | some out =>
          simp only [ho, Option.map_some', Option.some.injEq, Prod.mk.injEq] at h
          obtain ⟨-, h2⟩ := h
          subst h2
          exact ⟨rfl, rfl, rfl, Or.inr ⟨input_port, rfl, rfl⟩⟩

theorem process_members {G K : Type} [DecidableEq K] (x : t_externals G K)
    (env : t_env) (g : t_gnode G K) (port_id : Nat) (b : Bool)
    (g1 : t_gnode G K) (h : g.process x env port_id = some (b, g1)) :
    g1.m_init = g.m_init ∧ g1.m_last_input_port_id = g.m_last_input_port_id ∧
      g1.m_input_schema = g.m_input_schema ∧
      (g1.m_input_ports = g.m_input_ports ∨
        ∃ input_port, g.m_input_ports.lookup port_id = some input_port ∧
          g1.m_input_ports = set_input_port g.m_input_ports port_id input_port.release) := by
  unfold t_gnode.process at h
  split at h
  · cases hp : _process_table x env g port_id with
    | none => simp [hp] at h
    | some r =>
      obtain ⟨res, g2⟩ := r
      simp only [hp, Option.map_some', Option.some.injEq, Prod.mk.injEq] at h
      obtain ⟨-, h2⟩ := h
      have hm := process_table_members x env g port_id res g2 hp
      cases hf : res.m_flattened_data_table with
      | none =>
        simp only [hf] at h2
        subst h2
        exact hm
      | some fl =>
        simp only [hf, notify_contexts] at h2
        subst h2
        exact hm
  · cases h

theorem call_keeps_port_zero {G K : Type} [DecidableEq K] [Inhabited K]
    (x : t_externals G K) (env : t_env) (g g1 : t_gnode G K) (c : t_gnode_call K)
    (hc : c ≠ t_gnode_call.remove_input_port 0) (h : g.call x env c = some g1)
    (h0 : has_input_port g.m_input_ports 0 = true) :
    has_input_port g1.m_input_ports 0 = true := by
  unfold has_input_port at h0 ⊢
  cases c with
  | make_input_port =>
    simp only [t_gnode.call, t_gnode.make_input_port] at h
    split at h
    · simp only [Option.map_some', Option.some.injEq] at h
      subst h
      simp only [lookup_set_input_port]
      split
      · rfl
      · exact h0
    · cases h
  | remove_input_port port_id =>
    have hne : port_id ≠ 0 := fun e => hc (e ▸ rfl)
    simp only [t_gnode.call, t_gnode.remove_input_port] at h
    split at h
    · split at h
      · cases h
        simp only [lookup_erase_input_port_ne _ _ _ (Ne.symm hne)]
        exact h0
      · cases h
        exact h0
    · cases h
  | send port_id fragments =>
    simp only [t_gnode.call, t_gnode.send] at h
    split at h
    · split at h
      · cases h
        exact h0
      · cases h
        simp only [lookup_set_input_port]
        split
        · rfl
        · exact h0
    · cases h
  | process port_id =>
    simp only [t_gnode.call] at h
    cases hp : g.process x env port_id with
    | none => simp [hp] at h
    | some r =>
      obtain ⟨b, g2⟩ := r
      simp only [hp, Option.map_some', Option.some.injEq] at h
      subst h
      obtain ⟨-, -, -, hports⟩ := process_members x env g port_id b g2 hp
      rcases hports with he | ⟨t, -, he⟩
      · rw [he]; exact h0
      · rw [he, lookup_set_input_port]
        split
        · rfl
        · exact h0

theorem calls_keep_port_zero {G K : Type} [DecidableEq K] [Inhabited K]
    (x : t_externals G K) (env : t_env) (calls : List (t_gnode_call K)) :
    ∀ g g1 : t_gnode G K, t_gnode.calls x env g calls = some g1 →
      (∀ c, c ∈ calls → c ≠ t_gnode_call.remove_input_port 0) →
      has_input_port g.m_input_ports 0 = true →
      has_input_port g1.m_input_ports 0 = true := by
  induction calls with
  | nil =>
    intro g g1 h _ h0
    cases h
    exact h0
  | cons c rest ih =>
    intro g g1 h hno h0
    simp only [t_gnode.calls] at h
    cases hc : g.call x env c with
    | none => simp [hc] at h
    | some g2 =>
      simp only [hc, Option.some_bind] at h
      exact ih g2 g1 h (fun c1 hc1 => hno c1 (List.mem_cons_of_mem _ hc1))
        (call_keeps_port_zero x env g g2 c (hno c (List.mem_cons_self _ _)) hc h0)

/-- C14 (counterexample): from `init()`, the call `remove_input_port(0)` removes input
port 0: the input-port map no longer contains it. -/
theorem remove_input_port_zero_removes_main_port :
    ((t_gnode.init example_externals s_schema s_schema).calls example_externals t_env.off
        [t_gnode_call.remove_input_port 0]).map
      (fun g => (has_input_port g.m_input_ports 0, g.num_input_ports)) =
      some (false, 0) := by
  decide

/-- C14 (amended): in every state reached from `init()` by a sequence of
`make_input_port`, `remove_input_port(id)` with `id` other than 0, `send` and `process`
calls, the input-port map contains port 0. -/
theorem input_port_zero_present {G K : Type} [DecidableEq K] [Inhabited K]
    (x : t_externals G K) (env : t_env) (input_schema output_schema : t_schema)
    (calls : List (t_gnode_call K)) (g : t_gnode G K)
    (h : (t_gnode.init x input_schema output_schema).calls x env calls = some g)
    (hno : ∀ c, c ∈ calls → c ≠ t_gnode_call.remove_input_port 0) :
    has_input_port g.m_input_ports 0 = true :=
  calls_keep_port_zero x env calls _ g h hno rfl

/-- C14 (amended), witness: a side port made and removed, then a batch sent to port 0
and processed. -/
theorem input_port_zero_present_witness :
    ∃ g, (t_gnode.init example_externals s_schema s_schema).calls example_externals
        t_env.off example_calls = some g ∧
      has_input_port g.m_input_ports 0 = true := by
  have hsome : ((t_gnode.init example_externals s_schema s_schema).calls example_externals
      t_env.off example_calls).isSome = true := by decide
  obtain ⟨g, hg⟩ := Option.isSome_iff_exists.mp hsome
  refine ⟨g, hg, input_port_zero_present example_externals t_env.off s_schema s_schema
    example_calls g hg ?_⟩
  intro c hc
  simp only [example_calls, List.mem_cons, List.mem_singleton, List.not_mem_nil,
    or_false] at hc
  rcases hc with h | h | h | h <;> subst h <;> intro e <;> cases e

/-- C12 (counterexample): the three insert rows of scenario S1 sent to port 0 of a
freshly initialised engine (empty master mapping) and processed: `process` returns
true and the existed output port holds 0 rows, not 3. -/
theorem process_first_batch_existed_empty :
    ((t_gnode.init example_externals s_schema s_schema).calls example_externals t_env.off
        [t_gnode_call.send 0 three_inserts]).bind
      (fun g => (g.process example_externals t_env.off 0).map
        (fun r => (r.1, r.2.m_oports.PSP_PORT_EXISTED.m_size,
          example_externals.mapping_size r.2.m_gstate))) =
      some (true, 0, 3) := by
  decide

/-- C12 (amended): insert-only first batch: after sending rows to an existing input port
of an initialised engine whose master mapping is empty, so that the port holds at least
one row, `process` takes the first-batch path and returns true with `was_updated` true.
The flattened batch (with the expressions computed on it when there are any) is handed
to `update_master_table`, which gives the new master state; the batch is set on the
flattened output port and every output port is then released, so all six output ports,
the existed port (port 5) among them, hold no rows; the input port is released. -/
theorem process_first_batch_existed {G K : Type} [DecidableEq K] (x : t_externals G K)
    (env : t_env) (g : t_gnode G K) (port_id : Nat)
    (fragments input_port : t_pkeyed_table K)
    (hinit : g.m_init = true)
    (hport : g.m_input_ports.lookup port_id = some input_port)
    (hrows : (x.port_send input_port fragments).num_rows ≠ 0)
    (hmap : x.mapping_size g.m_gstate = 0) :
    ∃ g1 g2 flattened, g.send x port_id fragments = some g1 ∧
      g1.process x env port_id = some (true, g2) ∧
      flattened =
        (if g.m_expression_map.length > 0 then
          { (x.flatten (x.port_send input_port fragments)) with
            tot_data_table := _compute_expressions g.m_expression_map
              (x.flatten (x.port_send input_port fragments)).tot_data_table }
        else x.flatten (x.port_send input_port fragments)) ∧
      g2.m_gstate = x.update_master_table g.m_gstate flattened ∧
      g2.m_oports = release_outputs { g.m_oports with PSP_PORT_FLATTENED := flattened } ∧
      g2.m_oports.PSP_PORT_FLATTENED.num_rows = 0 ∧
      g2.m_oports.PSP_PORT_DELTA.num_rows = 0 ∧
      g2.m_oports.PSP_PORT_PREV.num_rows = 0 ∧
      g2.m_oports.PSP_PORT_CURRENT.num_rows = 0 ∧
      g2.m_oports.PSP_PORT_TRANSITIONS.num_rows = 0 ∧
      g2.m_oports.PSP_PORT_EXISTED.m_size = 0 ∧
      g2.m_input_ports.lookup port_id = some (x.port_send input_port fragments).release ∧
      g2.was_updated = true := by
  have hl : (set_input_port g.m_input_ports port_id
      (x.port_send input_port fragments)).lookup port_id =
      some (x.port_send input_port fragments) := by
    rw [lookup_set_input_port, if_pos rfl]
  have hsend : g.send x port_id fragments = some { g with
      m_input_ports :=
        set_input_port g.m_input_ports port_id (x.port_send input_port fragments) } := by
    simp only [t_gnode.send, hinit, if_true, hport]
  have hproc : ∃ g2, t_gnode.process x env { g with
      m_input_ports :=
        set_input_port g.m_input_ports port_id (x.port_send input_port fragments) }
        port_id = some (true, g2) ∧
      g2.m_gstate = x.update_master_table g.m_gstate
        (if g.m_expression_map.length > 0 then
          { (x.flatten (x.port_send input_port fragments)) with
            tot_data_table := _compute_expressions g.m_expression_map
              (x.flatten (x.port_send input_port fragments)).tot_data_table }
        else x.flatten (x.port_send input_port fragments)) ∧
      g2.m_oports = release_outputs { g.m_oports with
        PSP_PORT_FLATTENED :=
          (if g.m_expression_map.length > 0 then
            { (x.flatten (x.port_send input_port fragments)) with
              tot_data_table := _compute_expressions g.m_expression_map
                (x.flatten (x.port_send input_port fragments)).tot_data_table }
          else x.flatten (x.port_send input_port fragments)) } ∧
      g2.m_input_ports = set_input_port
        (set_input_port g.m_input_ports port_id (x.port_send input_port fragments)) port_id
        (x.port_send input_port fragments).release ∧
      g2.was_updated = true := by
    simp only [t_gnode.process, hinit, if_true, _process_table, hl, hrows, if_false, hmap,
      Option.map_some', notify_contexts]
    exact ⟨_, rfl, rfl, rfl, rfl, rfl⟩
  obtain ⟨g2, h2, hgs, hop, hip, hwu⟩ := hproc
  refine ⟨_, g2, _, hsend, h2, rfl, hgs, hop, ?_, ?_, ?_, ?_, ?_, ?_, ?_, hwu⟩
  · rw [hop]; rfl
  · rw [hop]; rfl
  · rw [hop]; rfl
  · rw [hop]; rfl
  · rw [hop]; rfl
  · rw [hop]; rfl
  · rw [hip, lookup_set_input_port, if_pos rfl]

/-- C12 (amended), witness: the three insert rows of scenario S1 on a fresh engine. -/
theorem process_first_batch_existed_witness :
    ∃ g1 g2 flattened,
      (t_gnode.init example_externals s_schema s_schema).send example_externals 0
        three_inserts = some g1 ∧
      g1.process example_externals t_env.off 0 = some (true, g2) ∧
      flattened =
        (if (t_gnode.init example_externals s_schema s_schema).m_expression_map.length > 0
          then
          { (example_externals.flatten (example_externals.port_send
              (t_pkeyed_table.of_schema s_schema) three_inserts)) with
            tot_data_table := _compute_expressions
              (t_gnode.init example_externals s_schema s_schema).m_expression_map
              (example_externals.flatten (example_externals.port_send
                (t_pkeyed_table.of_schema s_schema) three_inserts)).tot_data_table }
        else example_externals.flatten (example_externals.port_send
          (t_pkeyed_table.of_schema s_schema) three_inserts)) ∧
      g2.m_gstate = example_externals.update_master_table
        (t_gnode.init example_externals s_schema s_schema).m_gstate flattened ∧
      g2.m_oports = release_outputs
        { (t_gnode.init example_externals s_schema s_schema).m_oports with
          PSP_PORT_FLATTENED := flattened } ∧
      g2.m_oports.PSP_PORT_FLATTENED.num_rows = 0 ∧
      g2.m_oports.PSP_PORT_DELTA.num_rows = 0 ∧
      g2.m_oports.PSP_PORT_PREV.num_rows = 0 ∧
      g2.m_oports.PSP_PORT_CURRENT.num_rows = 0 ∧
      g2.m_oports.PSP_PORT_TRANSITIONS.num_rows = 0 ∧
      g2.m_oports.PSP_PORT_EXISTED.m_size = 0 ∧
      g2.m_input_ports.lookup 0 =
        some (example_externals.port_send (t_pkeyed_table.of_schema s_schema)
          three_inserts).release ∧
      g2.was_updated = true :=
  process_first_batch_existed example_externals t_env.off
    (t_gnode.init example_externals s_schema s_schema) 0 three_inserts
    (t_pkeyed_table.of_schema s_schema) rfl rfl (by decide) rfl

/-! ## The returned flag of `process` -/

theorem process_table_incremental_result {K : Type} [DecidableEq K] (env : t_env)
    (generic : t_process_column_generic K) (exprs : List t_computed_expression)
    (cols : List String) (S : t_data_table Nat) (F : t_pkeyed_table K)
    (lk : List t_rlookup) (delta prev current : t_data_table Nat)
    (transitions : t_data_table (Option t_value_transition)) (existed : t_existed_table)
    (out : t_incremental_outcome K)
    (h : _process_table_incremental env generic exprs cols S F lk delta prev current
      transitions existed = some out) :
    out.result.m_should_notify_userspace = true ∧
      out.result.m_flattened_data_table = some out.flattened_port := by
  simp only [_process_table_incremental, Option.bind_eq_some, Option.map_eq_some'] at h
  obtain ⟨r, -, ps1, -, hout⟩ := h
  subst hout
  exact ⟨rfl, rfl⟩

theorem process_table_incremental_returns {K : Type} [DecidableEq K] (env : t_env)
    (generic : t_process_column_generic K) (exprs : List t_computed_expression)
    (cols : List String) (S : t_data_table Nat) (F : t_pkeyed_table K)
    (lk : List t_rlookup) (delta prev current : t_data_table Nat)
    (transitions : t_data_table (Option t_value_transition)) (existed : t_existed_table)
    (hops : ∀ idx, idx < F.num_rows → F.psp_op idx = OP_INSERT ∨ F.psp_op idx = OP_DELETE)
    (hlookup : F.num_rows ≤ lk.length)
    (hcols : ∀ n, n ∈ cols → F.tot_data_table.has_column n ∧
      F.tot_data_table.dtype_listed n ∧ S.has_column n ∧ delta.has_column n ∧
      prev.has_column n ∧ current.has_column n ∧ transitions.has_column n)
    (hexpr : ∀ e, e ∈ exprs → e.m_dtype ≠ t_dtype.DTYPE_NONE)
    (hgen : generic_returns generic) :
    ∃ out, _process_table_incremental env generic exprs cols S F lk delta prev current
        transitions existed = some out := by
  obtain ⟨hp1, hp2, hp3, hp4⟩ := process_table_prepare_props exprs S F lk delta prev current
    transitions existed hexpr
  generalize hps : _process_table_prepare exprs S F lk delta prev current transitions
    existed = ps at hp1 hp2 hp3 hp4
  have hops1 : ops_known ps := by
    intro idx hidx
    rw [hp3]
    exact hops idx (by rw [t_data_table.num_rows] at hidx ⊢; omega)
  have hlookup1 : ps.m_flattened_data_table.num_rows ≤ ps.m_lookup.length := by
    rw [hp1, t_data_table.num_rows, hp2]; exact hlookup
  obtain ⟨st, hst, hmask⟩ := mask_result ps hops1 hlookup1
  have hready : ∀ n, n ∈ cols ++ exprs.map (·.m_expression_alias) →
      column_ready (st.process_state.set_size_transitional_data_tables st.mask.count) n := by
    intro n hn
    have hr : column_ready ps n := by
      apply hp4
      rcases List.mem_append.mp hn with h | h
      · exact Or.inl (hcols n h)
      · exact Or.inr h
    obtain ⟨a1, a2, a3, a4, a5, a6, a7⟩ := hr
    refine ⟨?_, ?_, ?_, ?_, ?_, ?_, ?_⟩
    · show st.process_state.m_flattened_data_table.tot_data_table.has_column n
      rw [hmask.flat_eq]; exact a1
    · show st.process_state.m_flattened_data_table.tot_data_table.dtype_listed n
      rw [hmask.flat_eq]; exact a2
    · show st.process_state.m_state_data_table.has_column n
      rw [hmask.state_eq]; exact a3
    · show (st.process_state.m_delta_data_table.set_size _).has_column n
      rw [hmask.delta_eq]; exact a4
    · show (st.process_state.m_prev_data_table.set_size _).has_column n
      rw [hmask.prev_eq]; exact a5
    · show (st.process_state.m_current_data_table.set_size _).has_column n
      rw [hmask.current_eq]; exact a6
    · show (st.process_state.m_transitions_data_table.set_size _).has_column n
      rw [hmask.transitions_eq]; exact a7
  obtain ⟨ps1, h1, -⟩ := process_table_columns_some env generic hgen ps st
    hmask hops1 hlookup1 (cols ++ exprs.map (·.m_expression_alias))
    (st.process_state.set_size_transitional_data_tables st.mask.count)
    ⟨rfl, rfl, rfl, rfl⟩ hmask.flat_eq hready
  simp only [_process_table_incremental, hps, hst, Option.some_bind, h1, Option.map_some']
  exact ⟨_, rfl⟩

theorem row_lookups_length {G K : Type} (x : t_externals G K) (m_gstate : G)
    (flattened : t_pkeyed_table K) :
    (row_lookups x m_gstate flattened).length = flattened.num_rows := by
  simp only [row_lookups, List.length_map, List.length_range]

theorem process_table_notify {G K : Type} [DecidableEq K] (x : t_externals G K)
    (env : t_env) (g : t_gnode G K) (port_id : Nat) (res : t_process_table_result K)
    (g1 : t_gnode G K) (h : _process_table x env g port_id = some (res, g1)) :
    (res.m_should_notify_userspace = false ↔
      (g.m_input_ports.lookup port_id = none ∨
        ∃ t, g.m_input_ports.lookup port_id = some t ∧ t.num_rows = 0)) ∧
      g1.m_was_updated = res.m_should_notify_userspace := by
  cases hl : g.m_input_ports.lookup port_id with
  | none =>
    simp only [_process_table, hl, Option.some.injEq, Prod.mk.injEq] at h
    obtain ⟨h1, h2⟩ := h
    subst h1; subst h2
    exact ⟨⟨fun _ => Or.inl rfl, fun _ => rfl⟩, rfl⟩
  | some t =>
    by_cases h0 : t.num_rows = 0
    · simp only [_process_table, hl, h0, if_true, Option.some.injEq, Prod.mk.injEq] at h
      obtain ⟨h1, h2⟩ := h
      subst h1; subst h2
      exact ⟨⟨fun _ => Or.inr ⟨t, rfl, h0⟩, fun _ => rfl⟩, rfl⟩
    · have hne : ¬ (none = some t ∨ ∃ t1, some t = some t1 ∧ t1.num_rows = 0) := by
        rintro (hc | ⟨t1, ht1, hz⟩)
        · cases hc
        · cases ht1; exact h0 hz
      by_cases hm : x.mapping_size g.m_gstate = 0
      · simp only [_process_table, hl, h0, if_false, hm, if_true, Option.some.injEq,
          Prod.mk.injEq] at h
        obtain ⟨h1, h2⟩ := h
        subst h1; subst h2
        refine ⟨⟨fun hc => ?_, fun hc => ?_⟩, rfl⟩
        · cases hc
        · rcases hc with hc | ⟨t1, ht1, hz⟩
          · cases hc
          · cases ht1; exact absurd hz h0
      · simp only [_process_table, hl, h0, if_false, hm, Option.map_eq_some',
          Prod.mk.injEq] at h
        obtain ⟨out, hout, h1, h2⟩ := h
        obtain ⟨hn, -⟩ := process_table_incremental_result _ _ _ _ _ _ _ _ _ _ _ _ out hout
        subst h1; subst h2
        refine ⟨⟨fun hc => ?_, fun hc => ?_⟩, hn.symm⟩
        · rw [hn] at hc; cases hc
        · rcases hc with hc | ⟨t1, ht1, hz⟩
          · cases hc
          · cases ht1; exact absurd hz h0

/-- C13: on an initialised engine, `process(port_id)` returns false, with `was_updated()`
false afterwards, when the input port does not exist or its table has no rows; it
returns true, with `was_updated()` true afterwards, when the port holds rows and either
the master mapping is empty (first-batch path) or the incremental path meets none of its
fatal conditions (`incremental_ready`); and whenever it returns, the returned value is
false exactly when the port does not exist or is empty, and `was_updated()` afterwards
equals the returned value. -/
theorem process_returns_false_iff {G K : Type} [DecidableEq K] (x : t_externals G K)
    (env : t_env) (g : t_gnode G K) (port_id : Nat) (hinit : g.m_init = true) :
    ((g.m_input_ports.lookup port_id = none ∨
        ∃ t, g.m_input_ports.lookup port_id = some t ∧ t.num_rows = 0) →
      ∃ g1, g.process x env port_id = some (false, g1) ∧ g1.was_updated = false) ∧
    (∀ t, g.m_input_ports.lookup port_id = some t → t.num_rows ≠ 0 →
      (x.mapping_size g.m_gstate = 0 ∨ incremental_ready x g t) →
      ∃ g1, g.process x env port_id = some (true, g1) ∧ g1.was_updated = true) ∧
    (∀ b g1, g.process x env port_id = some (b, g1) →
      (b = false ↔ (g.m_input_ports.lookup port_id = none ∨
        ∃ t, g.m_input_ports.lookup port_id = some t ∧ t.num_rows = 0)) ∧
      g1.was_updated = b) := by
  have hret : ∀ b g1, g.process x env port_id = some (b, g1) →
      (b = false ↔ (g.m_input_ports.lookup port_id = none ∨
        ∃ t, g.m_input_ports.lookup port_id = some t ∧ t.num_rows = 0)) ∧
      g1.was_updated = b := by
    intro b g1 h
    simp only [t_gnode.process, hinit, if_true, Option.map_eq_some', Prod.mk.injEq] at h
    obtain ⟨⟨res, g2⟩, hpt, hb, hg⟩ := h
    obtain ⟨h1, h2⟩ := process_table_notify x env g port_id res g2 hpt
    dsimp only at hb hg
    subst hb
    refine ⟨h1, ?_⟩
    subst hg
    cases res.m_flattened_data_table <;> exact h2
  have hsome : (∃ r, _process_table x env g port_id = some r) →
      ∃ b g1, g.process x env port_id = some (b, g1) := by
    rintro ⟨r, hr⟩
    simp only [t_gnode.process, hinit, if_true, hr, Option.map_some']
    exact ⟨_, _, rfl⟩
  refine ⟨?_, ?_, hret⟩
  · intro hc
    have hex : ∃ r, _process_table x env g port_id = some r := by
      rcases hc with hc | ⟨t, ht, hz⟩
      · simp only [_process_table, hc]
        exact ⟨_, rfl⟩
      · simp only [_process_table, ht, hz, if_true]
        exact ⟨_, rfl⟩
    obtain ⟨b, g1, hb⟩ := hsome hex
    obtain ⟨h1, h2⟩ := hret b g1 hb
    have hbf : b = false := h1.mpr hc
    subst hbf
    exact ⟨g1, hb, h2⟩
  · intro t ht hz hready
    have hex : ∃ r, _process_table x env g port_id = some r := by
      by_cases hm : x.mapping_size g.m_gstate = 0
      · simp only [_process_table, ht, hz, if_false, hm, if_true]
        exact ⟨_, rfl⟩
      · rcases hready with hc | ⟨r1, r2, r3, r4⟩
        · exact absurd hc hm
        · obtain ⟨out, hout⟩ := process_table_incremental_returns env x.process_column
            g.m_expression_map g.m_output_schema.columns (x.get_table g.m_gstate)
            (x.flatten t) (row_lookups x g.m_gstate (x.flatten t))
            g.m_oports.PSP_PORT_DELTA g.m_oports.PSP_PORT_PREV g.m_oports.PSP_PORT_CURRENT
            g.m_oports.PSP_PORT_TRANSITIONS g.m_oports.PSP_PORT_EXISTED r1
            (by rw [row_lookups_length]) r2 r3 (fun d f s dc w q _ => r4 d f s dc w q)
          simp only [_process_table, ht, hz, if_false, hm, hout, Option.map_some']
          exact ⟨_, rfl⟩
    obtain ⟨b, g1, hb⟩ := hsome hex
    obtain ⟨h1, h2⟩ := hret b g1 hb
    have hbt : b = true := by
      cases b
      · rcases h1.mp rfl with hc | ⟨t1, ht1, hz1⟩
        · rw [ht] at hc; cases hc
        · rw [ht] at ht1; cases ht1; exact absurd hz1 hz
      · rfl
    subst hbt
    exact ⟨g1, hb, h2⟩

theorem example_incremental_port_lookup :
    example_incremental_gnode.m_input_ports.lookup 0 = some example_incremental_port := rfl

theorem example_incremental_ready :
    incremental_ready example_externals example_incremental_gnode
      example_incremental_port := by
  refine ⟨?_, ?_, ?_, fun _ _ _ _ _ _ => rfl⟩
  · intro idx hidx
    have h3 : (example_externals.flatten example_incremental_port).num_rows = 3 := by decide
    rw [h3] at hidx
    interval_cases idx <;> exact Or.inl (by decide)
  · intro n hn
    have hn1 : n = "s" := by
      have : n ∈ ["s"] := hn
      exact List.mem_singleton.mp this
    subst hn1
    refine ⟨rfl, ?_, rfl, rfl, rfl, rfl, rfl⟩
    intro c hc
    have hd : ((example_externals.flatten example_incremental_port).tot_data_table.m_columns.lookup
        "s").map (·.m_dtype) = some t_dtype.DTYPE_STR := by decide
    rw [hc] at hd
    have hd1 : c.m_dtype = t_dtype.DTYPE_STR := Option.some.inj hd
    rw [hd1]
    decide
  · intro e he
    have : e ∈ ([] : List t_computed_expression) := he
    exact absurd this (List.not_mem_nil e)

/-- C13, witness: the engine of the example with a non-empty master mapping and three
rows on port 0: the incremental path runs, `process(0)` returns true and `was_updated()`
is true afterwards. -/
theorem process_returns_false_iff_witness :
    ∃ g1, example_incremental_gnode.process example_externals t_env.off 0 =
        some (true, g1) ∧ g1.was_updated = true :=
  (process_returns_false_iff example_externals t_env.off example_incremental_gnode 0
    (by decide)).2.1 example_incremental_port example_incremental_port_lookup (by decide)
    (Or.inr example_incremental_ready)

/-! ## Column promotion -/

/-- C15: on the engine initialised with the input and output schema `n : INT32`,
`promote_column("n", DTYPE_INT64)` gives column `n` the type INT64 in the master table,
in the table of input port 0, in the input and output schemas and in the flattened
output port, but the tables of the delta, prev and current output ports keep the column
as INT32. -/
theorem promote_column_leaves_delta_prev_current :
    ((t_gnode.init example_externals n_schema n_schema).promote_column example_externals "n"
        t_dtype.DTYPE_INT64).map (fun g => column_dtypes example_externals g "n") =
      some [("master", some t_dtype.DTYPE_INT64),
        ("input port 0", some t_dtype.DTYPE_INT64),
        ("input schema", some t_dtype.DTYPE_INT64),
        ("output schema", some t_dtype.DTYPE_INT64),
        ("flattened", some t_dtype.DTYPE_INT64),
        ("delta", some t_dtype.DTYPE_INT32),
        ("prev", some t_dtype.DTYPE_INT32),
        ("current", some t_dtype.DTYPE_INT32)] := by
  decide

/-! ## Fresh input port ids -/

theorem has_input_port_iff_mem {K : Type} (ports : List (Nat × t_pkeyed_table K)) (n : Nat) :
    has_input_port ports n = true ↔ n ∈ ports.map Prod.fst := by
  unfold has_input_port
  induction ports with
  | nil => simp
  | cons p rest ih =>
    obtain ⟨k, v⟩ := p
    by_cases hk : n = k
    · subst hk; simp [List.lookup_cons]
    · have hb : (n == k) = false := by simpa using hk
      simp only [List.lookup_cons, hb, List.map_cons, List.mem_cons, hk, false_or]
      exact ih

theorem set_input_port_keys_of_has {K : Type} (ports : List (Nat × t_pkeyed_table K))
    (n : Nat) (c : t_pkeyed_table K) (h : has_input_port ports n = true) :
    (set_input_port ports n c).map Prod.fst = ports.map Prod.fst := by
  unfold set_input_port
  simp only [h, if_true, List.map_map]
  apply List.map_congr_left
  intro p _
  simp only [Function.comp]
  split <;> rfl

theorem set_input_port_of_not_has {K : Type} (ports : List (Nat × t_pkeyed_table K))
    (n : Nat) (c : t_pkeyed_table K) (h : has_input_port ports n = false) :
    set_input_port ports n c = ports ++ [(n, c)] := by
  unfold set_input_port
  simp only [h, Bool.false_eq_true, if_false]

theorem erase_input_port_of_not_has {K : Type} (ports : List (Nat × t_pkeyed_table K))
    (n : Nat) (h : has_input_port ports n = false) : erase_input_port ports n = ports := by
  unfold erase_input_port
  apply List.filter_eq_self.mpr
  intro p hp
  have hn : ¬ n ∈ ports.map Prod.fst := by
    intro hm
    have := (has_input_port_iff_mem ports n).mpr hm
    rw [h] at this
    cases this
  have hne : p.1 ≠ n := by
    intro e
    exact hn (e ▸ List.mem_map_of_mem Prod.fst hp)
  simpa using hne

theorem input_ports_fresh_init {G K : Type} [Inhabited K] (x : t_externals G K)
    (input_schema output_schema : t_schema) :
    input_ports_fresh (t_gnode.init x input_schema output_schema) := by
  refine ⟨rfl, ?_, ?_⟩
  · intro id h
    rw [has_input_port_iff_mem] at h
    simp only [t_gnode.init, List.map_cons, List.map_nil, List.mem_singleton] at h
    subst h
    exact Nat.le_refl _
  · simp [t_gnode.init]

theorem input_ports_fresh_set_existing {G K : Type} (g : t_gnode G K) (n : Nat)
    (c : t_pkeyed_table K) (h : input_ports_fresh g)
    (hn : has_input_port g.m_input_ports n = true) (g1 : t_gnode G K)
    (hinit : g1.m_init = g.m_init) (hlast : g1.m_last_input_port_id = g.m_last_input_port_id)
    (hports : g1.m_input_ports = set_input_port g.m_input_ports n c) :
    input_ports_fresh g1 := by
  obtain ⟨h1, h2, h3⟩ := h
  have hkeys := set_input_port_keys_of_has g.m_input_ports n c hn
  refine ⟨hinit.trans h1, ?_, ?_⟩
  · intro id hid
    rw [hlast]
    apply h2
    rw [has_input_port_iff_mem] at hid ⊢
    rw [hports, hkeys] at hid
    exact hid
  · rw [hports, hkeys]
    exact h3

theorem make_input_port_calls_cons {K : Type} (c : t_gnode_call K)
    (rest : List (t_gnode_call K)) :
    make_input_port_calls (c :: rest) =
      make_input_port_calls [c] + make_input_port_calls rest := by
  cases c <;> simp [make_input_port_calls, Nat.add_comm]

theorem make_input_port_calls_append {K : Type} (a b : List (t_gnode_call K)) :
    make_input_port_calls (a ++ b) = make_input_port_calls a + make_input_port_calls b := by
  induction a with
  | nil => simp [make_input_port_calls]
  | cons c rest ih =>
    rw [List.cons_append, make_input_port_calls_cons, ih, make_input_port_calls_cons c rest]
    omega

theorem not_has_succ_last {G K : Type} (g : t_gnode G K) (hf : input_ports_fresh g) :
    has_input_port g.m_input_ports (g.m_last_input_port_id + 1) = false := by
  rcases Bool.eq_false_or_eq_true
    (has_input_port g.m_input_ports (g.m_last_input_port_id + 1)) with hh | hh
  · have := hf.2.1 _ hh
    omega
  · exact hh

theorem make_input_port_fresh {G K : Type} [Inhabited K] (g : t_gnode G K)
    (hf : input_ports_fresh g) (hb : g.m_last_input_port_id + 1 < 2 ^ 64) :
    g.make_input_port = some (g.m_last_input_port_id + 1,
      { g with
        m_input_ports := g.m_input_ports ++
          [(g.m_last_input_port_id + 1, t_pkeyed_table.of_schema g.m_input_schema)]
        m_last_input_port_id := g.m_last_input_port_id + 1 }) := by
  simp only [t_gnode.make_input_port, hf.1, if_true, Nat.mod_eq_of_lt hb,
    set_input_port_of_not_has _ _ _ (not_has_succ_last g hf)]

theorem make_input_port_keeps_fresh {G K : Type} [Inhabited K] (g : t_gnode G K)
    (hf : input_ports_fresh g) :
    input_ports_fresh { g with
      m_input_ports := g.m_input_ports ++
        [(g.m_last_input_port_id + 1, t_pkeyed_table.of_schema g.m_input_schema)]
      m_last_input_port_id := g.m_last_input_port_id + 1 } := by
  have hnot := not_has_succ_last g hf
  obtain ⟨h1, h2, h3⟩ := hf
  refine ⟨h1, ?_, ?_⟩
  · intro id hid
    rw [has_input_port_iff_mem] at hid
    simp only [List.map_append, List.map_cons, List.map_nil, List.mem_append,
      List.mem_singleton] at hid
    show id ≤ g.m_last_input_port_id + 1
    rcases hid with hid | hid
    · have := h2 id ((has_input_port_iff_mem _ _).mpr hid)
      omega
    · omega
  · show (List.map Prod.fst (g.m_input_ports ++ _)).Nodup
    rw [List.map_append, List.map_cons, List.map_nil]
    refine List.Nodup.append h3 (List.nodup_singleton _) ?_
    intro a ha hb
    rw [List.mem_singleton] at hb
    subst hb
    have := (has_input_port_iff_mem _ _).mpr ha
    rw [hnot] at this
    cases this

theorem call_keeps_fresh {G K : Type} [DecidableEq K] [Inhabited K]
    (x : t_externals G K) (env : t_env) (g g1 : t_gnode G K) (c : t_gnode_call K)
    (h : g.call x env c = some g1) (hf : input_ports_fresh g)
    (hb : g.m_last_input_port_id + make_input_port_calls [c] < 2 ^ 64) :
    input_ports_fresh g1 ∧
      g1.m_last_input_port_id = g.m_last_input_port_id + make_input_port_calls [c] := by
  cases c with
  | make_input_port =>
    have hb1 : g.m_last_input_port_id + 1 < 2 ^ 64 := hb
    simp only [t_gnode.call, make_input_port_fresh g hf hb1, Option.map_some',
      Option.some.injEq] at h
    subst h
    exact ⟨make_input_port_keeps_fresh g hf, rfl⟩
  | remove_input_port port_id =>
    obtain ⟨h1, h2, h3⟩ := hf
    simp only [t_gnode.call, t_gnode.remove_input_port, h1, if_true] at h
    split at h
    · cases h
      refine ⟨⟨rfl, ?_, ?_⟩, rfl⟩
      · intro id hid
        apply h2
        rw [has_input_port_iff_mem] at hid ⊢
        simp only [erase_input_port] at hid
        exact (List.filter_sublist _).map Prod.fst |>.subset hid
      · simp only [erase_input_port]
        exact h3.sublist ((List.filter_sublist _).map Prod.fst)
    · cases h
      exact ⟨⟨h1, h2, h3⟩, rfl⟩
  | send port_id fragments =>
    have h1 := hf.1
    simp only [t_gnode.call, t_gnode.send, h1, if_true] at h
    cases hl : g.m_input_ports.lookup port_id with
    | none =>
      simp only [hl] at h
      cases h
      exact ⟨hf, rfl⟩
    | some input_port =>
      simp only [hl, Option.some.injEq] at h
      subst h
      refine ⟨input_ports_fresh_set_existing g port_id _ hf ?_ _ h1.symm rfl rfl, rfl⟩
      simp only [has_input_port, hl, Option.isSome_some]
  | process port_id =>
    simp only [t_gnode.call] at h
    cases hp : g.process x env port_id with
    | none => simp [hp] at h
    | some r =>
      obtain ⟨b, g2⟩ := r
      simp only [hp, Option.map_some', Option.some.injEq] at h
      subst h
      obtain ⟨m1, m2, -, hports⟩ := process_members x env g port_id b g2 hp
      refine ⟨?_, m2⟩
      rcases hports with he | ⟨t, ht, he⟩
      · obtain ⟨h1, h2, h3⟩ := hf
        refine ⟨m1.trans h1, ?_, ?_⟩
        · intro id hid
          rw [m2]
          rw [he] at hid
          exact h2 id hid
        · rw [he]
          exact h3
      · refine input_ports_fresh_set_existing g port_id _ hf ?_ _ m1 m2 he
        simp only [has_input_port, ht, Option.isSome_some]

theorem calls_keep_fresh {G K : Type} [DecidableEq K] [Inhabited K]
    (x : t_externals G K) (env : t_env) (calls : List (t_gnode_call K)) :
    ∀ g g1 : t_gnode G K, t_gnode.calls x env g calls = some g1 → input_ports_fresh g →
      g.m_last_input_port_id + make_input_port_calls calls < 2 ^ 64 →
      input_ports_fresh g1 ∧
        g1.m_last_input_port_id = g.m_last_input_port_id + make_input_port_calls calls := by
  induction calls with
  | nil =>
    intro g g1 h hf _
    cases h
    exact ⟨hf, rfl⟩
  | cons c rest ih =>
    intro g g1 h hf hb
    rw [make_input_port_calls_cons] at hb ⊢
    simp only [t_gnode.calls] at h
    cases hc : g.call x env c with
    | none => simp [hc] at h
    | some g2 =>
      simp only [hc, Option.some_bind] at h
      obtain ⟨a1, a2⟩ := call_keeps_fresh x env g g2 c hc hf (by omega)
      obtain ⟨b1, b2⟩ := ih g2 g1 h a1 (by omega)
      exact ⟨b1, by omega⟩

theorem calls_append {G K : Type} [DecidableEq K] [Inhabited K]
    (x : t_externals G K) (env : t_env) (a b : List (t_gnode_call K)) :
    ∀ g : t_gnode G K, t_gnode.calls x env g (a ++ b) =
      (t_gnode.calls x env g a).bind (fun g1 => t_gnode.calls x env g1 b) := by
  induction a with
  | nil => intro g; rfl
  | cons c rest ih =>
    intro g
    simp only [List.cons_append, t_gnode.calls]
    cases g.call x env c with
    | none => rfl
    | some g2 => exact ih g2

theorem make_calls_replicate {G K : Type} [DecidableEq K] [Inhabited K]
    (x : t_externals G K) (env : t_env) (n : Nat) :
    ∀ g : t_gnode G K, g.m_init = true → g.m_last_input_port_id + n < 2 ^ 64 →
      ∃ g1, t_gnode.calls x env g (List.replicate n t_gnode_call.make_input_port) = some g1 ∧
        g1.m_init = true ∧ g1.m_last_input_port_id = g.m_last_input_port_id + n := by
  induction n with
  | zero =>
    intro g hi _
    exact ⟨g, rfl, hi, rfl⟩
  | succ n ih =>
    intro g hi hb
    have hmod : (g.m_last_input_port_id + 1) % 2 ^ 64 = g.m_last_input_port_id + 1 :=
      Nat.mod_eq_of_lt (by omega)
    obtain ⟨g1, h1, h2, h3⟩ := ih
      { g with
        m_input_ports := set_input_port g.m_input_ports (g.m_last_input_port_id + 1)
          (t_pkeyed_table.of_schema g.m_input_schema)
        m_last_input_port_id := g.m_last_input_port_id + 1 } hi
      (by show g.m_last_input_port_id + 1 + n < 2 ^ 64; omega)
    refine ⟨g1, ?_, h2, ?_⟩
    · simp only [List.replicate_succ, t_gnode.calls, t_gnode.call, t_gnode.make_input_port,
        hi, if_true, hmod, Option.map_some', Option.some_bind]
      simp only [hi] at h1
      exact h1
    · rw [h3]
      show g.m_last_input_port_id + 1 + n = g.m_last_input_port_id + (n + 1)
      omega

/-- C23 (counterexample): the port id counter is a 64-bit unsigned integer.  From
`init()`, where `make_input_port` returns 1, after `2 ^ 64 - 1` calls of
`make_input_port` the counter is `2 ^ 64 - 1` and port 0 is in the map; the next
`make_input_port` returns the id 0, which is in the map and is not greater than the ids
returned before, and stores the new port under it: `num_input_ports` stays as it is and
port 0 holds the new port. -/
theorem make_input_port_wraps_to_port_zero :
    (t_gnode.init example_externals s_schema s_schema).make_input_port.map Prod.fst =
      some 1 ∧
    ∃ g, (t_gnode.init example_externals s_schema s_schema).calls example_externals
        t_env.off (List.replicate (2 ^ 64 - 1) t_gnode_call.make_input_port) = some g ∧
      g.m_last_input_port_id = 2 ^ 64 - 1 ∧
      has_input_port g.m_input_ports 0 = true ∧
      ∃ g1, g.make_input_port = some (0, g1) ∧
        g1.num_input_ports = g.num_input_ports ∧
        g1.m_input_ports.lookup 0 = some (t_pkeyed_table.of_schema g.m_input_schema) := by
  refine ⟨by decide, ?_⟩
  obtain ⟨g, hg, hinit, hlast⟩ := make_calls_replicate example_externals t_env.off
    (2 ^ 64 - 1) (t_gnode.init example_externals s_schema s_schema) rfl
    (by show 0 + (2 ^ 64 - 1) < 2 ^ 64; norm_num)
  have hlast1 : g.m_last_input_port_id = 2 ^ 64 - 1 := by
    rw [hlast]
    show 0 + (2 ^ 64 - 1) = 2 ^ 64 - 1
    norm_num
  have h0 : has_input_port g.m_input_ports 0 = true := by
    refine calls_keep_port_zero example_externals t_env.off _ _ g hg ?_ rfl
    intro c hc
    rw [List.eq_of_mem_replicate hc]
    intro e
    cases e
  have hid : (g.m_last_input_port_id + 1) % 2 ^ 64 = 0 := by
    rw [hlast1]
    norm_num
  refine ⟨g, hg, hlast1, h0, ?_⟩
  refine ⟨{ g with
    m_input_ports := set_input_port g.m_input_ports 0
      (t_pkeyed_table.of_schema g.m_input_schema)
    m_last_input_port_id := 0 }, ?_, ?_, ?_⟩
  · simp only [t_gnode.make_input_port, hinit, if_true, hid]
  · show (set_input_port g.m_input_ports 0 _).length = g.m_input_ports.length
    simp only [set_input_port, h0, if_true, List.length_map]
  · show (set_input_port g.m_input_ports 0 _).lookup 0 = _
    rw [lookup_set_input_port, if_pos rfl]

/-- C23 (amended): in every state reached from `init()` by a sequence of
`make_input_port`, `remove_input_port`, `send` and `process` calls that holds fewer
than `2 ^ 64 - 1` calls of `make_input_port`, the counter `m_last_input_port_id` is the
number of those calls, every id in the input-port map is at most the counter and the
map holds each id once; `make_input_port` then returns the id
`m_last_input_port_id + 1`, which is not in the map, leaves every other entry of the
map as it is, increases `num_input_ports` by one, and the id is greater than the id
returned by every `make_input_port` call of the sequence; and `remove_input_port` of an
id not in the map leaves the engine unchanged. -/
theorem input_port_ids_fresh {G K : Type} [DecidableEq K] [Inhabited K]
    (x : t_externals G K) (env : t_env) (input_schema output_schema : t_schema)
    (calls : List (t_gnode_call K)) (g : t_gnode G K)
    (h : (t_gnode.init x input_schema output_schema).calls x env calls = some g)
    (hbound : make_input_port_calls calls + 1 < 2 ^ 64) :
    g.m_last_input_port_id = make_input_port_calls calls ∧
    (∀ id, has_input_port g.m_input_ports id = true → id ≤ g.m_last_input_port_id) ∧
    (g.m_input_ports.map Prod.fst).Nodup ∧
    (∃ g1, g.make_input_port = some (g.m_last_input_port_id + 1, g1) ∧
      has_input_port g.m_input_ports (g.m_last_input_port_id + 1) = false ∧
      has_input_port g1.m_input_ports (g.m_last_input_port_id + 1) = true ∧
      (∀ id, id ≠ g.m_last_input_port_id + 1 →
        g1.m_input_ports.lookup id = g.m_input_ports.lookup id) ∧
      g1.num_input_ports = g.num_input_ports + 1 ∧
      ∀ pre post gp idp gp1, calls = pre ++ t_gnode_call.make_input_port :: post →
        (t_gnode.init x input_schema output_schema).calls x env pre = some gp →
        gp.make_input_port = some (idp, gp1) → idp < g.m_last_input_port_id + 1) ∧
    (∀ id, has_input_port g.m_input_ports id = false → g.remove_input_port id = some g) := by
  have hinit0 : (t_gnode.init x input_schema output_schema).m_last_input_port_id = 0 := rfl
  obtain ⟨hf, hlast⟩ := calls_keep_fresh x env calls _ g h
    (input_ports_fresh_init x input_schema output_schema) (by rw [hinit0]; omega)
  rw [hinit0, Nat.zero_add] at hlast
  have hnot := not_has_succ_last g hf
  have hmk := make_input_port_fresh g hf (by rw [hlast]; exact hbound)
  refine ⟨hlast, hf.2.1, hf.2.2, ?_, ?_⟩
  · refine ⟨_, hmk, hnot, ?_, ?_, ?_, ?_⟩
    · rw [has_input_port_iff_mem]
      simp only [List.map_append, List.map_cons, List.map_nil, List.mem_append,
        List.mem_singleton, or_true]
    · intro id hid
      have hb : (id == g.m_last_input_port_id + 1) = false := by simpa using hid
      simp only [List.lookup_append, List.lookup_cons, hb, List.lookup_nil, Option.or_none]
    · simp only [t_gnode.num_input_ports, List.length_append, List.length_singleton]
    · intro pre post gp idp gp1 hsplit hpre hmkp
      have hcount : make_input_port_calls calls =
          make_input_port_calls pre + (1 + make_input_port_calls post) := by
        rw [hsplit, make_input_port_calls_append, make_input_port_calls_cons]
        simp [make_input_port_calls]
      obtain ⟨fp, hplast⟩ := calls_keep_fresh x env pre _ gp hpre
        (input_ports_fresh_init x input_schema output_schema) (by rw [hinit0]; omega)
      rw [hinit0, Nat.zero_add] at hplast
      rw [make_input_port_fresh gp fp (by rw [hplast]; omega)] at hmkp
      simp only [Option.some.injEq, Prod.mk.injEq] at hmkp
      obtain ⟨hid, -⟩ := hmkp
      omega
  · intro id hid
    simp only [t_gnode.remove_input_port, hf.1, if_true, hid, Bool.false_eq_true, if_false]

/-- C23 (amended), witness: the engine of the example after a side port was made (id 1)
and removed again, and a batch sent to port 0 and processed. -/
theorem input_port_ids_fresh_witness :
    ∃ g, (t_gnode.init example_externals s_schema s_schema).calls example_externals
        t_env.off example_calls = some g ∧
      g.m_last_input_port_id = make_input_port_calls example_calls ∧
      (∀ id, has_input_port g.m_input_ports id = true → id ≤ g.m_last_input_port_id) ∧
      (g.m_input_ports.map Prod.fst).Nodup ∧
      (∃ g1, g.make_input_port = some (g.m_last_input_port_id + 1, g1) ∧
        has_input_port g.m_input_ports (g.m_last_input_port_id + 1) = false ∧
        has_input_port g1.m_input_ports (g.m_last_input_port_id + 1) = true ∧
        (∀ id, id ≠ g.m_last_input_port_id + 1 →
          g1.m_input_ports.lookup id = g.m_input_ports.lookup id) ∧
        g1.num_input_ports = g.num_input_ports + 1 ∧
        ∀ pre post gp idp gp1, example_calls = pre ++ t_gnode_call.make_input_port :: post →
          (t_gnode.init example_externals s_schema s_schema).calls example_externals
            t_env.off pre = some gp →
          gp.make_input_port = some (idp, gp1) → idp < g.m_last_input_port_id + 1) ∧
      (∀ id, has_input_port g.m_input_ports id = false →
        g.remove_input_port id = some g) := by
  have hsome : ((t_gnode.init example_externals s_schema s_schema).calls example_externals
      t_env.off example_calls).isSome = true := by decide
  obtain ⟨g, hg⟩ := Option.isSome_iff_exists.mp hsome
  exact ⟨g, hg, input_port_ids_fresh example_externals t_env.off s_schema s_schema
    example_calls g hg (by decide)⟩

/-! ## Output slots of the mask loop and of the string routine -/

theorem kept_below_all {K : Type} (ps : t_process_state K) (k : Nat)
    (h : ∀ i, i < k → row_kept ps i = true) : kept_below ps k = k := by
  induction k with
  | zero => simp [kept_below]
  | succ k ih =>
    rw [kept_below_succ, ih (fun i hi => h i (by omega)), h k (by omega)]
    simp

theorem row_kept_false_not_insert {K : Type} (ps : t_process_state K) (k : Nat)
    (h : row_kept ps k = false) : row_is_insert ps k = false := by
  rcases Bool.eq_false_or_eq_true (row_is_insert ps k) with hi | hi
  · rw [row_kept_of_insert ps k hi] at h
    cases h
  · exact hi

theorem column_closed_skip {K : Type} [DecidableEq K] (env : t_env)
    (fcolumn scolumn : t_column Nat) (ps : t_process_state K) (w : t_column_writes) (k : Nat)
    (h : row_kept ps k = false) : column_step_closed env fcolumn scolumn ps w k = w := by
  simp only [column_step_closed, row_kept_false_not_insert ps k h, h, Bool.false_eq_true,
    if_false]

theorem column_closed_slot {K : Type} [DecidableEq K] (env : t_env)
    (fcolumn scolumn : t_column Nat) (ps : t_process_state K) (w : t_column_writes) (k : Nat)
    (h : row_kept ps k = true) :
    (column_step_closed env fcolumn scolumn ps w k).pcolumn.is_valid (kept_below ps k) =
      (if row_is_insert ps k then row_prev_valid scolumn ps k
        else scolumn.is_valid (row_lookup_idx ps k)) ∧
    (column_step_closed env fcolumn scolumn ps w k).ccolumn.is_valid (kept_below ps k) =
      (if row_is_insert ps k then (fcolumn.is_valid k || row_prev_valid scolumn ps k)
        else scolumn.is_valid (row_lookup_idx ps k)) := by
  rcases Bool.eq_false_or_eq_true (row_is_insert ps k) with hi | hi
  · simp only [column_step_closed, hi, if_true, t_column.is_valid, t_column.set_valid,
      Function.update_same, and_self]
  · simp only [column_step_closed, hi, h, Bool.false_eq_true, if_false, if_true,
      t_column.is_valid, t_column.set_valid, Function.update_same, and_self]

theorem column_closed_frame_cdata {K : Type} [DecidableEq K] (env : t_env)
    (fcolumn scolumn : t_column Nat) (ps : t_process_state K) (w : t_column_writes)
    (k j : Nat) (hne : j ≠ kept_below ps k) :
    (column_step_closed env fcolumn scolumn ps w k).ccolumn.get_nth j = w.ccolumn.get_nth j := by
  unfold column_step_closed
  split
  · simp only [t_column.get_nth, t_column.set_valid]
    split
    · simp only [t_column.set_nth_cstr, Function.update_noteq hne]
    · split
      · simp only [t_column.set_nth_cstr, Function.update_noteq hne]
      · rfl
  · split
    · simp only [t_column.get_nth, t_column.set_valid, t_column.set_nth_cstr,
        Function.update_noteq hne]
    · rfl

theorem column_closed_tcolumn {K : Type} [DecidableEq K] (env : t_env)
    (fcolumn scolumn : t_column Nat) (ps : t_process_state K) (w : t_column_writes) (k : Nat) :
    (column_step_closed env fcolumn scolumn ps w k).tcolumn =
      if row_is_insert ps k then w.tcolumn.set_nth k (row_transition env fcolumn scolumn ps k)
      else if row_kept ps k then
        w.tcolumn.set_nth (kept_below ps k) (some VALUE_TRANSITION_NEQ_TDF)
      else w.tcolumn := by
  unfold column_step_closed
  split
  · rfl
  · split <;> rfl

theorem column_loop_step {K : Type} [DecidableEq K] (env : t_env)
    (fcolumn scolumn : t_column Nat) (ps : t_process_state K) (st : t_mask_state K)
    (hmask : mask_inv ps ps.m_flattened_data_table.num_rows st)
    (hops : ops_known ps) (hlookup : ps.m_flattened_data_table.num_rows ≤ ps.m_lookup.length)
    (w : t_column_writes) (k : Nat) (hk : k < ps.m_flattened_data_table.num_rows) :
    ∃ wa, _process_column_string_loop env fcolumn scolumn st.process_state w k = some wa ∧
      _process_column_string_loop env fcolumn scolumn st.process_state w (k + 1) =
        some (column_step_closed env fcolumn scolumn ps wa k) := by
  obtain ⟨wa, hwa, -, -⟩ := column_loop_inv env fcolumn scolumn ps st hmask hops hlookup w k
    (by omega)
  refine ⟨wa, hwa, ?_⟩
  simp only [_process_column_string_loop, hwa, Option.bind_some]
  exact column_body_closed env fcolumn scolumn ps st hmask wa k hk (hops k hk) (by omega)

theorem column_loop_untouched {K : Type} [DecidableEq K] (env : t_env)
    (fcolumn scolumn : t_column Nat) (ps : t_process_state K) (st : t_mask_state K)
    (hmask : mask_inv ps ps.m_flattened_data_table.num_rows st)
    (hops : ops_known ps) (hlookup : ps.m_flattened_data_table.num_rows ≤ ps.m_lookup.length)
    (w : t_column_writes) (k : Nat) (hk : k ≤ ps.m_flattened_data_table.num_rows) :
    ∃ wk, _process_column_string_loop env fcolumn scolumn st.process_state w k = some wk ∧
      ∀ j, kept_below ps k ≤ j →
        wk.pcolumn.get_nth j = w.pcolumn.get_nth j ∧
        wk.pcolumn.is_valid j = w.pcolumn.is_valid j ∧
        wk.ccolumn.get_nth j = w.ccolumn.get_nth j ∧
        wk.ccolumn.is_valid j = w.ccolumn.is_valid j := by
  induction k with
  | zero => exact ⟨_, rfl, fun j _ => ⟨rfl, rfl, rfl, rfl⟩⟩
  | succ k ih =>
    obtain ⟨wk, hwk, hfr⟩ := ih (by omega)
    obtain ⟨wa, hwa, hstep⟩ := column_loop_step env fcolumn scolumn ps st hmask hops hlookup w
      k (by omega)
    rw [hwk] at hwa
    cases hwa
    refine ⟨_, hstep, ?_⟩
    intro j hj
    have hsucc := kept_below_succ ps k
    rcases Bool.eq_false_or_eq_true (row_kept ps k) with hkept | hkept
    · have hne : j ≠ kept_below ps k := by
        simp only [hkept, if_true] at hsucc
        omega
      obtain ⟨f1, f2, f3, -⟩ := column_closed_frame env fcolumn scolumn ps wk k j hne
      have f4 := column_closed_frame_cdata env fcolumn scolumn ps wk k j hne
      obtain ⟨g1, g2, g3, g4⟩ := hfr j (by omega)
      exact ⟨f2.trans g1, f1.trans g2, f4.trans g3, f3.trans g4⟩
    · rw [column_closed_skip env fcolumn scolumn ps wk k hkept]
      exact hfr j (by simp only [hkept, Bool.false_eq_true, if_false] at hsucc; omega)

theorem mask_loop_step {K : Type} [DecidableEq K] (ps : t_process_state K)
    (hops : ops_known ps) (hlookup : ps.m_flattened_data_table.num_rows ≤ ps.m_lookup.length)
    (k : Nat) (hk : k < ps.m_flattened_data_table.num_rows) :
    ∃ sa, _process_mask_existed_rows_loop ps k = some sa ∧ mask_inv ps k sa ∧
      _process_mask_existed_rows_loop ps (k + 1) = some (mask_step_closed ps sa k) := by
  obtain ⟨sa, hsa, hinv⟩ := mask_loop_inv ps hops hlookup k (by omega)
  refine ⟨sa, hsa, hinv, ?_⟩
  simp only [_process_mask_existed_rows_loop, hsa, Option.bind_some]
  exact mask_body_closed ps k sa hinv (hops k hk) (by omega)

theorem mask_loop_untouched {K : Type} [DecidableEq K] (ps : t_process_state K)
    (hops : ops_known ps) (hlookup : ps.m_flattened_data_table.num_rows ≤ ps.m_lookup.length)
    (k : Nat) (hk : k ≤ ps.m_flattened_data_table.num_rows) :
    ∃ sk, _process_mask_existed_rows_loop ps k = some sk ∧
      ∀ j, kept_below ps k ≤ j →
        sk.process_state.m_existed_data_table.psp_existed.get_nth j =
          ps.m_existed_data_table.psp_existed.get_nth j := by
  induction k with
  | zero => exact ⟨_, rfl, fun j _ => rfl⟩
  | succ k ih =>
    obtain ⟨sk, hsk, hfr⟩ := ih (by omega)
    obtain ⟨sa, hsa, hinv, hstep⟩ := mask_loop_step ps hops hlookup k (by omega)
    rw [hsk] at hsa
    cases hsa
    refine ⟨_, hstep, ?_⟩
    intro j hj
    have hsucc := kept_below_succ ps k
    rcases Bool.eq_false_or_eq_true (row_kept ps k) with hkept | hkept
    · have hne : j ≠ sk.added_count := by
        rw [hinv.count_eq]
        simp only [hkept, if_true] at hsucc
        omega
      simp only [mask_step_closed, hkept, if_true, t_column.get_nth, t_column.set_nth,
        Function.update_noteq hne]
      exact hfr j (by omega)
    · simp only [mask_step_closed, hkept, Bool.false_eq_true, if_false]
      exact hfr j (by simp only [hkept, Bool.false_eq_true, if_false] at hsucc; omega)

theorem kept_below_surj {K : Type} (ps : t_process_state K) (n j : Nat)
    (h : j < kept_below ps n) : ∃ i, i < n ∧ row_kept ps i = true ∧ kept_below ps i = j := by
  induction n with
  | zero => simp [kept_below] at h
  | succ n ih =>
    rw [kept_below_succ] at h
    by_cases hj : j < kept_below ps n
    · obtain ⟨i, hi, h1, h2⟩ := ih hj
      exact ⟨i, by omega, h1, h2⟩
    · rcases Bool.eq_false_or_eq_true (row_kept ps n) with hk | hk
      · simp only [hk, if_true] at h
        exact ⟨n, by omega, hk, by omega⟩
      · simp only [hk, Bool.false_eq_true, if_false] at h
        omega

/-- C21: for every flattened batch with ops in INSERT, DELETE (and a lookup entry per
row) the existence mask and the string routine return and agree on the output slots.
The map from a kept row `i` (mask bit true) to `added_offset[i]` is strictly increasing
and onto the slots below `mask.count() = added_count`.  Iteration `i` of the string
routine leaves the prev and current columns as they are when the mask bit of row `i` is
false; when it is true it sets the valid bits of both at slot `added_offset[i]` and
leaves every other slot of both as it is.  Iteration `i` of the mask loop does the same
on the existed column.  No slot at or beyond `added_count` of the three columns is
changed by the two loops. -/
theorem mask_and_string_routine_slots {K : Type} [DecidableEq K] (env : t_env)
    (fcolumn scolumn : t_column Nat) (ps : t_process_state K) (w : t_column_writes)
    (hops : ops_known ps)
    (hlookup : ps.m_flattened_data_table.num_rows ≤ ps.m_lookup.length)
    (hsize : fcolumn.m_size = ps.m_flattened_data_table.num_rows) :
    ∃ mask ps1 w1, _process_mask_existed_rows ps = some (mask, ps1) ∧
      _process_column_string env fcolumn scolumn ps1 w = some w1 ∧
      (∀ i, i < ps.m_flattened_data_table.num_rows → mask.m_bits i = true →
        ps1.m_added_offset i < mask.count) ∧
      (∀ i k, i < k → k < ps.m_flattened_data_table.num_rows → mask.m_bits i = true →
        mask.m_bits k = true → ps1.m_added_offset i < ps1.m_added_offset k) ∧
      (∀ j, j < mask.count → ∃ i, i < ps.m_flattened_data_table.num_rows ∧
        mask.m_bits i = true ∧ ps1.m_added_offset i = j) ∧
      (∀ i, i < ps.m_flattened_data_table.num_rows →
        ∃ wa wb, _process_column_string_loop env fcolumn scolumn ps1 w i = some wa ∧
          _process_column_string_loop env fcolumn scolumn ps1 w (i + 1) = some wb ∧
          (mask.m_bits i = false → wb.pcolumn = wa.pcolumn ∧ wb.ccolumn = wa.ccolumn) ∧
          (mask.m_bits i = true →
            wb.pcolumn.is_valid (ps1.m_added_offset i) =
              (if ps.m_flattened_data_table.psp_op i = OP_INSERT then
                row_prev_valid scolumn ps i
              else scolumn.is_valid (row_lookup_idx ps i)) ∧
            wb.ccolumn.is_valid (ps1.m_added_offset i) =
              (if ps.m_flattened_data_table.psp_op i = OP_INSERT then
                (fcolumn.is_valid i || row_prev_valid scolumn ps i)
              else scolumn.is_valid (row_lookup_idx ps i)) ∧
            ∀ j, j ≠ ps1.m_added_offset i →
              wb.pcolumn.get_nth j = wa.pcolumn.get_nth j ∧
              wb.pcolumn.is_valid j = wa.pcolumn.is_valid j ∧
              wb.ccolumn.get_nth j = wa.ccolumn.get_nth j ∧
              wb.ccolumn.is_valid j = wa.ccolumn.is_valid j)) ∧
      (∀ i, i < ps.m_flattened_data_table.num_rows →
        ∃ sa sb, _process_mask_existed_rows_loop ps i = some sa ∧
          _process_mask_existed_rows_loop ps (i + 1) = some sb ∧
          (mask.m_bits i = false →
            sb.process_state.m_existed_data_table = sa.process_state.m_existed_data_table) ∧
          (mask.m_bits i = true →
            sb.process_state.m_existed_data_table.psp_existed.get_nth (ps1.m_added_offset i) =
              existed_value ps i ∧
            ∀ j, j ≠ ps1.m_added_offset i →
              sb.process_state.m_existed_data_table.psp_existed.get_nth j =
                sa.process_state.m_existed_data_table.psp_existed.get_nth j)) ∧
      (∀ j, mask.count ≤ j →
        w1.pcolumn.get_nth j = w.pcolumn.get_nth j ∧
        w1.pcolumn.is_valid j = w.pcolumn.is_valid j ∧
        w1.ccolumn.get_nth j = w.ccolumn.get_nth j ∧
        w1.ccolumn.is_valid j = w.ccolumn.is_valid j ∧
        ps1.m_existed_data_table.psp_existed.get_nth j =
          ps.m_existed_data_table.psp_existed.get_nth j) := by
  obtain ⟨st, hloop, hmask⟩ := mask_loop_inv ps hops hlookup _ (Nat.le_refl _)
  have hcount : st.mask.count = kept_below ps ps.m_flattened_data_table.num_rows := by
    rw [mask_count_eq ps st hmask, hmask.count_eq]
  have hst : _process_mask_existed_rows ps = some (st.mask, st.process_state) := by
    simp [_process_mask_existed_rows, hloop, mask_count_eq ps st hmask]
  obtain ⟨w1, hw1, hfinal⟩ := column_loop_untouched env fcolumn scolumn ps st hmask hops
    hlookup w _ (Nat.le_refl _)
  obtain ⟨sk, hsk, hexisted⟩ := mask_loop_untouched ps hops hlookup _ (Nat.le_refl _)
  rw [hloop] at hsk
  cases hsk
  have hbit : ∀ i, i < ps.m_flattened_data_table.num_rows →
      st.mask.m_bits i = row_kept ps i := hmask.bits
  have hoff : ∀ i, i < ps.m_flattened_data_table.num_rows →
      st.process_state.m_added_offset i = kept_below ps i := hmask.offs
  have hins : ∀ i, (ps.m_flattened_data_table.psp_op i = OP_INSERT) ↔
      row_is_insert ps i = true := by
    intro i
    simp [row_is_insert]
  refine ⟨st.mask, st.process_state, w1, hst, ?_, ?_, ?_, ?_, ?_, ?_, ?_⟩
  · rw [_process_column_string, hsize]
    exact hw1
  · intro i hi hb
    rw [hoff i hi, hcount]
    exact kept_below_lt ps hi (by rw [← hbit i hi]; exact hb)
  · intro i k hik hk hb _
    rw [hoff i (by omega), hoff k hk]
    exact kept_below_lt ps hik (by rw [← hbit i (by omega)]; exact hb)
  · intro j hj
    rw [hcount] at hj
    obtain ⟨i, hi, h1, h2⟩ := kept_below_surj ps _ j hj
    exact ⟨i, hi, by rw [hbit i hi]; exact h1, by rw [hoff i hi]; exact h2⟩
  · intro i hi
    obtain ⟨wa, hwa, hstep⟩ := column_loop_step env fcolumn scolumn ps st hmask hops hlookup w
      i hi
    refine ⟨wa, _, hwa, hstep, ?_, ?_⟩
    · intro hb
      rw [hbit i hi] at hb
      rw [column_closed_skip env fcolumn scolumn ps wa i hb]
      exact ⟨rfl, rfl⟩
    · intro hb
      rw [hbit i hi] at hb
      obtain ⟨s1, s2⟩ := column_closed_slot env fcolumn scolumn ps wa i hb
      rw [hoff i hi]
      refine ⟨?_, ?_, ?_⟩
      · rw [s1]
        by_cases hop : ps.m_flattened_data_table.psp_op i = OP_INSERT
        · rw [if_pos hop, if_pos ((hins i).mp hop)]
        · rw [if_neg hop, if_neg (fun hh => hop ((hins i).mpr hh))]
      · rw [s2]
        by_cases hop : ps.m_flattened_data_table.psp_op i = OP_INSERT
        · rw [if_pos hop, if_pos ((hins i).mp hop)]
        · rw [if_neg hop, if_neg (fun hh => hop ((hins i).mpr hh))]
      · intro j hne
        obtain ⟨f1, f2, f3, -⟩ := column_closed_frame env fcolumn scolumn ps wa i j hne
        exact ⟨f2, f1, column_closed_frame_cdata env fcolumn scolumn ps wa i j hne, f3⟩
  · intro i hi
    obtain ⟨sa, hsa, hinv, hstep⟩ := mask_loop_step ps hops hlookup i hi
    refine ⟨sa, _, hsa, hstep, ?_, ?_⟩
    · intro hb
      rw [hbit i hi] at hb
      simp only [mask_step_closed, hb, Bool.false_eq_true, if_false]
    · intro hb
      rw [hbit i hi] at hb
      rw [hoff i hi, ← hinv.count_eq]
      refine ⟨?_, ?_⟩
      · simp only [mask_step_closed, hb, if_true, t_column.get_nth, t_column.set_nth,
          Function.update_same]
      · intro j hne
        simp only [mask_step_closed, hb, if_true, t_column.get_nth, t_column.set_nth,
          Function.update_noteq hne]
  · intro j hj
    rw [hcount] at hj
    obtain ⟨g1, g2, g3, g4⟩ := hfinal j hj
    exact ⟨g1, g2, g3, g4, hexisted j hj⟩

/-- C21, witness: the example batch (a delete that is dropped, an insert, a delete of a
mapped key) with its column `s`, on cleared prev, current and transitions columns. -/
theorem mask_and_string_routine_slots_witness :
    ∃ mask ps1 w1, _process_mask_existed_rows example_ps = some (mask, ps1) ∧
      _process_column_string t_env.off example_fcolumn example_scolumn ps1 cleared_writes =
        some w1 ∧
      (∀ i, i < example_ps.m_flattened_data_table.num_rows → mask.m_bits i = true →
        ps1.m_added_offset i < mask.count) ∧
      (∀ i k, i < k → k < example_ps.m_flattened_data_table.num_rows → mask.m_bits i = true →
        mask.m_bits k = true → ps1.m_added_offset i < ps1.m_added_offset k) ∧
      (∀ j, j < mask.count → ∃ i, i < example_ps.m_flattened_data_table.num_rows ∧
        mask.m_bits i = true ∧ ps1.m_added_offset i = j) ∧
      (∀ i, i < example_ps.m_flattened_data_table.num_rows →
        ∃ wa wb, _process_column_string_loop t_env.off example_fcolumn example_scolumn ps1
            cleared_writes i = some wa ∧
          _process_column_string_loop t_env.off example_fcolumn example_scolumn ps1
            cleared_writes (i + 1) = some wb ∧
          (mask.m_bits i = false → wb.pcolumn = wa.pcolumn ∧ wb.ccolumn = wa.ccolumn) ∧
          (mask.m_bits i = true →
            wb.pcolumn.is_valid (ps1.m_added_offset i) =
              (if example_ps.m_flattened_data_table.psp_op i = OP_INSERT then
                row_prev_valid example_scolumn example_ps i
              else example_scolumn.is_valid (row_lookup_idx example_ps i)) ∧
            wb.ccolumn.is_valid (ps1.m_added_offset i) =
              (if example_ps.m_flattened_data_table.psp_op i = OP_INSERT then
                (example_fcolumn.is_valid i || row_prev_valid example_scolumn example_ps i)
              else example_scolumn.is_valid (row_lookup_idx example_ps i)) ∧
            ∀ j, j ≠ ps1.m_added_offset i →
              wb.pcolumn.get_nth j = wa.pcolumn.get_nth j ∧
              wb.pcolumn.is_valid j = wa.pcolumn.is_valid j ∧
              wb.ccolumn.get_nth j = wa.ccolumn.get_nth j ∧
              wb.ccolumn.is_valid j = wa.ccolumn.is_valid j)) ∧
      (∀ i, i < example_ps.m_flattened_data_table.num_rows →
        ∃ sa sb, _process_mask_existed_rows_loop example_ps i = some sa ∧
          _process_mask_existed_rows_loop example_ps (i + 1) = some sb ∧
          (mask.m_bits i = false →
            sb.process_state.m_existed_data_table = sa.process_state.m_existed_data_table) ∧
          (mask.m_bits i = true →
            sb.process_state.m_existed_data_table.psp_existed.get_nth (ps1.m_added_offset i) =
              existed_value example_ps i ∧
            ∀ j, j ≠ ps1.m_added_offset i →
              sb.process_state.m_existed_data_table.psp_existed.get_nth j =
                sa.process_state.m_existed_data_table.psp_existed.get_nth j)) ∧
      (∀ j, mask.count ≤ j →
        w1.pcolumn.get_nth j = cleared_writes.pcolumn.get_nth j ∧
        w1.pcolumn.is_valid j = cleared_writes.pcolumn.is_valid j ∧
        w1.ccolumn.get_nth j = cleared_writes.ccolumn.get_nth j ∧
        w1.ccolumn.is_valid j = cleared_writes.ccolumn.is_valid j ∧
        ps1.m_existed_data_table.psp_existed.get_nth j =
          example_ps.m_existed_data_table.psp_existed.get_nth j) :=
  mask_and_string_routine_slots t_env.off example_fcolumn example_scolumn example_ps
    cleared_writes example_ps_ops_known example_ps_lookup example_fcolumn_size

theorem column_closed_tcolumn_aligned {K : Type} [DecidableEq K] (env : t_env)
    (fcolumn scolumn : t_column Nat) (ps : t_process_state K) (w : t_column_writes) (k : Nat)
    (hkept : row_kept ps k = true) (hslot : kept_below ps k = k) :
    (column_step_closed env fcolumn scolumn ps w k).tcolumn =
      w.tcolumn.set_nth k
        (if row_is_insert ps k then row_transition env fcolumn scolumn ps k
          else some VALUE_TRANSITION_NEQ_TDF) := by
  rw [column_closed_tcolumn, hslot]
  simp only [hkept, if_true]
  split <;> rfl

theorem column_loop_tcolumn_aligned {K : Type} [DecidableEq K] (env : t_env)
    (fcolumn scolumn : t_column Nat) (ps : t_process_state K) (st : t_mask_state K)
    (hmask : mask_inv ps ps.m_flattened_data_table.num_rows st)
    (hops : ops_known ps) (hlookup : ps.m_flattened_data_table.num_rows ≤ ps.m_lookup.length)
    (hall : ∀ i, i < ps.m_flattened_data_table.num_rows → row_kept ps i = true)
    (w : t_column_writes) (k : Nat) (hk : k ≤ ps.m_flattened_data_table.num_rows) :
    ∃ wk, _process_column_string_loop env fcolumn scolumn st.process_state w k = some wk ∧
      (∀ i, i < k → wk.tcolumn.get_nth i =
        (if row_is_insert ps i then row_transition env fcolumn scolumn ps i
          else some VALUE_TRANSITION_NEQ_TDF)) ∧
      (∀ j, k ≤ j → wk.tcolumn.get_nth j = w.tcolumn.get_nth j) := by
  induction k with
  | zero => exact ⟨_, rfl, fun i hi => absurd hi (Nat.not_lt_zero i), fun j _ => rfl⟩
  | succ k ih =>
    obtain ⟨wk, hwk, hlow, hhigh⟩ := ih (by omega)
    obtain ⟨wa, hwa, hstep⟩ := column_loop_step env fcolumn scolumn ps st hmask hops hlookup w
      k (by omega)
    rw [hwk] at hwa
    cases hwa
    have hslot : kept_below ps k = k := kept_below_all ps k (fun i hi => hall i (by omega))
    have ht := column_closed_tcolumn_aligned env fcolumn scolumn ps wk k (hall k (by omega))
      hslot
    refine ⟨_, hstep, ?_, ?_⟩
    · intro i hi
      rw [ht]
      by_cases hik : i = k
      · subst hik
        simp only [t_column.get_nth, t_column.set_nth, Function.update_same]
      · simp only [t_column.get_nth, t_column.set_nth, Function.update_noteq hik]
        exact hlow i (by omega)
    · intro j hj
      rw [ht]
      have hjk : j ≠ k := by omega
      simp only [t_column.get_nth, t_column.set_nth, Function.update_noteq hjk]
      exact hhigh j (by omega)

/-- C22: for a flattened batch with ops in INSERT, DELETE in which every delete row has
`lookup.exists`, the existence mask and the string routine return, every mask bit is
true and `added_offset[i] = i` for every row `i`.  Iteration `i` of the string routine
stores a code at slot `i` of the transitions column (the code of `calc_transition` on an
insert, `NEQ_TDF` on a delete) and leaves every other slot as it is; at the end slot `i`
holds the code stored by iteration `i` for every row `i` of the batch, and the slots at
or beyond the row count are unchanged. -/
theorem process_column_string_transitions_aligned {K : Type} [DecidableEq K] (env : t_env)
    (fcolumn scolumn : t_column Nat) (ps : t_process_state K) (w : t_column_writes)
    (hops : ops_known ps)
    (hlookup : ps.m_flattened_data_table.num_rows ≤ ps.m_lookup.length)
    (hsize : fcolumn.m_size = ps.m_flattened_data_table.num_rows)
    (hall : ∀ i, i < ps.m_flattened_data_table.num_rows →
      ps.m_flattened_data_table.psp_op i = OP_DELETE → row_lookup_exists ps i = true) :
    ∃ mask ps1 w1, _process_mask_existed_rows ps = some (mask, ps1) ∧
      _process_column_string env fcolumn scolumn ps1 w = some w1 ∧
      (∀ i, i < ps.m_flattened_data_table.num_rows →
        mask.m_bits i = true ∧ ps1.m_added_offset i = i) ∧
      (∀ i, i < ps.m_flattened_data_table.num_rows →
        ∃ wa wb, _process_column_string_loop env fcolumn scolumn ps1 w i = some wa ∧
          _process_column_string_loop env fcolumn scolumn ps1 w (i + 1) = some wb ∧
          wb.tcolumn.get_nth i =
            (if ps.m_flattened_data_table.psp_op i = OP_INSERT then
              row_transition env fcolumn scolumn ps i
            else some VALUE_TRANSITION_NEQ_TDF) ∧
          (∃ code, wb.tcolumn.get_nth i = some code) ∧
          ∀ j, j ≠ i → wb.tcolumn.get_nth j = wa.tcolumn.get_nth j) ∧
      (∀ i, i < ps.m_flattened_data_table.num_rows →
        w1.tcolumn.get_nth i =
          (if ps.m_flattened_data_table.psp_op i = OP_INSERT then
            row_transition env fcolumn scolumn ps i
          else some VALUE_TRANSITION_NEQ_TDF) ∧
        ∃ code, w1.tcolumn.get_nth i = some code) ∧
      (∀ j, ps.m_flattened_data_table.num_rows ≤ j →
        w1.tcolumn.get_nth j = w.tcolumn.get_nth j) := by
  obtain ⟨st, hst, hmask⟩ := mask_result ps hops hlookup
  have hkept : ∀ i, i < ps.m_flattened_data_table.num_rows → row_kept ps i = true := by
    intro i hi
    rcases hops i hi with hop | hop
    · simp [row_kept, row_is_insert, hop]
    · simp [row_kept, row_is_delete, hop, hall i hi hop]
  have hslot : ∀ i, i < ps.m_flattened_data_table.num_rows → kept_below ps i = i :=
    fun i hi => kept_below_all ps i (fun k hk => hkept k (by omega))
  have hexp : ∀ i,
      (if ps.m_flattened_data_table.psp_op i = OP_INSERT then
        row_transition env fcolumn scolumn ps i
      else some VALUE_TRANSITION_NEQ_TDF) =
      (if row_is_insert ps i then row_transition env fcolumn scolumn ps i
        else some VALUE_TRANSITION_NEQ_TDF) := by
    intro i
    by_cases hop : ps.m_flattened_data_table.psp_op i = OP_INSERT
    · simp only [row_is_insert, hop, if_true, decide_True]
    · simp only [row_is_insert, hop, if_false, decide_False, Bool.false_eq_true]
  have hcode : ∀ i, ∃ code,
      (if row_is_insert ps i then row_transition env fcolumn scolumn ps i
        else some VALUE_TRANSITION_NEQ_TDF) = some code := by
    intro i
    split
    · exact row_transition_total env fcolumn scolumn ps i
    · exact ⟨_, rfl⟩
  obtain ⟨w1, hw1, hlow, hhigh⟩ := column_loop_tcolumn_aligned env fcolumn scolumn ps st hmask
    hops hlookup hkept w _ (Nat.le_refl _)
  refine ⟨st.mask, st.process_state, w1, hst, ?_, ?_, ?_, ?_, hhigh⟩
  · rw [_process_column_string, hsize]
    exact hw1
  · intro i hi
    exact ⟨(hmask.bits i hi).trans (hkept i hi), (hmask.offs i hi).trans (hslot i hi)⟩
  · intro i hi
    obtain ⟨wa, hwa, hstep⟩ := column_loop_step env fcolumn scolumn ps st hmask hops hlookup w
      i hi
    have ht := column_closed_tcolumn_aligned env fcolumn scolumn ps wa i (hkept i hi)
      (hslot i hi)
    have hval : (column_step_closed env fcolumn scolumn ps wa i).tcolumn.get_nth i =
        (if row_is_insert ps i then row_transition env fcolumn scolumn ps i
          else some VALUE_TRANSITION_NEQ_TDF) := by
      rw [ht]
      simp only [t_column.get_nth, t_column.set_nth, Function.update_same]
    refine ⟨wa, _, hwa, hstep, ?_, ?_, ?_⟩
    · rw [hval, hexp]
    · obtain ⟨code, hc⟩ := hcode i
      exact ⟨code, hval.trans hc⟩
    · intro j hj
      rw [ht]
      simp only [t_column.get_nth, t_column.set_nth, Function.update_noteq hj]
  · intro i hi
    refine ⟨?_, ?_⟩
    · rw [hlow i hi, hexp]
    · obtain ⟨code, hc⟩ := hcode i
      exact ⟨code, (hlow i hi).trans hc⟩

theorem aligned_ps_ops_known : ops_known aligned_ps := by
  intro idx h
  have h2 : idx < 2 := h
  interval_cases idx
  · right; rfl
  · left; rfl

/-- C22, witness: the batch of a delete of a mapped key followed by an insert, with its
column `s`, on cleared prev, current and transitions columns. -/
theorem process_column_string_transitions_aligned_witness :
    ∃ mask ps1 w1, _process_mask_existed_rows aligned_ps = some (mask, ps1) ∧
      _process_column_string t_env.off delete_insert_fcolumn example_scolumn ps1
          cleared_writes = some w1 ∧
      (∀ i, i < aligned_ps.m_flattened_data_table.num_rows →
        mask.m_bits i = true ∧ ps1.m_added_offset i = i) ∧
      (∀ i, i < aligned_ps.m_flattened_data_table.num_rows →
        ∃ wa wb, _process_column_string_loop t_env.off delete_insert_fcolumn example_scolumn ps1
            cleared_writes i = some wa ∧
          _process_column_string_loop t_env.off delete_insert_fcolumn example_scolumn ps1
              cleared_writes (i + 1) = some wb ∧
          wb.tcolumn.get_nth i =
            (if aligned_ps.m_flattened_data_table.psp_op i = OP_INSERT then
              row_transition t_env.off delete_insert_fcolumn example_scolumn aligned_ps i
            else some VALUE_TRANSITION_NEQ_TDF) ∧
          (∃ code, wb.tcolumn.get_nth i = some code) ∧
          ∀ j, j ≠ i → wb.tcolumn.get_nth j = wa.tcolumn.get_nth j) ∧
      (∀ i, i < aligned_ps.m_flattened_data_table.num_rows →
        w1.tcolumn.get_nth i =
          (if aligned_ps.m_flattened_data_table.psp_op i = OP_INSERT then
            row_transition t_env.off delete_insert_fcolumn example_scolumn aligned_ps i
          else some VALUE_TRANSITION_NEQ_TDF) ∧
        ∃ code, w1.tcolumn.get_nth i = some code) ∧
      (∀ j, aligned_ps.m_flattened_data_table.num_rows ≤ j →
        w1.tcolumn.get_nth j = cleared_writes.tcolumn.get_nth j) :=
  process_column_string_transitions_aligned t_env.off delete_insert_fcolumn example_scolumn
    aligned_ps cleared_writes aligned_ps_ops_known (by decide) rfl
    (by
      intro i hi _
      have h2 : i < 2 := hi
      interval_cases i <;> rfl)

/-! ## Row-count parity of the incremental path -/

/-- The run on the example batch with the columns `s` and `n`, evaluated: the mask keeps
two of the three rows, the five transitional tables and the published table have two
rows, and the typed routine has run on column `n`: the prev column of `n` holds the
master values 10 and 11 and slot 1 of its transitions column holds `NEQ_TDF`. -/
theorem process_table_incremental_example :
    (_process_table_incremental t_env.off (_process_column_typed t_env.off) []
        ["s", "n"] example_sn_state example_sn_flattened example_ps.m_lookup
        cleared_sn_table cleared_sn_table cleared_sn_table cleared_sn_transitions
        example_ps.m_existed_data_table).map
      (fun out => (out.existed_mask.count, out.flattened_port.num_rows,
        out.process_state.m_delta_data_table.num_rows,
        out.process_state.m_prev_data_table.num_rows,
        out.process_state.m_current_data_table.num_rows,
        out.process_state.m_transitions_data_table.num_rows,
        out.process_state.m_existed_data_table.m_size,
        (out.process_state.m_prev_data_table.get_column "n").map
          (fun c => (c.get_nth 0, c.get_nth 1)),
        (out.process_state.m_transitions_data_table.get_column "n").map
          (fun c => c.get_nth 1))) =
      some (2, 2, 2, 2, 2, 2, 2, some (10, 11), some (some VALUE_TRANSITION_NEQ_TDF)) := by
  rfl

end perspective
